import Mathlib

/-!
# ContainMe VM: assembler and executor

A shallow embedding of `src/Main.cpp`.

* A `std::string` is the list of its characters (`Str`), one `Char` for each
  `char` of the C++ string.
* An `int` is an `Int` kept in the 32-bit two's-complement range by `wrap32`
  after every arithmetic operation; a `size_t` is a `Nat` below `2 ^ 64`
  and `toSizeT` is the conversion applied when an `int` meets a `size_t`.
* `std::map<std::string, int>` is an association list read with `List.lookup`.
* `std::stack<int>` is a list whose head is the top.
* Standard output is the list of the messages passed to `serial_log`, one
  entry for each call that prints.
* A thrown exception is a value of `Exn`; a function that can throw after it
  has changed the machine returns the machine together with the exception.
* The loop of `run_program` need not end: `run_loop` takes a bound on the
  number of iterations and `loop_state` gives the state at each loop test.
-/

set_option maxRecDepth 100000

deriving instance DecidableEq for Except

namespace Cmvm

/-! ## Strings -/

/-- A `std::string`: the sequence of its characters. -/
abbrev Str := List Char

/-- The character set `" \t\n\r"` used by `Assembler::trim`. -/
def trim_chars : Str := [' ', '\t', '\n', '\r']

/-- `str.find_first_not_of(chars)`: position of the first character that is
not in `chars`; `none` stands for `npos`. -/
def find_first_not_of (chars : Str) : Str → Option Nat
  | [] => none
  | c :: cs =>
    if chars.contains c then (find_first_not_of chars cs).map (· + 1) else some 0

/-- `str.find_last_not_of(chars)`: position of the last character that is not
in `chars`; `none` stands for `npos`. -/
def find_last_not_of (chars : Str) : Str → Option Nat
  | [] => none
  | c :: cs =>
    match find_last_not_of chars cs with
    | some k => some (k + 1)
    | none => if chars.contains c then none else some 0

/-- `str.substr(pos, n)`. -/
def substr (str : Str) (pos n : Nat) : Str := (str.drop pos).take n

/-- `str.substr(pos)`. -/
def substr_from (str : Str) (pos : Nat) : Str := str.drop pos

/-- `str.find(ch)`: position of the first occurrence of `ch`; `none` stands
for `npos`. -/
def find (ch : Char) : Str → Option Nat
  | [] => none
  | c :: cs => if c = ch then some 0 else (find ch cs).map (· + 1)

/-- `Assembler::trim` (Main.cpp 64-69). -/
def trim (str : Str) : Str :=
  match find_first_not_of trim_chars str with
  | none => str
  | some first =>
    match find_last_not_of trim_chars str with
    | none => str
    | some last => substr str first (last - first + 1)

/-- `isspace` in the "C" locale: the delimiters of `operator>>` and the
characters `strtol` skips. -/
def isspace (c : Char) : Bool :=
  c = ' ' || c = '\t' || c = '\n' || c = '\x0b' || c = '\x0c' || c = '\r'

/-- `toupper` in the "C" locale. -/
def toupper (c : Char) : Char :=
  if 'a' ≤ c ∧ c ≤ 'z' then Char.ofNat (c.toNat - 32) else c

/-- The successive results of `ss >> token` on a stream holding `s`, until
the extraction fails: the maximal runs of non-space characters, in order.
`cur` is the token being read, reversed. -/
def tokens_from (cur : Str) : Str → List Str
  | [] => if cur.isEmpty then [] else [cur.reverse]
  | c :: cs =>
    if isspace c then
      if cur.isEmpty then tokens_from [] cs else cur.reverse :: tokens_from [] cs
    else tokens_from (c :: cur) cs

/-- All tokens `operator>>` extracts from a `std::stringstream` over `s`. -/
def tokens (s : Str) : List Str := tokens_from [] s

/-! ## Integers -/

/-- Reduction of an integer to the range of a 32-bit `int`. -/
def wrap32 (x : Int) : Int := (x + 2147483648) % 4294967296 - 2147483648

/-- Conversion of an `int` to `size_t` (64 bits). -/
def toSizeT (x : Int) : Nat := (x % 18446744073709551616).toNat

/-- The decimal digit of `d < 10`. -/
def digit_char (d : Nat) : Char := Char.ofNat (48 + d)

/-- Decimal digits of `n`, most significant first, put in front of `acc`. -/
def nat_digits : Nat → Nat → Str → Str
  | 0, _, acc => acc
  | fuel + 1, n, acc =>
    if n < 10 then digit_char n :: acc
    else nat_digits fuel (n / 10) (digit_char (n % 10) :: acc)

/-- `std::to_string(int)`. -/
def to_string (v : Int) : Str :=
  if v < 0 then '-' :: nat_digits (v.natAbs + 1) v.natAbs []
  else nat_digits (v.natAbs + 1) v.natAbs []

/-! ## Assembler -/

/-- The `Instruction` struct (Main.cpp 52-55). -/
structure Instruction where
  opcode : Str
  args : List Str
deriving DecidableEq, Repr

/-- State of the first pass of `assemble`: the label map, the counter
`line_number` and `clean_code`. -/
structure Pass1 where
  label_map : List (Str × Int)
  line_number : Int
  clean_code : List Str
deriving DecidableEq, Repr

/-- The test `trimmed_line.empty() || trimmed_line[0] == '#'` (Main.cpp 82)
on the source line `line`. -/
def is_skipped (line : Str) : Bool :=
  (trim line).isEmpty || (trim line).head? = some '#'

/-- The message of the exception thrown for a duplicate label (Main.cpp 91). -/
def duplicate_label_error (label : Str) : Str :=
  "Assembler error: Duplicate label '".toList ++ label ++ "'".toList

/-- One iteration of the first loop of `assemble` (Main.cpp 79-101).
`Except.error` carries the message of the thrown `std::runtime_error`. -/
def first_pass_line (st : Pass1) (line : Str) : Except Str Pass1 :=
  let trimmed_line := trim line
  if is_skipped line then .ok st
  else
    match find ':' trimmed_line with
    | some label_pos =>
      let label := trim (substr trimmed_line 0 label_pos)
      if (st.label_map.lookup label).isSome then
        .error (duplicate_label_error label)
      else
        let label_map := (label, st.line_number) :: st.label_map
        let rest := trim (substr_from trimmed_line (label_pos + 1))
        if !rest.isEmpty then
          .ok ⟨label_map, wrap32 (st.line_number + 1), st.clean_code ++ [rest]⟩
        else .ok ⟨label_map, st.line_number, st.clean_code⟩
    | none =>
      if !trimmed_line.isEmpty then
        .ok ⟨st.label_map, wrap32 (st.line_number + 1), st.clean_code ++ [trimmed_line]⟩
      else .ok st

/-- The first loop of `assemble`, from a given state. -/
def first_pass_from : Pass1 → List Str → Except Str Pass1
  | st, [] => .ok st
  | st, line :: rest =>
    match first_pass_line st line with
    | .ok st1 => first_pass_from st1 rest
    | .error e => .error e

/-- The first pass of `assemble` (Main.cpp 73-101). -/
def first_pass (source_code : List Str) : Except Str Pass1 :=
  first_pass_from ⟨[], 0, []⟩ source_code

/-- The test `inst.opcode == "JUMP" || ... == "CALL" || ... == "JZE" || ... == "JNE"`. -/
def is_jump_opcode (op : Str) : Bool :=
  op = "JUMP".toList || op = "CALL".toList || op = "JZE".toList || op = "JNE".toList

/-- The statement `if (arg.back() == ',') arg.pop_back();` (Main.cpp 112). -/
def strip_comma (arg : Str) : Str :=
  if arg.getLast? = some ',' then arg.dropLast else arg

/-- The body of the argument loop (Main.cpp 112-119): what is pushed on
`inst.args` for the extracted token `arg`. -/
def resolve_arg (label_map : List (Str × Int)) (opcode : Str) (arg : Str) : Str :=
  let arg1 := strip_comma arg
  if is_jump_opcode opcode then
    match label_map.lookup arg1 with
    | some n => to_string n
    | none => arg1
  else arg1

/-- One iteration of the second loop of `assemble` (Main.cpp 105-121). -/
def parse_line (label_map : List (Str × Int)) (line : Str) : Instruction :=
  match tokens line with
  | [] => ⟨[], []⟩
  | tok :: toks =>
    let opcode := tok.map toupper
    ⟨opcode, toks.map (resolve_arg label_map opcode)⟩

/-- `Assembler::assemble` (Main.cpp 72-126); the line
`Assembled n instructions.` it logs is left out. -/
def assemble (source_code : List Str) : Except Str (List Instruction) :=
  match first_pass source_code with
  | .error e => .error e
  | .ok st => .ok (st.clean_code.map (parse_line st.label_map))

/-- The label a source line defines in the first pass (Main.cpp 82-89), if
the line is not skipped and holds a `:`. -/
def label_of (line : Str) : Option Str :=
  if is_skipped line then none
  else (find ':' (trim line)).map fun label_pos => trim (substr (trim line) 0 label_pos)

/-- The text a source line adds to `clean_code` in the first pass
(Main.cpp 82-98), if any. -/
def clean_of (line : Str) : Option Str :=
  if is_skipped line then none
  else
    let rest :=
      match find ':' (trim line) with
      | some label_pos => trim (substr_from (trim line) (label_pos + 1))
      | none => trim line
    if rest.isEmpty then none else some rest

/-- The counter `line_number` after a line that adds `o` to `clean_code`. -/
def bump (n : Int) (o : Option Str) : Int := if o.isSome then wrap32 (n + 1) else n

/-! ## The source lines as the specification describes them -/

/-- Membership in the character set of `trim`. -/
def is_trim_ws (c : Char) : Bool := trim_chars.contains c

/-- The text of `s` without the characters of `" \t\n\r"` at its two ends
(the spec's "trimmed" text). -/
def spec_trimmed (s : Str) : Str := (s.dropWhile is_trim_ws).rdropWhile is_trim_ws

/-- Spec: a line that is empty after trimming surrounding whitespace. -/
def spec_blank (line : Str) : Bool := (spec_trimmed line).isEmpty

/-- Spec: a line whose first non-whitespace character is `#`. -/
def spec_comment (line : Str) : Bool := (line.dropWhile is_trim_ws).head? = some '#'

/-- A character other than `:`. -/
def not_colon (c : Char) : Bool := c != ':'

/-- Spec: the label name of a line that contains a `:`, the trimmed
substring before the first `:`. -/
def spec_label (line : Str) : Option Str :=
  if ':' ∈ line then some (spec_trimmed (line.takeWhile not_colon)) else none

/-- Spec: the text of a line after its optional `label:` prefix, trimmed. -/
def spec_instr_text (line : Str) : Str :=
  if ':' ∈ line then spec_trimmed (line.dropWhile not_colon).tail else spec_trimmed line

/-- A string that neither starts nor ends with a character of `" \t\n\r"`. -/
def Tight (s : Str) : Prop :=
  (∀ c, s.head? = some c → is_trim_ws c = false) ∧
  (∀ c, s.getLast? = some c → is_trim_ws c = false)

/-! ## Executor -/

/-- The exceptions thrown inside `execute_instruction`. -/
inductive Exn where
  | out_of_range
  | invalid_argument
  | runtime_error (what : Str)
deriving DecidableEq, Repr

/-- The constant `DEBUG_MODE` (Main.cpp 13). -/
def DEBUG_MODE : Bool := true

/-- `serial_log` (Main.cpp 44-49): `out` is what standard output holds so
far, one entry per line. -/
def serial_log (out : List Str) (message : Str) (is_debug_msg : Bool) : List Str :=
  if is_debug_msg && !DEBUG_MODE then out else out ++ [message]

/-- The class `VM` (Main.cpp 16-39); `flags_zero` is `flags.zero`. -/
structure VM where
  memory : List Int
  system_stack : List Int
  program_counter : Int
  is_running : Bool
  flags_zero : Bool
deriving DecidableEq, Repr

/-- The constructor `VM()` (Main.cpp 28-30). -/
def VM.init : VM := ⟨List.replicate 256 0, [], 0, false, false⟩

/-- `isdigit`. -/
def isdigit (c : Char) : Bool := decide ('0' ≤ c) && decide (c ≤ '9')

/-- Value of a run of decimal digits. -/
def digits_value (ds : Str) : Nat := ds.foldl (fun n c => 10 * n + (c.toNat - 48)) 0

/-- The end of `std::stoi`: `std::invalid_argument` when no digit was read,
`std::out_of_range` when the value read does not fit an `int`. -/
def stoi_digits (negative : Bool) (ds : Str) : Except Exn Int :=
  if ds.isEmpty then .error .invalid_argument
  else
    let v : Int := if negative then -(digits_value ds : Int) else (digits_value ds : Int)
    if v < -2147483648 ∨ 2147483647 < v then .error .out_of_range else .ok v

/-- `std::stoi(str)`: leading `isspace` characters are skipped, then an
optional sign and the longest run of digits are read; what follows the
digits is ignored. -/
def stoi (str : Str) : Except Exn Int :=
  let s1 := str.dropWhile isspace
  let s2 := if s1.head? = some '-' ∨ s1.head? = some '+' then s1.tail else s1
  stoi_digits (s1.head? = some '-') (s2.takeWhile isdigit)

/-- `args.at(k)`. -/
def args_at (args : List Str) (k : Nat) : Except Exn Str :=
  match args[k]? with
  | some a => .ok a
  | none => .error .out_of_range

/-- `vm.memory.at(addr)` read: the `int` index is converted to `size_t`. -/
def mem_at (memory : List Int) (addr : Int) : Except Exn Int :=
  match memory[toSizeT addr]? with
  | some v => .ok v
  | none => .error .out_of_range

/-- `vm.memory.at(addr) = v`. -/
def mem_set (memory : List Int) (addr : Int) (v : Int) : Except Exn (List Int) :=
  if toSizeT addr < memory.length then .ok (memory.set (toSizeT addr) v)
  else .error .out_of_range

/-- `std::stoi(args.at(k))`. -/
def arg_int (args : List Str) (k : Nat) : Except Exn Int :=
  match args_at args k with
  | .ok a => stoi a
  | .error e => .error e

/-- What one call of `execute_instruction` leaves behind: the machine, the
standard output, and the exception in flight, if any. -/
structure Exec (ε : Type) where
  vm : VM
  out : List Str
  thrown : Option ε
deriving DecidableEq, Repr

/-- An `Except` computation that touches the machine only on success. -/
def Exec.of (vm : VM) (out : List Str) (r : Except Exn (VM × List Str)) : Exec Exn :=
  match r with
  | .ok (vm1, out1) => ⟨vm1, out1, none⟩
  | .error e => ⟨vm, out, some e⟩

/-- The branch `PRINT` (Main.cpp 137-138). -/
def exec_PRINT (vm : VM) (args : List Str) (out : List Str) : Exec Exn :=
  Exec.of vm out do
    let addr ← arg_int args 0
    let v ← mem_at vm.memory addr
    pure (vm, serial_log out (to_string v) false)

/-- The branch `LOAD` (Main.cpp 140-142). -/
def exec_LOAD (vm : VM) (args : List Str) (out : List Str) : Exec Exn :=
  Exec.of vm out do
    let dest ← arg_int args 0
    let src ← arg_int args 1
    let v ← mem_at vm.memory src
    let memory ← mem_set vm.memory dest v
    pure ({ vm with memory := memory }, out)

/-- The branch `LOADI` (Main.cpp 144-146). -/
def exec_LOADI (vm : VM) (args : List Str) (out : List Str) : Exec Exn :=
  Exec.of vm out do
    let addr ← arg_int args 0
    let val ← arg_int args 1
    let memory ← mem_set vm.memory addr val
    pure ({ vm with memory := memory }, out)

/-- The branches `ADD`, `SUB` and `MUL` (Main.cpp 148-158), `f` being the
operation on the two cells. -/
def exec_arith (f : Int → Int → Int) (vm : VM) (args : List Str) (out : List Str) :
    Exec Exn :=
  Exec.of vm out do
    let addr1 ← arg_int args 0
    let addr2 ← arg_int args 1
    let b ← mem_at vm.memory addr2
    let a ← mem_at vm.memory addr1
    let memory ← mem_set vm.memory addr1 (wrap32 (f a b))
    pure ({ vm with memory := memory }, out)

/-- The branch `CMP` (Main.cpp 160-162). -/
def exec_CMP (vm : VM) (args : List Str) (out : List Str) : Exec Exn :=
  Exec.of vm out do
    let addr1 ← arg_int args 0
    let val1 ← mem_at vm.memory addr1
    let addr2 ← arg_int args 1
    let val2 ← mem_at vm.memory addr2
    pure ({ vm with flags_zero := decide (val1 = val2) }, out)

/-- The statement `vm.program_counter = std::stoi(args.at(0)) - 1;` of the
branches `JUMP`, `JZE`, `JNE` and `CALL` (Main.cpp 164, 167, 171, 183). -/
def exec_goto (vm : VM) (args : List Str) (out : List Str) : Exec Exn :=
  Exec.of vm out do
    let target ← arg_int args 0
    pure ({ vm with program_counter := wrap32 (target - 1) }, out)

/-- The branch `JZE` (Main.cpp 166-168). -/
def exec_JZE (vm : VM) (args : List Str) (out : List Str) : Exec Exn :=
  if vm.flags_zero then exec_goto vm args out else ⟨vm, out, none⟩

/-- The branch `JNE` (Main.cpp 170-172). -/
def exec_JNE (vm : VM) (args : List Str) (out : List Str) : Exec Exn :=
  if !vm.flags_zero then exec_goto vm args out else ⟨vm, out, none⟩

/-- The branch `PUSH` (Main.cpp 174). -/
def exec_PUSH (vm : VM) (args : List Str) (out : List Str) : Exec Exn :=
  Exec.of vm out do
    let addr ← arg_int args 0
    let v ← mem_at vm.memory addr
    pure ({ vm with system_stack := v :: vm.system_stack }, out)

/-- The branch `PUSHI` (Main.cpp 176). -/
def exec_PUSHI (vm : VM) (args : List Str) (out : List Str) : Exec Exn :=
  Exec.of vm out do
    let v ← arg_int args 0
    pure ({ vm with system_stack := v :: vm.system_stack }, out)

/-- The branch `POP` (Main.cpp 178-180); the right operand
`vm.system_stack.top()` of the assignment is read first. -/
def exec_POP (vm : VM) (args : List Str) (out : List Str) : Exec Exn :=
  match vm.system_stack with
  | [] => ⟨vm, out, some (.runtime_error "Stack underflow".toList)⟩
  | top :: below =>
    Exec.of vm out do
      let addr ← arg_int args 0
      let memory ← mem_set vm.memory addr top
      pure ({ vm with memory := memory, system_stack := below }, out)

/-- The branch `CALL` (Main.cpp 182-183): the return address is pushed
before the argument is read. -/
def exec_CALL (vm : VM) (args : List Str) (out : List Str) : Exec Exn :=
  exec_goto { vm with system_stack := wrap32 (vm.program_counter + 1) :: vm.system_stack }
    args out

/-- The branch `RET` (Main.cpp 185-187). -/
def exec_RET (vm : VM) (out : List Str) : Exec Exn :=
  match vm.system_stack with
  | [] => ⟨vm, out, some (.runtime_error "Stack underflow on RET".toList)⟩
  | top :: below =>
    ⟨{ vm with program_counter := wrap32 (top - 1), system_stack := below }, out, none⟩

/-- The `try` block of `execute_instruction` (Main.cpp 136-192). -/
def execute_try (vm : VM) (inst : Instruction) (out : List Str) : Exec Exn :=
  if inst.opcode = "PRINT".toList then exec_PRINT vm inst.args out
  else if inst.opcode = "LOAD".toList then exec_LOAD vm inst.args out
  else if inst.opcode = "LOADI".toList then exec_LOADI vm inst.args out
  else if inst.opcode = "ADD".toList then exec_arith (fun a b => a + b) vm inst.args out
  else if inst.opcode = "SUB".toList then exec_arith (fun a b => a - b) vm inst.args out
  else if inst.opcode = "MUL".toList then exec_arith (fun a b => a * b) vm inst.args out
  else if inst.opcode = "CMP".toList then exec_CMP vm inst.args out
  else if inst.opcode = "JUMP".toList then exec_goto vm inst.args out
  else if inst.opcode = "JZE".toList then exec_JZE vm inst.args out
  else if inst.opcode = "JNE".toList then exec_JNE vm inst.args out
  else if inst.opcode = "PUSH".toList then exec_PUSH vm inst.args out
  else if inst.opcode = "PUSHI".toList then exec_PUSHI vm inst.args out
  else if inst.opcode = "POP".toList then exec_POP vm inst.args out
  else if inst.opcode = "CALL".toList then exec_CALL vm inst.args out
  else if inst.opcode = "RET".toList then exec_RET vm out
  else if inst.opcode = "HALT".toList then ⟨{ vm with is_running := false }, out, none⟩
  else
    ⟨vm, out,
      some (.runtime_error ("Unknown instruction '".toList ++ inst.opcode ++ "'".toList))⟩

/-- The handlers of `execute_instruction` (Main.cpp 193-197): the message of
the `std::runtime_error` that leaves the function. -/
def rethrow (op : Str) : Exn → Str
  | .out_of_range =>
    "Execution error for ".toList ++ op ++ ": Invalid memory address or argument count.".toList
  | .invalid_argument =>
    "Execution error for ".toList ++ op ++ ": Invalid number format in arguments.".toList
  | .runtime_error what => what

/-- `execute_instruction` (Main.cpp 131-198); `thrown` is the `what()` of the
`std::runtime_error` it throws. -/
def execute_instruction (vm : VM) (inst : Instruction) (out : List Str) : Exec Str :=
  let r := execute_try vm inst out
  ⟨r.vm, r.out, r.thrown.map (rethrow inst.opcode)⟩

/-- The loop test of `run_program` (Main.cpp 222); the `int` counter is
converted to `size_t` for the comparison. -/
def loop_cond (vm : VM) (program : List Instruction) : Bool :=
  vm.is_running && decide (toSizeT vm.program_counter < program.length)

/-- The fetch `program[vm.program_counter]` (Main.cpp 223), done when the
loop test holds; `none` when the loop test fails. -/
def fetch (vm : VM) (program : List Instruction) : Option Instruction :=
  if loop_cond vm program then program[toSizeT vm.program_counter]? else none

/-- The text of `debug_line` (Main.cpp 224-225). -/
def debug_line (vm : VM) (inst : Instruction) : Str :=
  inst.args.foldl (fun line arg => line ++ " ".toList ++ arg)
    ("PC:".toList ++ to_string vm.program_counter ++ " > ".toList ++ inst.opcode)

/-- The text of the line written by the handler of `run_program`
(Main.cpp 231). -/
def fatal_line (pc : Int) (what : Str) : Str :=
  "FATAL ERROR at line ".toList ++ to_string pc ++ ": ".toList ++ what

/-- The body of the loop of `run_program` (Main.cpp 223-234) for the fetched
instruction `inst`. -/
def cycle (vm : VM) (inst : Instruction) (out : List Str) : VM × List Str :=
  let out1 := serial_log out (debug_line vm inst) true
  let r := execute_instruction vm inst out1
  match r.thrown with
  | some what =>
    ({ r.vm with is_running := false,
                 program_counter := wrap32 (r.vm.program_counter + 1) },
     serial_log r.out (fatal_line r.vm.program_counter what) false)
  | none => ({ r.vm with program_counter := wrap32 (r.vm.program_counter + 1) }, r.out)

/-- The loop of `run_program` (Main.cpp 222-235). `fuel` bounds the number
of iterations; `none` means the bound was reached. -/
def run_loop : Nat → List Instruction → VM → List Str → Option (VM × List Str)
  | 0, _, _, _ => none
  | fuel + 1, program, vm, out =>
    match fetch vm program with
    | some inst => run_loop fuel program (cycle vm inst out).1 (cycle vm inst out).2
    | none => some (vm, out)

/-- `run_program` (Main.cpp 217-242), started with an empty standard output. -/
def run_program (fuel : Nat) (vm : VM) (program : List Instruction) :
    Option (VM × List Str) :=
  let out0 := serial_log [] "--- Executing Program ---".toList true
  match run_loop fuel program { vm with is_running := true, program_counter := 0 } out0 with
  | none => none
  | some (vm1, out1) =>
    if vm1.is_running then some (vm1, serial_log out1 "--- Program Completed ---".toList true)
    else some (vm1, serial_log out1 "--- Program Halted ---".toList true)

/-- The machine and the standard output at the `n`-th evaluation of the loop
test of `run_program` (Main.cpp 222), counted from 0, when the loop is
entered with `vm` and `out`; `none` when the loop has ended before. -/
def loop_state (program : List Instruction) : Nat → VM → List Str → Option (VM × List Str)
  | 0, vm, out => some (vm, out)
  | n + 1, vm, out =>
    match fetch vm program with
    | some inst => loop_state program n (cycle vm inst out).1 (cycle vm inst out).2
    | none => none

/-- The machine and the standard output at the `n`-th evaluation of the loop
test in `run_program vm program`. -/
def run_state (program : List Instruction) (vm : VM) (n : Nat) : Option (VM × List Str) :=
  loop_state program n { vm with is_running := true, program_counter := 0 }
    (serial_log [] "--- Executing Program ---".toList true)

/-- The lines of standard output written by the handler of `run_program`
(Main.cpp 231). -/
def is_fatal (line : Str) : Bool := "FATAL ERROR at line ".toList.isPrefixOf line

/-- What the machine keeps when the `try` block throws. -/
def KeptOnThrow (vm : VM) (out : List Str) (r : Exec Exn) : Prop :=
  ∀ e, r.thrown = some e →
    r.vm.memory = vm.memory ∧ r.vm.program_counter = vm.program_counter ∧
    r.vm.is_running = vm.is_running ∧ r.vm.flags_zero = vm.flags_zero ∧ r.out = out

/-- The argument at position `k` is read as an integer that is an index of
the memory. -/
def InRange (vm : VM) (args : List Str) (k : Nat) : Prop :=
  ∃ addr, arg_int args k = .ok addr ∧ toSizeT addr < vm.memory.length

/-- The arguments that are memory addresses: the opcode and the position of
the argument (Main.cpp 137-180). -/
def address_args : List (Str × Nat) :=
  [("PRINT".toList, 0), ("LOAD".toList, 0), ("LOAD".toList, 1), ("LOADI".toList, 0),
   ("ADD".toList, 0), ("ADD".toList, 1), ("SUB".toList, 0), ("SUB".toList, 1),
   ("MUL".toList, 0), ("MUL".toList, 1), ("CMP".toList, 0), ("CMP".toList, 1),
   ("PUSH".toList, 0), ("POP".toList, 0)]

/-! ## Sample inputs -/

/-- The machine at the first loop test of `run_program`, started on a new
machine. -/
def sample_vm : VM := { VM.init with is_running := true }

/-- The standard output at the first loop test of `run_program`. -/
def sample_out : List Str := ["--- Executing Program ---".toList]

/-- A running machine whose cells 0 and 1 hold 3 and 4. -/
def sample_cells : VM := { sample_vm with memory := 3 :: 4 :: List.replicate 254 0 }

/-- A program whose only instruction faults: the stack is empty. -/
def sample_faulty : List Instruction := [⟨"POP".toList, ["0".toList]⟩]

/-- A program that calls the subroutine at index 2 and halts on return. -/
def sample_call : List Instruction :=
  [⟨"CALL".toList, ["2".toList]⟩, ⟨"HALT".toList, []⟩, ⟨"RET".toList, []⟩]

/-- The machine of `sample_call` after the cycle of `CALL 2`. -/
def sample_called : VM := { sample_vm with program_counter := 2, system_stack := [1] }

/-- A program that jumps past its end. -/
def sample_jump_out : List Instruction := [⟨"JUMP".toList, ["7".toList]⟩]

/-- The machine after the cycle of `sample_jump_out`. -/
def sample_jumped : VM := { sample_vm with program_counter := 7 }


/-- A source with a backward and a forward label reference. -/
def sample_source : List Str :=
  ["start: LOADI 0 5".toList, "JNE end".toList, "JUMP start".toList, "end: HALT".toList]

/-- The program `assemble` returns for `sample_source`. -/
def sample_program : List Instruction :=
  [⟨"LOADI".toList, ["0".toList, "5".toList]⟩, ⟨"JNE".toList, ["3".toList]⟩,
   ⟨"JUMP".toList, ["0".toList]⟩, ⟨"HALT".toList, []⟩]

/-- The core of `main` (Main.cpp 262-268) on the source lines `source`: the
program is assembled and run on a new machine. `.error` carries the message
of the assembler; `.ok none` means that `fuel` iterations did not end the
run. -/
def run_source (fuel : Nat) (source : List Str) : Except Str (Option (VM × List Str)) :=
  match assemble source with
  | .ok program => .ok (run_program fuel VM.init program)
  | .error e => .error e

/-- The test program of the comparison: the two cells are equal. -/
def sample_compare : List Str :=
  ["LOADI 0 3".toList, "LOADI 1 3".toList, "CMP 0 1".toList, "JZE done".toList,
   "LOADI 2 1".toList, "done: PRINT 2".toList]

/-- The standard output of `sample_compare`. -/
def sample_compare_out : List Str :=
  ["--- Executing Program ---".toList, "PC:0 > LOADI 0 3".toList, "PC:1 > LOADI 1 3".toList,
   "PC:2 > CMP 0 1".toList, "PC:3 > JZE 5".toList, "PC:5 > PRINT 2".toList, "0".toList,
   "--- Program Completed ---".toList]

/-- A program that pushes, pops and prints. -/
def sample_stack : List Str := ["PUSHI 7".toList, "POP 0".toList, "PRINT 0".toList]

/-- The standard output of `sample_stack`. -/
def sample_stack_out : List Str :=
  ["--- Executing Program ---".toList, "PC:0 > PUSHI 7".toList, "PC:1 > POP 0".toList,
   "PC:2 > PRINT 0".toList, "7".toList, "--- Program Completed ---".toList]

/-- A program that pops the empty stack. -/
def sample_underflow : List Str := ["POP 0".toList, "PRINT 0".toList]

/-- The standard output of `sample_underflow`. -/
def sample_underflow_out : List Str :=
  ["--- Executing Program ---".toList, "PC:0 > POP 0".toList,
   "FATAL ERROR at line 0: Stack underflow".toList, "--- Program Halted ---".toList]

/-- A program that halts before its `PRINT`. -/
def sample_halt : List Instruction := [⟨"HALT".toList, []⟩, ⟨"PRINT".toList, ["0".toList]⟩]

/-- The opcodes `execute_instruction` knows (Main.cpp 136-188). -/
def known_opcodes : List Str :=
  ["PRINT".toList, "LOAD".toList, "LOADI".toList, "ADD".toList, "SUB".toList, "MUL".toList,
   "CMP".toList, "JUMP".toList, "JZE".toList, "JNE".toList, "PUSH".toList, "PUSHI".toList,
   "POP".toList, "CALL".toList, "RET".toList, "HALT".toList]

/-- The result `r` with `zero_flag` set to `f`. -/
def with_flag (f : Bool) (r : Exec Exn) : Exec Exn :=
  ⟨{ r.vm with flags_zero := f }, r.out, r.thrown⟩

/-- The arguments that are read as integers: the opcode and the position of
the argument (Main.cpp 137-183). -/
def integer_args : List (Str × Nat) :=
  [("PRINT".toList, 0), ("LOAD".toList, 0), ("LOAD".toList, 1), ("LOADI".toList, 0),
   ("LOADI".toList, 1), ("ADD".toList, 0), ("ADD".toList, 1), ("SUB".toList, 0),
   ("SUB".toList, 1), ("MUL".toList, 0), ("MUL".toList, 1), ("CMP".toList, 0),
   ("CMP".toList, 1), ("JUMP".toList, 0), ("JZE".toList, 0), ("JNE".toList, 0),
   ("PUSH".toList, 0), ("PUSHI".toList, 0), ("POP".toList, 0), ("CALL".toList, 0)]

/-- The number of arguments each opcode reads (Main.cpp 137-183). -/
def required_args : List (Str × Nat) :=
  [("PRINT".toList, 1), ("PUSH".toList, 1), ("PUSHI".toList, 1), ("POP".toList, 1),
   ("JUMP".toList, 1), ("JZE".toList, 1), ("JNE".toList, 1), ("CALL".toList, 1),
   ("LOAD".toList, 2), ("LOADI".toList, 2), ("ADD".toList, 2), ("SUB".toList, 2),
   ("MUL".toList, 2), ("CMP".toList, 2)]

/-- Two states of the first pass that give the same program: the same
label map and counter, and clean lines that decode alike. -/
def Pass1.Same (a b : Pass1) : Prop :=
  a.label_map = b.label_map ∧ a.line_number = b.line_number ∧
  ∀ m, a.clean_code.map (parse_line m) = b.clean_code.map (parse_line m)

/-- Two results of the first pass that give the same program or the same
error. -/
def SameResult : Except Str Pass1 → Except Str Pass1 → Prop
  | .ok a, .ok b => Pass1.Same a b
  | .error e, .error f => e = f
  | _, _ => False

/-- A source whose first line has a label and a lower-case mnemonic. -/
def sample_case_lower : List Str := ["loop: pushi 7,".toList, "Jump loop".toList]

/-- The source `sample_case_lower` with the mnemonic of its first line in
upper case. -/
def sample_case_upper : List Str := ["loop: PUSHI 7,".toList, "Jump loop".toList]

/-- The source of the two lines `LOADI a v` and `PRINT a`. -/
def loadi_print_source (a v : Int) : List Str :=
  ["LOADI ".toList ++ to_string a ++ ' ' :: to_string v, "PRINT ".toList ++ to_string a]

/-- The program of `loadi_print_source`. -/
def loadi_print_program (a v : Int) : List Instruction :=
  [⟨"LOADI".toList, [to_string a, to_string v]⟩, ⟨"PRINT".toList, [to_string a]⟩]

/-- The standard output of the run of `loadi_print_source`: the two trace
lines of the debug mode, the line written by `PRINT` and the closing line. -/
def loadi_print_out (a v : Int) : List Str :=
  ["--- Executing Program ---".toList,
   "PC:0 > LOADI ".toList ++ to_string a ++ ' ' :: to_string v,
   "PC:1 > PRINT ".toList ++ to_string a, to_string v, "--- Program Completed ---".toList]

/-- Spec: a well-formed decimal integer literal, an optional sign followed by
one or more digits and nothing else. -/
def spec_integer_literal (s : Str) : Bool :=
  let ds := if s.head? = some '-' ∨ s.head? = some '+' then s.tail else s
  !ds.isEmpty && ds.all isdigit

/-- A program whose first argument is a number followed by letters. -/
def sample_malformed : List Str := ["PUSHI 5abc".toList, "POP 0".toList, "PRINT 0".toList]

/-- The standard output of `sample_malformed`. -/
def sample_malformed_out : List Str :=
  ["--- Executing Program ---".toList, "PC:0 > PUSHI 5abc".toList, "PC:1 > POP 0".toList,
   "PC:2 > PRINT 0".toList, "5".toList, "--- Program Completed ---".toList]

/-- A source that names the label `f` in the arguments of seven opcodes. -/
def sample_labels : List Str :=
  ["f: push f,".toList, "jump f".toList, "Call f,".toList, "jze f".toList, "JNE f".toList,
   "loadi f g".toList, "ret f".toList, "jump g".toList]

/-- The program of `sample_labels`. -/
def sample_labels_program : List Instruction :=
  [⟨"PUSH".toList, ["f".toList]⟩, ⟨"JUMP".toList, ["0".toList]⟩,
   ⟨"CALL".toList, ["0".toList]⟩, ⟨"JZE".toList, ["0".toList]⟩,
   ⟨"JNE".toList, ["0".toList]⟩, ⟨"LOADI".toList, ["f".toList, "g".toList]⟩,
   ⟨"RET".toList, ["f".toList]⟩, ⟨"JUMP".toList, ["g".toList]⟩]

/-! ## Trimming -/

theorem rdropWhile_cons {α : Type} (p : α → Bool) (c : α) (cs : List α) :
    List.rdropWhile p (c :: cs) =
      if (List.rdropWhile p cs).isEmpty then (if p c then [] else [c])
      else c :: List.rdropWhile p cs := by
  unfold List.rdropWhile
  rw [List.reverse_cons, List.dropWhile_append]
  by_cases h : (List.dropWhile p cs.reverse).isEmpty = true
  · have h2 : List.dropWhile p cs.reverse = [] := List.isEmpty_iff.1 h
    simp only [h2, List.reverse_nil, List.isEmpty_nil, if_true]
    by_cases hc : p c = true <;> simp [List.dropWhile, hc]
  · have h2 : (List.dropWhile p cs.reverse).reverse.isEmpty = false := by
      simpa [List.isEmpty_iff] using h
    simp [h, h2]

theorem rdropWhile_append_of_ne {α : Type} (p : α → Bool) (a b : List α)
    (h : List.rdropWhile p b ≠ []) :
    List.rdropWhile p (a ++ b) = a ++ List.rdropWhile p b := by
  unfold List.rdropWhile at h ⊢
  have h2 : (List.dropWhile p b.reverse).isEmpty = false := by
    cases hd : List.dropWhile p b.reverse with
    | nil => rw [hd] at h; simp at h
    | cons x xs => rfl
  rw [List.reverse_append, List.dropWhile_append, h2]
  simp

theorem rdropWhile_dropWhile_ne {α : Type} (p : α → Bool) (s : List α)
    (h : s.dropWhile p ≠ []) : List.rdropWhile p (s.dropWhile p) ≠ [] := by
  intro hn
  rw [List.rdropWhile_eq_nil_iff] at hn
  apply h
  rw [← List.dropWhile_idempotent]
  exact List.dropWhile_eq_nil_iff.2 hn

theorem find_first_not_of_spec (s : Str) :
    match find_first_not_of trim_chars s with
    | none => s.dropWhile is_trim_ws = []
    | some k => s.drop k = s.dropWhile is_trim_ws ∧ s.dropWhile is_trim_ws ≠ [] := by
  induction s with
  | nil => simp [find_first_not_of]
  | cons c cs ih =>
    unfold find_first_not_of
    by_cases hc : trim_chars.contains c = true
    · have hw : is_trim_ws c = true := hc
      rw [if_pos hc]
      cases hf : find_first_not_of trim_chars cs with
      | none => rw [hf] at ih; simpa [List.dropWhile, hw] using ih
      | some k => rw [hf] at ih; simpa [List.dropWhile, hw] using ih
    · have hw : is_trim_ws c = false := by simpa [is_trim_ws] using hc
      rw [if_neg hc]
      simp [List.dropWhile, hw]

theorem find_last_not_of_spec (s : Str) :
    match find_last_not_of trim_chars s with
    | none => s.rdropWhile is_trim_ws = []
    | some k => s.take (k + 1) = s.rdropWhile is_trim_ws := by
  induction s with
  | nil => simp [find_last_not_of]
  | cons c cs ih =>
    unfold find_last_not_of
    rw [rdropWhile_cons]
    cases hf : find_last_not_of trim_chars cs with
    | some k =>
      rw [hf] at ih
      simp only at ih ⊢
      have hcs : cs ≠ [] := by
        rintro rfl
        simp [find_last_not_of] at hf
      have hne : (List.rdropWhile is_trim_ws cs).isEmpty = false := by
        rw [← ih]; simp [hcs]
      rw [hne]
      simp [List.take, ih]
    | none =>
      rw [hf] at ih
      simp only at ih ⊢
      rw [ih]
      by_cases hc : trim_chars.contains c = true
      · have hw : is_trim_ws c = true := hc
        rw [if_pos hc]
        simp [hw]
      · have hw : is_trim_ws c = false := by simpa [is_trim_ws] using hc
        rw [if_neg hc]
        simp [hw]

/-- What `Assembler::trim` returns: a string made only of characters of
`" \t\n\r"` comes back unchanged, any other string loses the characters of
the set at both ends. -/
theorem trim_eq (s : Str) :
    trim s = if s.dropWhile is_trim_ws = [] then s
      else (s.dropWhile is_trim_ws).rdropWhile is_trim_ws := by
  have h1 := find_first_not_of_spec s
  have h2 := find_last_not_of_spec s
  unfold trim
  cases hf : find_first_not_of trim_chars s with
  | none => rw [hf] at h1; simp only at h1 ⊢; rw [if_pos h1]
  | some first =>
    rw [hf] at h1
    simp only at h1 ⊢
    rw [if_neg h1.2, ← h1.1]
    cases hl : find_last_not_of trim_chars s with
    | none =>
      rw [hl] at h2
      simp only at h2
      exfalso
      apply h1.2
      rw [List.rdropWhile_eq_nil_iff] at h2
      exact List.dropWhile_eq_nil_iff.2 h2
    | some last =>
      rw [hl] at h2
      simp only at h2 ⊢
      have hs : List.takeWhile is_trim_ws s ++ List.dropWhile is_trim_ws s = s :=
        List.takeWhile_append_dropWhile _ _
      have hr := rdropWhile_append_of_ne is_trim_ws (List.takeWhile is_trim_ws s)
        (List.dropWhile is_trim_ws s) (rdropWhile_dropWhile_ne _ _ h1.2)
      rw [hs] at hr
      have hne := rdropWhile_dropWhile_ne is_trim_ws s h1.2
      have hlen1 := congrArg List.length h1.1
      have hlen2 := congrArg List.length hs
      have hlen3 := congrArg List.length (h2.trans hr)
      have hpos : 0 < (List.rdropWhile is_trim_ws (List.dropWhile is_trim_ws s)).length :=
        List.length_pos.2 hne
      have hpos2 : 0 < (List.dropWhile is_trim_ws s).length := List.length_pos.2 h1.2
      simp only [List.length_drop, List.length_append, List.length_take] at hlen1 hlen2 hlen3
      have hfirst : first = (List.takeWhile is_trim_ws s).length := by omega
      have hle : first ≤ last := by omega
      have hsub : last - first + 1 = last + 1 - first := by omega
      unfold substr
      rw [hsub, ← List.drop_take, h2, hr, hfirst, List.drop_left, ← hfirst, h1.1]

theorem rdropWhile_append_of_all {α : Type} (p : α → Bool) (a b : List α)
    (h : ∀ x ∈ b, p x = true) : List.rdropWhile p (a ++ b) = List.rdropWhile p a := by
  unfold List.rdropWhile
  rw [List.reverse_append, List.dropWhile_append_of_pos]
  intro x hx
  exact h x (List.mem_reverse.1 hx)

theorem rdropWhile_append_rtakeWhile {α : Type} (p : α → Bool) (l : List α) :
    List.rdropWhile p l ++ List.rtakeWhile p l = l := by
  unfold List.rdropWhile List.rtakeWhile
  rw [← List.reverse_append, List.takeWhile_append_dropWhile, List.reverse_reverse]

theorem mem_rtakeWhile_imp {α : Type} (p : α → Bool) (l : List α) (x : α)
    (h : x ∈ List.rtakeWhile p l) : p x = true := by
  unfold List.rtakeWhile at h
  exact List.mem_takeWhile_imp (List.mem_reverse.1 h)

theorem Tight.nil : Tight [] := by
  constructor <;> intro c h <;> simp at h

theorem spec_trimmed_of_tight (pre core post : Str) (hc : Tight core)
    (hpre : ∀ c ∈ pre, is_trim_ws c = true) (hpost : ∀ c ∈ post, is_trim_ws c = true) :
    spec_trimmed (pre ++ core ++ post) = core := by
  unfold spec_trimmed
  rw [List.append_assoc, List.dropWhile_append_of_pos hpre]
  cases core with
  | nil =>
    have : List.dropWhile is_trim_ws ([] ++ post) = [] := by
      rw [List.nil_append]; exact List.dropWhile_eq_nil_iff.2 hpost
    rw [this]; rfl
  | cons c cs =>
    have h1 : is_trim_ws c = false := hc.1 c rfl
    have h2 : List.dropWhile is_trim_ws (c :: cs ++ post) = c :: cs ++ post := by
      simp [List.dropWhile, h1]
    rw [h2, rdropWhile_append_of_all _ _ _ hpost, List.rdropWhile_eq_self_iff]
    intro hl hp
    have := hc.2 _ (List.getLast?_eq_getLast _ hl)
    rw [this] at hp; cases hp

theorem tight_spec_trimmed (s : Str) : Tight (spec_trimmed s) := by
  unfold spec_trimmed
  constructor
  · intro c hc
    obtain ⟨t, ht⟩ := List.rdropWhile_prefix is_trim_ws (List.dropWhile is_trim_ws s)
    cases hr : List.rdropWhile is_trim_ws (List.dropWhile is_trim_ws s) with
    | nil => rw [hr] at hc; cases hc
    | cons x xs =>
      rw [hr] at hc ht
      have hx : x = c := by simpa using hc
      subst hx
      have := List.head?_dropWhile_not is_trim_ws s
      rw [← ht] at this
      simpa using this
  · intro c hc
    have hne : List.rdropWhile is_trim_ws (List.dropWhile is_trim_ws s) ≠ [] := by
      intro h; rw [h] at hc; cases hc
    have := List.rdropWhile_last_not is_trim_ws (List.dropWhile is_trim_ws s) hne
    rw [List.getLast?_eq_getLast _ hne] at hc
    cases hc
    exact Bool.eq_false_iff.2 this

/-- Every string is its trimmed text between two runs of characters of
`" \t\n\r"`. -/
theorem spec_trimmed_decomp (s : Str) :
    ∃ pre post, s = pre ++ spec_trimmed s ++ post ∧
      (∀ c ∈ pre, is_trim_ws c = true) ∧ (∀ c ∈ post, is_trim_ws c = true) := by
  refine ⟨s.takeWhile is_trim_ws, List.rtakeWhile is_trim_ws (s.dropWhile is_trim_ws), ?_,
    fun c hc => List.mem_takeWhile_imp hc, fun c hc => mem_rtakeWhile_imp _ _ _ hc⟩
  unfold spec_trimmed
  rw [List.append_assoc, rdropWhile_append_rtakeWhile, List.takeWhile_append_dropWhile]

theorem trim_eq_spec (s : Str) :
    trim s = if s.dropWhile is_trim_ws = [] then s else spec_trimmed s := trim_eq s

theorem trim_of_tight (s : Str) (h : Tight s) : trim s = s := by
  rw [trim_eq_spec]
  split
  · rfl
  · have := spec_trimmed_of_tight [] s [] h (by simp) (by simp)
    simpa using this

theorem tight_trim (s : Str) (h : s.dropWhile is_trim_ws ≠ []) :
    Tight (trim s) ∧ trim s ≠ [] ∧ trim s = spec_trimmed s := by
  rw [trim_eq_spec, if_neg h]
  exact ⟨tight_spec_trimmed s, rdropWhile_dropWhile_ne _ _ h, rfl⟩

/-! ## Code and specification, line by line -/

theorem find_eq (ch : Char) (s : Str) :
    find ch s = if ch ∈ s then some (s.takeWhile (fun c => c != ch)).length else none := by
  induction s with
  | nil => simp [find]
  | cons c cs ih =>
    unfold find
    by_cases h : c = ch
    · subst h; simp [List.takeWhile]
    · have h2 : (c != ch) = true := by simpa using h
      have h3 : ¬ ch = c := fun e => h e.symm
      rw [if_neg h, ih]
      by_cases hm : ch ∈ cs
      · simp [hm, List.takeWhile, h2]
      · simp [hm, h3]

theorem colon_split (s : Str) (h : ':' ∈ s) :
    ∃ a b, s = a ++ ':' :: b ∧ (∀ c ∈ a, not_colon c = true) ∧ find ':' s = some a.length := by
  refine ⟨s.takeWhile not_colon, (s.dropWhile not_colon).tail, ?_,
    fun c hc => List.mem_takeWhile_imp hc, ?_⟩
  · have hne : s.dropWhile not_colon ≠ [] := by
      intro hn
      have := List.dropWhile_eq_nil_iff.1 hn ':' h
      simp [not_colon] at this
    have hh := List.head_dropWhile_not not_colon s hne
    have hd : s.dropWhile not_colon = ':' :: (s.dropWhile not_colon).tail := by
      cases hdw : s.dropWhile not_colon with
      | nil => exact absurd hdw hne
      | cons x xs =>
        simp only [hdw, List.head_cons] at hh
        have : x = ':' := by simpa [not_colon] using hh
        rw [this]; rfl
    rw [← hd, List.takeWhile_append_dropWhile]
  · rw [find_eq, if_pos h]; rfl

theorem takeWhile_colon (a b : Str) (ha : ∀ c ∈ a, not_colon c = true) :
    (a ++ ':' :: b).takeWhile not_colon = a := by
  rw [List.takeWhile_append_of_pos ha]
  simp [List.takeWhile, not_colon]

theorem dropWhile_colon (a b : Str) (ha : ∀ c ∈ a, not_colon c = true) :
    (a ++ ':' :: b).dropWhile not_colon = ':' :: b := by
  rw [List.dropWhile_append_of_pos ha]
  simp [List.dropWhile, not_colon]

theorem ws_not_colon (c : Char) (h : is_trim_ws c = true) : not_colon c = true := by
  unfold not_colon
  by_cases hc : c = ':'
  · subst hc; revert h; decide
  · simpa using hc

theorem colon_mem_iff (pre core post : Str)
    (hpre : ∀ c ∈ pre, is_trim_ws c = true) (hpost : ∀ c ∈ post, is_trim_ws c = true) :
    ':' ∈ pre ++ core ++ post ↔ ':' ∈ core := by
  simp only [List.mem_append]
  constructor
  · rintro ((h | h) | h)
    · exact absurd (hpre _ h) (by decide)
    · exact h
    · exact absurd (hpost _ h) (by decide)
  · intro h; exact Or.inl (Or.inr h)

theorem spec_trimmed_append_left (pre s : Str) (hpre : ∀ c ∈ pre, is_trim_ws c = true) :
    spec_trimmed (pre ++ s) = spec_trimmed s := by
  unfold spec_trimmed
  rw [List.dropWhile_append_of_pos hpre]

theorem spec_trimmed_append_right (s post : Str) (hpost : ∀ c ∈ post, is_trim_ws c = true) :
    spec_trimmed (s ++ post) = spec_trimmed s := by
  obtain ⟨a, b, hs, ha, hb⟩ := spec_trimmed_decomp s
  have h1 : s ++ post = a ++ spec_trimmed s ++ (b ++ post) := by
    conv_lhs => rw [hs]
    simp
  rw [h1]
  apply spec_trimmed_of_tight _ _ _ (tight_spec_trimmed s) ha
  intro c hc
  rcases List.mem_append.1 hc with h | h
  · exact hb c h
  · exact hpost c h

/-- `trim` gives the trimmed text of a string that does not start with a
character of `" \t\n\r"`. -/
theorem trim_of_head (s : Str) (h : ∀ c, s.head? = some c → is_trim_ws c = false) :
    trim s = spec_trimmed s := by
  rw [trim_eq_spec]
  cases s with
  | nil => rfl
  | cons c cs =>
    have := h c rfl
    simp [List.dropWhile, this]

/-- `trim` gives the trimmed text of a string that does not end with a
character of `" \t\n\r"`. -/
theorem trim_of_last (s : Str) (h : ∀ c, s.getLast? = some c → is_trim_ws c = false) :
    trim s = spec_trimmed s := by
  rw [trim_eq_spec]
  split
  · rename_i hd
    cases hs : s.getLast? with
    | none => rw [List.getLast?_eq_none_iff.1 hs]; rfl
    | some c =>
      have h1 := h c hs
      have h2 := List.dropWhile_eq_nil_iff.1 hd c (List.mem_of_getLast?_eq_some hs)
      rw [h1] at h2; cases h2
  · rfl

/-- The shape of a line in which some character is outside `" \t\n\r"`. -/
theorem line_decomp (line : Str) (h : line.dropWhile is_trim_ws ≠ []) :
    ∃ pre post, line = pre ++ trim line ++ post ∧ Tight (trim line) ∧ trim line ≠ [] ∧
      trim line = spec_trimmed line ∧
      (∀ c ∈ pre, is_trim_ws c = true) ∧ (∀ c ∈ post, is_trim_ws c = true) := by
  obtain ⟨h1, h2, h3⟩ := tight_trim line h
  obtain ⟨pre, post, hs, hpre, hpost⟩ := spec_trimmed_decomp line
  exact ⟨pre, post, by rw [h3]; exact hs, h1, h2, h3, hpre, hpost⟩

theorem head?_trim (line : Str) (h : line.dropWhile is_trim_ws ≠ []) :
    (trim line).head? = (line.dropWhile is_trim_ws).head? := by
  obtain ⟨pre, post, hs, _, hne, _, hpre, _⟩ := line_decomp line h
  conv_rhs => rw [hs, List.append_assoc, List.dropWhile_append_of_pos hpre]
  obtain ⟨_, _, htight⟩ := tight_trim line h
  have ht := (tight_trim line h).1
  cases hc : trim line with
  | nil => exact absurd hc hne
  | cons c cs =>
    have hw : is_trim_ws c = false := ht.1 c (by rw [hc]; rfl)
    simp [List.dropWhile, hw]

theorem is_skipped_eq (line : Str) :
    is_skipped line = (line.isEmpty || spec_comment line) := by
  unfold is_skipped spec_comment
  by_cases h : line.dropWhile is_trim_ws = []
  · have ht : trim line = line := by rw [trim_eq_spec, if_pos h]
    rw [ht, h]
    cases line with
    | nil => rfl
    | cons c cs =>
      have hc : is_trim_ws c = true := List.dropWhile_eq_nil_iff.1 h c (List.mem_cons_self _ _)
      have : c ≠ '#' := by rintro rfl; revert hc; decide
      simp [this]
  · obtain ⟨_, hne, _⟩ := tight_trim line h
    rw [head?_trim line h]
    have h1 : (trim line).isEmpty = false := by
      cases hc : trim line with
      | nil => exact absurd hc hne
      | cons _ _ => rfl
    have h2 : line.isEmpty = false := by
      cases line with
      | nil => exact absurd rfl h
      | cons _ _ => rfl
    rw [h1, h2]

theorem label_of_eq (line : Str) :
    label_of line = if spec_comment line then none else spec_label line := by
  unfold label_of spec_label
  rw [is_skipped_eq]
  by_cases h : line.dropWhile is_trim_ws = []
  · have ht : trim line = line := by rw [trim_eq_spec, if_pos h]
    have hnc : ':' ∉ line := by
      intro hm
      exact absurd (List.dropWhile_eq_nil_iff.1 h _ hm) (by decide)
    have hf : find ':' line = none := by rw [find_eq, if_neg hnc]
    rw [ht, hf, if_neg hnc]
    simp
  · obtain ⟨pre, post, hs, ht, hne, _, hpre, hpost⟩ := line_decomp line h
    have h2 : line.isEmpty = false := by
      cases line with
      | nil => exact absurd rfl h
      | cons _ _ => rfl
    rw [h2, Bool.false_or]
    by_cases hcm : spec_comment line = true
    · simp [hcm]
    · simp only [hcm, Bool.false_eq_true, if_false]
      have hmem : ':' ∈ line ↔ ':' ∈ trim line := by
        conv_lhs => rw [hs]
        exact colon_mem_iff _ _ _ hpre hpost
      by_cases hc : ':' ∈ trim line
      · obtain ⟨a, b, hab, ha, hf⟩ := colon_split _ hc
        rw [if_pos (hmem.2 hc), hf]
        simp only [Option.map_some', Option.some.injEq]
        have hsub : substr (trim line) 0 a.length = a := by
          unfold substr; rw [hab]; simp
        have hhead : ∀ c, a.head? = some c → is_trim_ws c = false := by
          intro c hca
          apply ht.1
          rw [hab]
          cases a with
          | nil => cases hca
          | cons x xs => exact hca
        rw [hsub, trim_of_head a hhead]
        have htw : List.takeWhile not_colon line = pre ++ a := by
          conv_lhs => rw [hs, hab]
          have : pre ++ (a ++ ':' :: b) ++ post = (pre ++ a) ++ ':' :: (b ++ post) := by simp
          rw [this]
          apply takeWhile_colon
          intro c hcm
          rcases List.mem_append.1 hcm with h | h
          · exact ws_not_colon c (hpre c h)
          · exact ha c h
        rw [htw, spec_trimmed_append_left _ _ hpre]
      · have hf : find ':' (trim line) = none := by rw [find_eq, if_neg hc]
        rw [hf, if_neg (fun hm => hc (hmem.1 hm))]
        rfl

theorem clean_of_eq (line : Str) (hb : spec_blank line = false)
    (hcm : spec_comment line = false) :
    clean_of line =
      if (spec_instr_text line).isEmpty then none else some (spec_instr_text line) := by
  have h : line.dropWhile is_trim_ws ≠ [] := by
    intro hn
    unfold spec_blank spec_trimmed at hb
    rw [hn] at hb
    cases hb
  obtain ⟨pre, post, hs, ht, hne, hts, hpre, hpost⟩ := line_decomp line h
  have h2 : line.isEmpty = false := by
    cases line with
    | nil => exact absurd rfl h
    | cons _ _ => rfl
  unfold clean_of spec_instr_text
  rw [is_skipped_eq, h2, hcm]
  simp only [Bool.or_self, Bool.false_eq_true, if_false]
  have hmem : ':' ∈ line ↔ ':' ∈ trim line := by
    conv_lhs => rw [hs]
    exact colon_mem_iff _ _ _ hpre hpost
  by_cases hc : ':' ∈ trim line
  · obtain ⟨a, b, hab, ha, hf⟩ := colon_split _ hc
    rw [if_pos (hmem.2 hc), hf]
    simp only
    have hsub : substr_from (trim line) (a.length + 1) = b := by
      unfold substr_from; rw [hab]; simp
    have hlast : ∀ c, b.getLast? = some c → is_trim_ws c = false := by
      intro c hcb
      apply ht.2
      rw [hab]
      cases b with
      | nil => cases hcb
      | cons x xs =>
        rw [List.getLast?_append, List.getLast?_cons_cons, hcb]
        rfl
    rw [hsub, trim_of_last b hlast]
    have hdw : (List.dropWhile not_colon line).tail = b ++ post := by
      conv_lhs => rw [hs, hab]
      have : pre ++ (a ++ ':' :: b) ++ post = (pre ++ a) ++ ':' :: (b ++ post) := by simp
      rw [this, dropWhile_colon]
      · rfl
      · intro c hcm
        rcases List.mem_append.1 hcm with h | h
        · exact ws_not_colon c (hpre c h)
        · exact ha c h
    rw [hdw, spec_trimmed_append_right _ _ hpost]
  · have hf : find ':' (trim line) = none := by rw [find_eq, if_neg hc]
    rw [hf, if_neg (fun hm => hc (hmem.1 hm))]
    simp only
    rw [hts]

/-! ## The first pass, line by line -/

theorem first_pass_line_eq (st : Pass1) (line : Str) :
    first_pass_line st line =
      match label_of line with
      | some L =>
        if (st.label_map.lookup L).isSome then .error (duplicate_label_error L)
        else .ok ⟨(L, st.line_number) :: st.label_map, bump st.line_number (clean_of line),
                  st.clean_code ++ (clean_of line).toList⟩
      | none => .ok ⟨st.label_map, bump st.line_number (clean_of line),
                     st.clean_code ++ (clean_of line).toList⟩ := by
  unfold first_pass_line label_of clean_of bump
  by_cases hs : is_skipped line = true
  · simp [hs]
  · simp only [hs, Bool.false_eq_true, if_false]
    cases hf : find ':' (trim line) with
    | none =>
      by_cases he : (trim line).isEmpty = true
      · simp [is_skipped, he] at hs
      · simp [he]
    | some p =>
      by_cases hd : (List.lookup (trim (substr (trim line) 0 p)) st.label_map).isSome = true
      · simp [hd]
      · by_cases he : (trim (substr_from (trim line) (p + 1))).isEmpty = true
        · simp [hd, he]
        · simp [hd, he]

theorem lookup_isSome_cons (L K : Str) (n : Int) (m : List (Str × Int)) :
    (List.lookup L ((K, n) :: m)).isSome = true ↔ L = K ∨ (List.lookup L m).isSome = true := by
  rw [List.lookup_cons]
  by_cases h : L = K
  · subst h; simp
  · have : (L == K) = false := by simpa using h
    simp [this, h]

theorem first_pass_from_cons (st : Pass1) (line : Str) (rest : List Str) :
    first_pass_from st (line :: rest) =
      match first_pass_line st line with
      | .ok st1 => first_pass_from st1 rest
      | .error e => .error e := rfl

/-- The first pass succeeds exactly when no line defines a label already in
the map and no two lines define the same label. -/
theorem first_pass_from_ok_iff (src : List Str) : ∀ st : Pass1,
    (∃ st1, first_pass_from st src = .ok st1) ↔
      (∀ line ∈ src, ∀ L, label_of line = some L → (st.label_map.lookup L).isSome = false) ∧
      src.Pairwise (fun a b => ∀ L, label_of a = some L → label_of b ≠ some L) := by
  induction src with
  | nil => intro st; simp [first_pass_from]
  | cons line rest ih =>
    intro st
    rw [first_pass_from_cons, first_pass_line_eq]
    cases hl : label_of line with
    | none =>
      simp only [ih, List.mem_cons, List.pairwise_cons]
      constructor
      · rintro ⟨h1, h2⟩
        refine ⟨?_, ?_, h2⟩
        · rintro l (rfl | hm) L hL
          · rw [hl] at hL; cases hL
          · exact h1 l hm L hL
        · intro b _ L hL; rw [hl] at hL; cases hL
      · rintro ⟨h1, _, h2⟩
        exact ⟨fun l hm L hL => h1 l (Or.inr hm) L hL, h2⟩
    | some K =>
      by_cases hd : (List.lookup K st.label_map).isSome = true
      · simp only [hd, if_true]
        constructor
        · rintro ⟨st1, h⟩; cases h
        · rintro ⟨h1, _⟩
          have := h1 line (List.mem_cons_self _ _) K hl
          rw [hd] at this; cases this
      · simp only [hd, Bool.false_eq_true, if_false, ih, List.mem_cons, List.pairwise_cons]
        have hd2 : (List.lookup K st.label_map).isSome = false := Bool.eq_false_iff.2 hd
        constructor
        · rintro ⟨h1, h2⟩
          refine ⟨?_, ?_, h2⟩
          · rintro l (rfl | hm) L hL
            · rw [hl] at hL; cases hL; exact hd2
            · have h3 := h1 l hm L hL
              cases h4 : (List.lookup L st.label_map).isSome with
              | false => rfl
              | true =>
                have := (lookup_isSome_cons L K st.line_number st.label_map).2 (Or.inr h4)
                rw [h3] at this; cases this
          · intro b hb L hL hbL
            rw [hl] at hL; cases hL
            have h3 := h1 b hb K hbL
            have := (lookup_isSome_cons K K st.line_number st.label_map).2 (Or.inl rfl)
            rw [h3] at this; cases this
        · rintro ⟨h1, h3, h2⟩
          refine ⟨?_, h2⟩
          intro l hm L hL
          cases h4 : (List.lookup L ((K, st.line_number) :: st.label_map)).isSome with
          | false => rfl
          | true =>
            rcases (lookup_isSome_cons L K st.line_number st.label_map).1 h4 with rfl | h5
            · exact absurd hL (h3 l hm L hl)
            · have := h1 l (Or.inr hm) L hL
              rw [h5] at this; cases this

/-- An assembly error is always the duplicate-label error. -/
theorem first_pass_from_error (src : List Str) : ∀ (st : Pass1) (e : Str),
    first_pass_from st src = .error e → ∃ L, e = duplicate_label_error L := by
  induction src with
  | nil => intro st e h; cases h
  | cons line rest ih =>
    intro st e
    rw [first_pass_from_cons, first_pass_line_eq]
    cases hl : label_of line with
    | none => exact ih _ e
    | some K =>
      by_cases hd : (List.lookup K st.label_map).isSome = true
      · simp only [hd, if_true]
        intro h; cases h; exact ⟨K, rfl⟩
      · simp only [hd, Bool.false_eq_true, if_false]
        exact ih _ e

theorem first_pass_ok_iff (src : List Str) :
    (∃ st, first_pass src = .ok st) ↔
      src.Pairwise (fun a b => ∀ L, label_of a = some L → label_of b ≠ some L) := by
  unfold first_pass
  rw [first_pass_from_ok_iff]
  simp

theorem assemble_error_iff_first_pass (src : List Str) (e : Str) :
    assemble src = .error e ↔ first_pass src = .error e := by
  unfold assemble
  cases first_pass src with
  | error e1 => simp
  | ok st => simp

theorem assemble_ok_iff_first_pass (src : List Str) (prog : List Instruction) :
    assemble src = .ok prog ↔
      ∃ st, first_pass src = .ok st ∧ prog = st.clean_code.map (parse_line st.label_map) := by
  unfold assemble
  cases first_pass src with
  | error e1 => simp
  | ok st =>
    simp only [Except.ok.injEq, exists_eq_left']
    exact eq_comm

/-- Assembly fails exactly when two lines define the same label. -/
theorem assemble_error_iff (src : List Str) :
    (∃ e, assemble src = .error e) ↔
      ∃ (i j : Nat) (a b L : Str), i < j ∧ src[i]? = some a ∧ src[j]? = some b ∧
        label_of a = some L ∧ label_of b = some L := by
  have h1 : (∃ e, assemble src = .error e) ↔ ¬ ∃ st, first_pass src = .ok st := by
    simp only [assemble_error_iff_first_pass]
    cases first_pass src with
    | error e1 => simp
    | ok st => simp
  rw [h1, first_pass_ok_iff, List.pairwise_iff_getElem]
  constructor
  · intro h
    by_contra hn
    apply h
    intro i j hi hj hij L hL hL2
    exact hn ⟨i, j, src[i], src[j], L, hij, List.getElem?_eq_getElem hi,
      List.getElem?_eq_getElem hj, hL, hL2⟩
  · rintro ⟨i, j, a, b, L, hij, ha, hb, hL, hL2⟩ h
    obtain ⟨hi, rfl⟩ := List.getElem?_eq_some.1 ha
    obtain ⟨hj, rfl⟩ := List.getElem?_eq_some.1 hb
    exact h i j hi hj hij L hL hL2

theorem spec_blank_of_colon (line : Str) (h : ':' ∈ line) : spec_blank line = false := by
  unfold spec_blank spec_trimmed
  cases hr : List.rdropWhile is_trim_ws (List.dropWhile is_trim_ws line) with
  | cons _ _ => rfl
  | nil =>
    exfalso
    by_cases hd : List.dropWhile is_trim_ws line = []
    · exact absurd (List.dropWhile_eq_nil_iff.1 hd _ h) (by decide)
    · exact rdropWhile_dropWhile_ne _ _ hd hr

/-- A line defines the label `L` in the first pass exactly when it is not a
comment line, holds a `:`, and `L` is the trimmed text before its first `:`. -/
theorem label_of_eq_some_iff (line L : Str) :
    label_of line = some L ↔
      spec_blank line = false ∧ spec_comment line = false ∧ ':' ∈ line ∧
        spec_trimmed (line.takeWhile not_colon) = L := by
  rw [label_of_eq]
  unfold spec_label
  by_cases hc : spec_comment line = true
  · simp [hc]
  · by_cases hm : ':' ∈ line
    · have := spec_blank_of_colon line hm
      simp [hc, hm, this]
    · simp [hc, hm]

/-! ## Label values -/

theorem wrap32_of_range (x : Int) (h1 : -2147483648 ≤ x) (h2 : x < 2147483648) :
    wrap32 x = x := by
  unfold wrap32
  omega

theorem wrap32_range (x : Int) : -2147483648 ≤ wrap32 x ∧ wrap32 x < 2147483648 := by
  unfold wrap32
  omega

theorem first_pass_from_append (xs ys : List Str) : ∀ st : Pass1,
    first_pass_from st (xs ++ ys) =
      match first_pass_from st xs with
      | .ok st1 => first_pass_from st1 ys
      | .error e => .error e := by
  induction xs with
  | nil => intro st; rfl
  | cons line rest ih =>
    intro st
    rw [List.cons_append, first_pass_from_cons, first_pass_from_cons]
    cases first_pass_line st line with
    | error e => rfl
    | ok st1 => exact ih st1

/-- The lines the first pass leaves in `clean_code`. -/
theorem first_pass_from_clean (src : List Str) : ∀ st st1 : Pass1,
    first_pass_from st src = .ok st1 →
      st1.clean_code = st.clean_code ++ src.filterMap clean_of := by
  induction src with
  | nil => intro st st1 h; cases h; simp
  | cons line rest ih =>
    intro st st1
    rw [first_pass_from_cons, first_pass_line_eq]
    cases hl : label_of line with
    | none =>
      intro h
      rw [ih _ _ h]
      cases hc : clean_of line <;> simp [List.filterMap_cons, hc]
    | some K =>
      by_cases hd : (List.lookup K st.label_map).isSome = true
      · simp only [hd, if_true]; intro h; cases h
      · simp only [hd, Bool.false_eq_true, if_false]
        intro h
        rw [ih _ _ h]
        cases hc : clean_of line <;> simp [List.filterMap_cons, hc]

/-- As long as `clean_code` has fewer than `2 ^ 31` lines, `line_number` is
its length. -/
theorem first_pass_from_line_number (src : List Str) : ∀ st st1 : Pass1,
    first_pass_from st src = .ok st1 → st.line_number = st.clean_code.length →
      st1.clean_code.length < 2147483648 → st1.line_number = st1.clean_code.length := by
  induction src with
  | nil => intro st st1 h; cases h; intro h1 _; exact h1
  | cons line rest ih =>
    intro st st1 h hinv hlen
    rw [first_pass_from_cons] at h
    cases hl1 : first_pass_line st line with
    | error e => rw [hl1] at h; cases h
    | ok st2 =>
      rw [hl1] at h
      have hc := first_pass_from_clean rest st2 st1 h
      have hlen2 : st2.clean_code.length ≤ st1.clean_code.length := by
        rw [hc, List.length_append]; omega
      rw [first_pass_line_eq] at hl1
      have hst2 : st2.clean_code = st.clean_code ++ (clean_of line).toList ∧
          st2.line_number = bump st.line_number (clean_of line) := by
        cases hl : label_of line with
        | none =>
          rw [hl] at hl1
          cases hl1
          exact ⟨rfl, rfl⟩
        | some K =>
          rw [hl] at hl1
          by_cases hd : (List.lookup K st.label_map).isSome = true
          · simp only [hd, if_true] at hl1; cases hl1
          · simp only [hd, Bool.false_eq_true, if_false] at hl1
            cases hl1
            exact ⟨rfl, rfl⟩
      refine ih st2 st1 h ?_ hlen
      rw [hst2.2]
      rw [hst2.1] at hlen2 ⊢
      unfold bump
      cases hc : clean_of line with
      | none => simpa using hinv
      | some t =>
        rw [hc] at hlen2
        simp only [Option.isSome_some, if_true, Option.toList, List.length_append,
          List.length_singleton, Nat.cast_add, Nat.cast_one] at hlen2 ⊢
        rw [hinv]
        apply wrap32_of_range <;> omega

theorem lookup_cons_ne (L K : Str) (n : Int) (m : List (Str × Int)) (h : L ≠ K) :
    List.lookup L ((K, n) :: m) = List.lookup L m := by
  rw [List.lookup_cons]
  have : (L == K) = false := by simpa using h
  rw [this]

/-- A label keeps its value until the end of the first pass. -/
theorem first_pass_from_lookup (src : List Str) : ∀ (st st1 : Pass1) (L : Str) (n : Int),
    first_pass_from st src = .ok st1 → List.lookup L st.label_map = some n →
      List.lookup L st1.label_map = some n := by
  induction src with
  | nil => intro st st1 L n h; cases h; exact id
  | cons line rest ih =>
    intro st st1 L n
    rw [first_pass_from_cons, first_pass_line_eq]
    cases hl : label_of line with
    | none => exact ih _ _ L n
    | some K =>
      by_cases hd : (List.lookup K st.label_map).isSome = true
      · simp only [hd, if_true]; intro h; cases h
      · simp only [hd, Bool.false_eq_true, if_false]
        intro h hL
        apply ih _ _ L n h
        have hne : L ≠ K := by
          rintro rfl
          rw [hL] at hd
          exact hd rfl
        rw [lookup_cons_ne L K _ _ hne]
        exact hL

/-- The value of a label is the number of lines put in `clean_code` by the
lines before the one that defines it. -/
theorem first_pass_label_value (src : List Str) (st : Pass1) (k : Nat) (line L : Str)
    (hfit : src.length < 2147483648) (hok : first_pass src = .ok st)
    (hline : src[k]? = some line) (hlabel : label_of line = some L) :
    ∃ stk, first_pass (src.take k) = .ok stk ∧
      List.lookup L st.label_map = some (stk.clean_code.length : Int) := by
  obtain ⟨hk, rfl⟩ := List.getElem?_eq_some.1 hline
  have hsplit : src = src.take k ++ src[k] :: src.drop (k + 1) := by
    rw [← List.drop_eq_getElem_cons hk, List.take_append_drop]
  unfold first_pass at hok ⊢
  rw [hsplit, first_pass_from_append] at hok
  cases hk1 : first_pass_from ⟨[], 0, []⟩ (src.take k) with
  | error e => rw [hk1] at hok; cases hok
  | ok stk =>
    rw [hk1] at hok
    simp only at hok
    refine ⟨stk, rfl, ?_⟩
    have hclean := first_pass_from_clean _ _ _ hk1
    have hlen : stk.clean_code.length ≤ k := by
      rw [hclean]
      simp only [List.nil_append]
      exact (List.length_filterMap_le _ _).trans (by rw [List.length_take]; omega)
    have hnum := first_pass_from_line_number _ _ _ hk1 rfl (by omega)
    rw [first_pass_from_cons, first_pass_line_eq, hlabel] at hok
    by_cases hd : (List.lookup L stk.label_map).isSome = true
    · simp only [hd, if_true] at hok; cases hok
    · simp only [hd, Bool.false_eq_true, if_false] at hok
      rw [← hnum]
      exact first_pass_from_lookup _ _ _ L _ hok (by simp)

theorem resolve_arg_label (label_map : List (Str × Int)) (opcode a : Str) (n : Int)
    (hop : is_jump_opcode opcode = true)
    (hl : List.lookup (strip_comma a) label_map = some n) :
    resolve_arg label_map opcode a = to_string n := by
  unfold resolve_arg
  simp only [hop, if_true, hl]

theorem parse_line_tokens (label_map : List (Str × Int)) (text op : Str) (toks : List Str)
    (h : tokens text = op :: toks) :
    parse_line label_map text =
      ⟨op.map toupper, toks.map (resolve_arg label_map (op.map toupper))⟩ := by
  unfold parse_line
  rw [h]

theorem clean_code_eq_of_clean (src : List Str)
    (hclean : ∀ line ∈ src, spec_blank line = false ∧ spec_comment line = false) :
    src.filterMap clean_of = (src.map spec_instr_text).filter (fun t => !t.isEmpty) := by
  induction src with
  | nil => rfl
  | cons line rest ih =>
    have h1 := hclean line (List.mem_cons_self _ _)
    have h2 := ih (fun l hl => hclean l (List.mem_cons_of_mem _ hl))
    rw [List.filterMap_cons, clean_of_eq line h1.1 h1.2, List.map_cons, List.filter_cons, h2]
    cases (spec_instr_text line).isEmpty <;> simp

/-! ## The claims on the assembler -/

/-- C1: when `assemble` succeeds and the line at index `k` of the source is
not skipped and defines the label `L`, then in every emitted `JUMP`, `CALL`,
`JZE` or `JNE` instruction, wherever it stands, each argument written as
`L` is the decimal string of the number of instructions emitted from the
lines before line `k`, which is the length of the program assembled from
those lines (sources of fewer than `2 ^ 31` lines, so that the `int` counter
`line_number` does not overflow). -/
theorem label_reference_resolved (src : List Str) (prog : List Instruction) (k : Nat)
    (line L : Str) (hfit : src.length < 2147483648) (hok : assemble src = .ok prog)
    (hline : src[k]? = some line) (hlabel : label_of line = some L) :
    ∃ st before, first_pass src = .ok st ∧
      prog = st.clean_code.map (parse_line st.label_map) ∧
      assemble (src.take k) = .ok before ∧
      ∀ (j : Nat) (text op : Str) (toks : List Str),
        st.clean_code[j]? = some text → tokens text = op :: toks →
        is_jump_opcode (op.map toupper) = true →
        ∃ inst, prog[j]? = some inst ∧ inst.opcode = op.map toupper ∧
          inst.args.length = toks.length ∧
          ∀ (m : Nat) (a : Str), toks[m]? = some a → strip_comma a = L →
            inst.args[m]? = some (to_string before.length) := by
  obtain ⟨st, hst, hprog⟩ := (assemble_ok_iff_first_pass src prog).1 hok
  obtain ⟨stk, hstk, hlook⟩ := first_pass_label_value src st k line L hfit hst hline hlabel
  refine ⟨st, stk.clean_code.map (parse_line stk.label_map), hst, hprog, ?_, ?_⟩
  · exact (assemble_ok_iff_first_pass _ _).2 ⟨stk, hstk, rfl⟩
  · intro j text op toks htext htok hop
    refine ⟨parse_line st.label_map text, ?_, ?_, ?_, ?_⟩
    · rw [hprog, List.getElem?_map, htext]; rfl
    · rw [parse_line_tokens _ _ _ _ htok]
    · rw [parse_line_tokens _ _ _ _ htok]; simp
    · intro m a ha hL
      rw [parse_line_tokens _ _ _ _ htok]
      simp only [List.getElem?_map, ha, Option.map_some', List.length_map]
      rw [resolve_arg_label _ _ _ _ hop (by rw [hL]; exact hlook)]

/-- C1 at `sample_source`, for the label `end` of the line at index 3. -/
theorem label_reference_resolved_witness :
    (sample_source.length < 2147483648 ∧ assemble sample_source = .ok sample_program ∧
      sample_source[3]? = some "end: HALT".toList ∧
      label_of "end: HALT".toList = some "end".toList) ∧
    ∃ st before, first_pass sample_source = .ok st ∧
      sample_program = st.clean_code.map (parse_line st.label_map) ∧
      assemble (sample_source.take 3) = .ok before ∧
      ∀ (j : Nat) (text op : Str) (toks : List Str),
        st.clean_code[j]? = some text → tokens text = op :: toks →
        is_jump_opcode (op.map toupper) = true →
        ∃ inst, sample_program[j]? = some inst ∧ inst.opcode = op.map toupper ∧
          inst.args.length = toks.length ∧
          ∀ (m : Nat) (a : Str), toks[m]? = some a → strip_comma a = "end".toList →
            inst.args[m]? = some (to_string before.length) :=
  ⟨⟨by decide, by decide, by decide, by decide⟩,
   label_reference_resolved sample_source sample_program 3 "end: HALT".toList "end".toList
    (by decide) (by decide) (by decide) (by decide)⟩

/-- C2: `assemble` fails exactly when two lines of the source that are
neither blank nor comment lines both hold a `:` and have the same trimmed
text before their first `:` (whether that label is referenced or not), and
the only error it raises is the duplicate-label error. -/
theorem assemble_fails_iff_duplicate_label (src : List Str) :
    ((∃ e, assemble src = .error e) ↔
      ∃ (i j : Nat) (a b : Str), i < j ∧ src[i]? = some a ∧ src[j]? = some b ∧
        (spec_blank a = false ∧ spec_comment a = false) ∧
        (spec_blank b = false ∧ spec_comment b = false) ∧
        ':' ∈ a ∧ ':' ∈ b ∧
        spec_trimmed (a.takeWhile not_colon) = spec_trimmed (b.takeWhile not_colon)) ∧
    (∀ e, assemble src = .error e → ∃ L, e = duplicate_label_error L) := by
  constructor
  · rw [assemble_error_iff]
    constructor
    · rintro ⟨i, j, a, b, L, hij, ha, hb, hLa, hLb⟩
      obtain ⟨h1, h2, h3, h4⟩ := (label_of_eq_some_iff a L).1 hLa
      obtain ⟨h5, h6, h7, h8⟩ := (label_of_eq_some_iff b L).1 hLb
      exact ⟨i, j, a, b, hij, ha, hb, ⟨h1, h2⟩, ⟨h5, h6⟩, h3, h7, h4.trans h8.symm⟩
    · rintro ⟨i, j, a, b, hij, ha, hb, ⟨h1, h2⟩, ⟨h5, h6⟩, h3, h7, h⟩
      exact ⟨i, j, a, b, spec_trimmed (a.takeWhile not_colon), hij, ha, hb,
        (label_of_eq_some_iff a _).2 ⟨h1, h2, h3, rfl⟩,
        (label_of_eq_some_iff b _).2 ⟨h5, h6, h7, h.symm⟩⟩
  · intro e he
    rw [assemble_error_iff_first_pass] at he
    exact first_pass_from_error _ _ _ he

/-- C3 fails on the code: the line `" "` is blank, yet `assemble` emits an
instruction (with an empty opcode) for it, so that deleting the blank and
comment lines of the source `[" "]` changes the result of `assemble`. -/
theorem blank_line_emits_instruction :
    spec_blank [' '] = true ∧
    assemble [[' ']] = .ok [⟨[], []⟩] ∧
    assemble ([[' ']].filter (fun l => !(spec_blank l || spec_comment l))) = .ok [] := by
  decide

/-- C4: for a source without blank lines, comment lines and duplicate
labels, `assemble` returns the decodings, in order, of the lines whose text
after the optional `label:` prefix is not empty: one instruction for each
such line. -/
theorem assemble_one_instruction_per_line (src : List Str)
    (hclean : ∀ line ∈ src, spec_blank line = false ∧ spec_comment line = false)
    (hnodup : src.Pairwise (fun a b => spec_label a = none ∨ spec_label a ≠ spec_label b)) :
    ∃ st, first_pass src = .ok st ∧
      assemble src = .ok
        (((src.map spec_instr_text).filter (fun t => !t.isEmpty)).map
          (parse_line st.label_map)) := by
  have hpair : src.Pairwise (fun a b => ∀ L, label_of a = some L → label_of b ≠ some L) := by
    refine hnodup.imp_of_mem ?_
    intro a b ha hb hab L hLa hLb
    rw [label_of_eq, (hclean a ha).2] at hLa
    rw [label_of_eq, (hclean b hb).2] at hLb
    have hLa2 : spec_label a = some L := hLa
    have hLb2 : spec_label b = some L := hLb
    rcases hab with h | h
    · rw [hLa2] at h; cases h
    · exact h (hLa2.trans hLb2.symm)
  obtain ⟨st, hst⟩ := (first_pass_ok_iff src).2 hpair
  refine ⟨st, hst, ?_⟩
  have hc := first_pass_from_clean src _ st hst
  rw [List.nil_append, clean_code_eq_of_clean src hclean] at hc
  rw [← hc]
  exact (assemble_ok_iff_first_pass _ _).2 ⟨st, hst, rfl⟩

/-- C4 at `sample_source`. -/
theorem assemble_one_instruction_per_line_witness :
    ((∀ line ∈ sample_source, spec_blank line = false ∧ spec_comment line = false) ∧
      sample_source.Pairwise (fun a b => spec_label a = none ∨ spec_label a ≠ spec_label b)) ∧
    ∃ st, first_pass sample_source = .ok st ∧
      assemble sample_source = .ok
        (((sample_source.map spec_instr_text).filter (fun t => !t.isEmpty)).map
          (parse_line st.label_map)) :=
  ⟨⟨by decide, by decide⟩,
   assemble_one_instruction_per_line sample_source (by decide) (by decide)⟩

/-! ## The executor: what an instruction leaves unchanged -/

theorem Exec.of_thrown (vm : VM) (out : List Str) (r : Except Exn (VM × List Str)) (e : Exn)
    (h : (Exec.of vm out r).thrown = some e) :
    (Exec.of vm out r).vm = vm ∧ (Exec.of vm out r).out = out := by
  unfold Exec.of at h ⊢
  cases r with
  | error e1 => exact ⟨rfl, rfl⟩
  | ok p => cases h

theorem ite_cases {α : Type} (P : α → Prop) (c : Prop) [Decidable c] (a b : α)
    (ha : P a) (hb : P b) : P (if c then a else b) := by
  by_cases h : c
  · rw [if_pos h]; exact ha
  · rw [if_neg h]; exact hb

/-- Case analysis on the branch `execute_try` takes. -/
theorem execute_try_cases (P : Exec Exn → Prop) (vm : VM) (inst : Instruction)
    (out : List Str)
    (hPRINT : P (exec_PRINT vm inst.args out))
    (hLOAD : P (exec_LOAD vm inst.args out))
    (hLOADI : P (exec_LOADI vm inst.args out))
    (harith : ∀ f, P (exec_arith f vm inst.args out))
    (hCMP : P (exec_CMP vm inst.args out))
    (hJUMP : P (exec_goto vm inst.args out))
    (hJZE : P (exec_JZE vm inst.args out))
    (hJNE : P (exec_JNE vm inst.args out))
    (hPUSH : P (exec_PUSH vm inst.args out))
    (hPUSHI : P (exec_PUSHI vm inst.args out))
    (hPOP : P (exec_POP vm inst.args out))
    (hCALL : P (exec_CALL vm inst.args out))
    (hRET : P (exec_RET vm out))
    (hHALT : P ⟨{ vm with is_running := false }, out, none⟩)
    (hother : ∀ what, P ⟨vm, out, some (.runtime_error what)⟩) :
    P (execute_try vm inst out) := by
  unfold execute_try
  refine ite_cases P _ _ _ hPRINT ?_
  refine ite_cases P _ _ _ hLOAD ?_
  refine ite_cases P _ _ _ hLOADI ?_
  refine ite_cases P _ _ _ (harith _) ?_
  refine ite_cases P _ _ _ (harith _) ?_
  refine ite_cases P _ _ _ (harith _) ?_
  refine ite_cases P _ _ _ hCMP ?_
  refine ite_cases P _ _ _ hJUMP ?_
  refine ite_cases P _ _ _ hJZE ?_
  refine ite_cases P _ _ _ hJNE ?_
  refine ite_cases P _ _ _ hPUSH ?_
  refine ite_cases P _ _ _ hPUSHI ?_
  refine ite_cases P _ _ _ hPOP ?_
  refine ite_cases P _ _ _ hCALL ?_
  refine ite_cases P _ _ _ hRET ?_
  exact ite_cases P _ _ _ hHALT (hother _)

theorem Exec.of_out (vm : VM) (out : List Str) (r : Except Exn (VM × List Str))
    (Q : List Str → Prop) (h0 : Q out) (h : ∀ v o, r = .ok (v, o) → Q o) :
    Q (Exec.of vm out r).out := by
  unfold Exec.of
  cases r with
  | error e => exact h0
  | ok p => exact h p.1 p.2 rfl

theorem exec_LOAD_out (vm : VM) (args : List Str) (out : List Str) :
    (exec_LOAD vm args out).out = out := by
  unfold exec_LOAD
  apply Exec.of_out _ _ _ (fun o => o = out) rfl
  intro v o h
  simp only [bind, Except.bind, pure, Except.pure] at h
  repeat' split at h
  all_goals first
    | (cases h; rfl)
    | cases h

theorem exec_LOADI_out (vm : VM) (args : List Str) (out : List Str) :
    (exec_LOADI vm args out).out = out := by
  unfold exec_LOADI
  apply Exec.of_out _ _ _ (fun o => o = out) rfl
  intro v o h
  simp only [bind, Except.bind, pure, Except.pure] at h
  repeat' split at h
  all_goals first
    | (cases h; rfl)
    | cases h

theorem exec_CMP_out (vm : VM) (args : List Str) (out : List Str) :
    (exec_CMP vm args out).out = out := by
  unfold exec_CMP
  apply Exec.of_out _ _ _ (fun o => o = out) rfl
  intro v o h
  simp only [bind, Except.bind, pure, Except.pure] at h
  repeat' split at h
  all_goals first
    | (cases h; rfl)
    | cases h

theorem exec_PUSH_out (vm : VM) (args : List Str) (out : List Str) :
    (exec_PUSH vm args out).out = out := by
  unfold exec_PUSH
  apply Exec.of_out _ _ _ (fun o => o = out) rfl
  intro v o h
  simp only [bind, Except.bind, pure, Except.pure] at h
  repeat' split at h
  all_goals first
    | (cases h; rfl)
    | cases h

theorem exec_PUSHI_out (vm : VM) (args : List Str) (out : List Str) :
    (exec_PUSHI vm args out).out = out := by
  unfold exec_PUSHI
  apply Exec.of_out _ _ _ (fun o => o = out) rfl
  intro v o h
  simp only [bind, Except.bind, pure, Except.pure] at h
  repeat' split at h
  all_goals first
    | (cases h; rfl)
    | cases h

theorem exec_goto_out (vm : VM) (args : List Str) (out : List Str) :
    (exec_goto vm args out).out = out := by
  unfold exec_goto
  apply Exec.of_out _ _ _ (fun o => o = out) rfl
  intro v o h
  simp only [bind, Except.bind, pure, Except.pure] at h
  repeat' split at h
  all_goals first
    | (cases h; rfl)
    | cases h

theorem exec_arith_out (f : Int → Int → Int) (vm : VM) (args : List Str) (out : List Str) :
    (exec_arith f vm args out).out = out := by
  unfold exec_arith
  apply Exec.of_out _ _ _ (fun o => o = out) rfl
  intro v o h
  simp only [bind, Except.bind, pure, Except.pure] at h
  repeat' split at h
  all_goals first
    | (cases h; rfl)
    | cases h

theorem exec_POP_out (vm : VM) (args : List Str) (out : List Str) :
    (exec_POP vm args out).out = out := by
  unfold exec_POP
  split
  · rfl
  · apply Exec.of_out _ _ _ (fun o => o = out) rfl
    intro v o h
    simp only [bind, Except.bind, pure, Except.pure] at h
    repeat' split at h
    all_goals first
      | (cases h; rfl)
      | cases h

theorem exec_JZE_out (vm : VM) (args : List Str) (out : List Str) :
    (exec_JZE vm args out).out = out := by
  unfold exec_JZE
  split
  · exact exec_goto_out _ _ _
  · rfl

theorem exec_JNE_out (vm : VM) (args : List Str) (out : List Str) :
    (exec_JNE vm args out).out = out := by
  unfold exec_JNE
  split
  · exact exec_goto_out _ _ _
  · rfl

theorem exec_RET_out (vm : VM) (out : List Str) : (exec_RET vm out).out = out := by
  unfold exec_RET
  split <;> rfl

theorem exec_PRINT_out (vm : VM) (args : List Str) (out : List Str) :
    (exec_PRINT vm args out).out = out ∨
      ∃ v, (exec_PRINT vm args out).out = out ++ [to_string v] := by
  unfold exec_PRINT
  apply Exec.of_out _ _ _ (fun o => o = out ∨ ∃ v, o = out ++ [to_string v]) (Or.inl rfl)
  intro v o h
  simp only [bind, Except.bind, pure, Except.pure] at h
  repeat' split at h
  all_goals first
    | (cases h; exact Or.inr ⟨_, rfl⟩)
    | cases h

/-- The lines an instruction writes: none, or the value `PRINT` shows. -/
theorem execute_try_out (vm : VM) (inst : Instruction) (out : List Str) :
    (execute_try vm inst out).out = out ∨
      ∃ v, (execute_try vm inst out).out = out ++ [to_string v] := by
  apply execute_try_cases
    (fun r => r.out = out ∨ ∃ v, r.out = out ++ [to_string v])
  · exact exec_PRINT_out _ _ _
  · exact Or.inl (exec_LOAD_out _ _ _)
  · exact Or.inl (exec_LOADI_out _ _ _)
  · exact fun f => Or.inl (exec_arith_out f _ _ _)
  · exact Or.inl (exec_CMP_out _ _ _)
  · exact Or.inl (exec_goto_out _ _ _)
  · exact Or.inl (exec_JZE_out _ _ _)
  · exact Or.inl (exec_JNE_out _ _ _)
  · exact Or.inl (exec_PUSH_out _ _ _)
  · exact Or.inl (exec_PUSHI_out _ _ _)
  · exact Or.inl (exec_POP_out _ _ _)
  · exact Or.inl (exec_goto_out _ _ _)
  · exact Or.inl (exec_RET_out _ _)
  · exact Or.inl rfl
  · exact fun _ => Or.inl rfl

theorem keptOnThrow_of (vm0 vm : VM) (out : List Str) (r : Except Exn (VM × List Str))
    (h1 : vm0.memory = vm.memory) (h2 : vm0.program_counter = vm.program_counter)
    (h3 : vm0.is_running = vm.is_running) (h4 : vm0.flags_zero = vm.flags_zero) :
    KeptOnThrow vm out (Exec.of vm0 out r) := by
  intro e h
  obtain ⟨h5, h6⟩ := Exec.of_thrown _ _ _ _ h
  rw [h5, h6]
  exact ⟨h1, h2, h3, h4, rfl⟩

/-- An instruction that throws leaves the memory, the program counter, the
flags and the standard output as they were. -/
theorem execute_try_thrown (vm : VM) (inst : Instruction) (out : List Str) :
    KeptOnThrow vm out (execute_try vm inst out) := by
  apply execute_try_cases (KeptOnThrow vm out)
  · exact keptOnThrow_of _ _ _ _ rfl rfl rfl rfl
  · exact keptOnThrow_of _ _ _ _ rfl rfl rfl rfl
  · exact keptOnThrow_of _ _ _ _ rfl rfl rfl rfl
  · exact fun f => keptOnThrow_of _ _ _ _ rfl rfl rfl rfl
  · exact keptOnThrow_of _ _ _ _ rfl rfl rfl rfl
  · exact keptOnThrow_of _ _ _ _ rfl rfl rfl rfl
  · unfold exec_JZE
    split
    · exact keptOnThrow_of _ _ _ _ rfl rfl rfl rfl
    · intro e h; cases h
  · unfold exec_JNE
    split
    · exact keptOnThrow_of _ _ _ _ rfl rfl rfl rfl
    · intro e h; cases h
  · exact keptOnThrow_of _ _ _ _ rfl rfl rfl rfl
  · exact keptOnThrow_of _ _ _ _ rfl rfl rfl rfl
  · unfold exec_POP
    split
    · intro e _; exact ⟨rfl, rfl, rfl, rfl, rfl⟩
    · exact keptOnThrow_of _ _ _ _ rfl rfl rfl rfl
  · exact keptOnThrow_of _ _ _ _ rfl rfl rfl rfl
  · unfold exec_RET
    split
    · intro e _; exact ⟨rfl, rfl, rfl, rfl, rfl⟩
    · intro e h; cases h
  · intro e h; cases h
  · intro what e _; exact ⟨rfl, rfl, rfl, rfl, rfl⟩

theorem execute_instruction_thrown (vm : VM) (inst : Instruction) (out : List Str)
    (what : Str) (h : (execute_instruction vm inst out).thrown = some what) :
    (execute_instruction vm inst out).vm.memory = vm.memory ∧
    (execute_instruction vm inst out).vm.program_counter = vm.program_counter ∧
    (execute_instruction vm inst out).vm.is_running = vm.is_running ∧
    (execute_instruction vm inst out).vm.flags_zero = vm.flags_zero ∧
    (execute_instruction vm inst out).out = out := by
  unfold execute_instruction at h ⊢
  simp only at h ⊢
  cases ht : (execute_try vm inst out).thrown with
  | none => rw [ht] at h; cases h
  | some e => exact execute_try_thrown vm inst out e ht

theorem execute_instruction_out (vm : VM) (inst : Instruction) (out : List Str) :
    (execute_instruction vm inst out).out = out ∨
      ∃ v, (execute_instruction vm inst out).out = out ++ [to_string v] :=
  execute_try_out vm inst out

/-! ## The run loop -/

theorem serial_log_debug (out : List Str) (message : Str) (b : Bool) :
    serial_log out message b = out ++ [message] := by
  unfold serial_log DEBUG_MODE
  cases b <;> rfl

theorem cycle_eq (vm : VM) (inst : Instruction) (out : List Str) :
    cycle vm inst out =
      match (execute_instruction vm inst (out ++ [debug_line vm inst])).thrown with
      | some what =>
        ({ (execute_instruction vm inst (out ++ [debug_line vm inst])).vm with
            is_running := false,
            program_counter := wrap32
              ((execute_instruction vm inst (out ++ [debug_line vm inst])).vm.program_counter
                + 1) },
         (execute_instruction vm inst (out ++ [debug_line vm inst])).out ++
          [fatal_line
            (execute_instruction vm inst (out ++ [debug_line vm inst])).vm.program_counter
            what])
      | none =>
        ({ (execute_instruction vm inst (out ++ [debug_line vm inst])).vm with
            program_counter := wrap32
              ((execute_instruction vm inst (out ++ [debug_line vm inst])).vm.program_counter
                + 1) },
         (execute_instruction vm inst (out ++ [debug_line vm inst])).out) := by
  unfold cycle
  simp only [serial_log_debug]

/-- A cycle whose instruction throws. -/
theorem cycle_thrown (vm : VM) (inst : Instruction) (out : List Str) (what : Str)
    (h : (execute_instruction vm inst (out ++ [debug_line vm inst])).thrown = some what) :
    (cycle vm inst out).1.is_running = false ∧
    (cycle vm inst out).1.program_counter = wrap32 (vm.program_counter + 1) ∧
    (cycle vm inst out).1.memory = vm.memory ∧
    (cycle vm inst out).2 =
      out ++ [debug_line vm inst] ++ [fatal_line vm.program_counter what] := by
  obtain ⟨h1, h2, _, _, h5⟩ := execute_instruction_thrown _ _ _ _ h
  rw [cycle_eq, h]
  simp only [h1, h2, h5]
  exact ⟨trivial, trivial, trivial, trivial⟩

/-- A cycle whose instruction does not throw. -/
theorem cycle_ok (vm : VM) (inst : Instruction) (out : List Str)
    (h : (execute_instruction vm inst (out ++ [debug_line vm inst])).thrown = none) :
    (cycle vm inst out).1 =
      { (execute_instruction vm inst (out ++ [debug_line vm inst])).vm with
        program_counter := wrap32
          ((execute_instruction vm inst (out ++ [debug_line vm inst])).vm.program_counter
            + 1) } ∧
    ((cycle vm inst out).2 = out ++ [debug_line vm inst] ∨
      ∃ v, (cycle vm inst out).2 = out ++ [debug_line vm inst] ++ [to_string v]) := by
  rw [cycle_eq, h]
  exact ⟨rfl, execute_instruction_out vm inst (out ++ [debug_line vm inst])⟩

theorem cycle_pc_range (vm : VM) (inst : Instruction) (out : List Str) :
    -2147483648 ≤ (cycle vm inst out).1.program_counter ∧
      (cycle vm inst out).1.program_counter < 2147483648 := by
  unfold cycle
  simp only
  split <;> exact wrap32_range _

/-! ## Addresses -/

theorem mem_at_ok (memory : List Int) (addr v : Int) (h : mem_at memory addr = .ok v) :
    toSizeT addr < memory.length := by
  unfold mem_at at h
  cases hm : memory[toSizeT addr]? with
  | none => rw [hm] at h; cases h
  | some x => exact (List.getElem?_eq_some.1 hm).1

theorem mem_set_ok (memory : List Int) (addr v : Int) (m : List Int)
    (h : mem_set memory addr v = .ok m) : toSizeT addr < memory.length := by
  unfold mem_set at h
  split at h
  · assumption
  · cases h

theorem Exec.of_ok (vm : VM) (out : List Str) (r : Except Exn (VM × List Str))
    (h : (Exec.of vm out r).thrown = none) :
    ∃ v o, r = .ok (v, o) ∧ Exec.of vm out r = ⟨v, o, none⟩ := by
  unfold Exec.of at h ⊢
  cases r with
  | error e => cases h
  | ok p => exact ⟨p.1, p.2, rfl, rfl⟩

theorem exec_PRINT_addr (vm : VM) (args : List Str) (out : List Str)
    (h : (exec_PRINT vm args out).thrown = none) : InRange vm args 0 := by
  unfold exec_PRINT at h
  obtain ⟨v, o, hr, _⟩ := Exec.of_ok _ _ _ h
  simp only [bind, Except.bind, pure, Except.pure] at hr
  repeat' split at hr
  all_goals first
    | (cases hr
       exact ⟨_, by assumption, mem_at_ok _ _ _ (by assumption)⟩)
    | cases hr

theorem exec_LOAD_addr (vm : VM) (args : List Str) (out : List Str)
    (h : (exec_LOAD vm args out).thrown = none) : InRange vm args 0 ∧ InRange vm args 1 := by
  unfold exec_LOAD at h
  obtain ⟨v, o, hr, _⟩ := Exec.of_ok _ _ _ h
  simp only [bind, Except.bind, pure, Except.pure] at hr
  repeat' split at hr
  all_goals first
    | (cases hr
       exact ⟨⟨_, by assumption, mem_set_ok _ _ _ _ (by assumption)⟩, ⟨_, by assumption, mem_at_ok _ _ _ (by assumption)⟩⟩)
    | cases hr

theorem exec_LOADI_addr (vm : VM) (args : List Str) (out : List Str)
    (h : (exec_LOADI vm args out).thrown = none) : InRange vm args 0 := by
  unfold exec_LOADI at h
  obtain ⟨v, o, hr, _⟩ := Exec.of_ok _ _ _ h
  simp only [bind, Except.bind, pure, Except.pure] at hr
  repeat' split at hr
  all_goals first
    | (cases hr
       exact ⟨_, by assumption, mem_set_ok _ _ _ _ (by assumption)⟩)
    | cases hr

theorem exec_arith_addr (f : Int → Int → Int) (vm : VM) (args : List Str) (out : List Str)
    (h : (exec_arith f vm args out).thrown = none) : InRange vm args 0 ∧ InRange vm args 1 := by
  unfold exec_arith at h
  obtain ⟨v, o, hr, _⟩ := Exec.of_ok _ _ _ h
  simp only [bind, Except.bind, pure, Except.pure] at hr
  repeat' split at hr
  all_goals first
    | (cases hr
       exact ⟨⟨_, by assumption, mem_at_ok _ _ _ (by assumption)⟩, ⟨_, by assumption, mem_at_ok _ _ _ (by assumption)⟩⟩)
    | cases hr

theorem exec_CMP_addr (vm : VM) (args : List Str) (out : List Str)
    (h : (exec_CMP vm args out).thrown = none) : InRange vm args 0 ∧ InRange vm args 1 := by
  unfold exec_CMP at h
  obtain ⟨v, o, hr, _⟩ := Exec.of_ok _ _ _ h
  simp only [bind, Except.bind, pure, Except.pure] at hr
  repeat' split at hr
  all_goals first
    | (cases hr
       exact ⟨⟨_, by assumption, mem_at_ok _ _ _ (by assumption)⟩, ⟨_, by assumption, mem_at_ok _ _ _ (by assumption)⟩⟩)
    | cases hr

theorem exec_PUSH_addr (vm : VM) (args : List Str) (out : List Str)
    (h : (exec_PUSH vm args out).thrown = none) : InRange vm args 0 := by
  unfold exec_PUSH at h
  obtain ⟨v, o, hr, _⟩ := Exec.of_ok _ _ _ h
  simp only [bind, Except.bind, pure, Except.pure] at hr
  repeat' split at hr
  all_goals first
    | (cases hr
       exact ⟨_, by assumption, mem_at_ok _ _ _ (by assumption)⟩)
    | cases hr

theorem exec_POP_addr (vm : VM) (args : List Str) (out : List Str)
    (h : (exec_POP vm args out).thrown = none) : InRange vm args 0 := by
  unfold exec_POP at h
  split at h
  · cases h
  · obtain ⟨v, o, hr, _⟩ := Exec.of_ok _ _ _ h
    simp only [bind, Except.bind, pure, Except.pure] at hr
    repeat' split at hr
    all_goals first
      | (cases hr
         exact ⟨_, by assumption, mem_set_ok _ _ _ _ (by assumption)⟩)
      | cases hr

/-! ## The branch taken for each opcode -/

theorem execute_try_PRINT (vm : VM) (inst : Instruction) (out : List Str)
    (h : inst.opcode = "PRINT".toList) : execute_try vm inst out = exec_PRINT vm inst.args out := by
  unfold execute_try
  rw [h]
  rfl

theorem execute_try_LOAD (vm : VM) (inst : Instruction) (out : List Str)
    (h : inst.opcode = "LOAD".toList) : execute_try vm inst out = exec_LOAD vm inst.args out := by
  unfold execute_try
  rw [h]
  rfl

theorem execute_try_LOADI (vm : VM) (inst : Instruction) (out : List Str)
    (h : inst.opcode = "LOADI".toList) : execute_try vm inst out = exec_LOADI vm inst.args out := by
  unfold execute_try
  rw [h]
  rfl

theorem execute_try_ADD (vm : VM) (inst : Instruction) (out : List Str)
    (h : inst.opcode = "ADD".toList) : execute_try vm inst out = exec_arith (fun a b => a + b) vm inst.args out := by
  unfold execute_try
  rw [h]
  rfl

theorem execute_try_SUB (vm : VM) (inst : Instruction) (out : List Str)
    (h : inst.opcode = "SUB".toList) : execute_try vm inst out = exec_arith (fun a b => a - b) vm inst.args out := by
  unfold execute_try
  rw [h]
  rfl

theorem execute_try_MUL (vm : VM) (inst : Instruction) (out : List Str)
    (h : inst.opcode = "MUL".toList) : execute_try vm inst out = exec_arith (fun a b => a * b) vm inst.args out := by
  unfold execute_try
  rw [h]
  rfl

theorem execute_try_CMP (vm : VM) (inst : Instruction) (out : List Str)
    (h : inst.opcode = "CMP".toList) : execute_try vm inst out = exec_CMP vm inst.args out := by
  unfold execute_try
  rw [h]
  rfl

theorem execute_try_JUMP (vm : VM) (inst : Instruction) (out : List Str)
    (h : inst.opcode = "JUMP".toList) : execute_try vm inst out = exec_goto vm inst.args out := by
  unfold execute_try
  rw [h]
  rfl

theorem execute_try_JZE (vm : VM) (inst : Instruction) (out : List Str)
    (h : inst.opcode = "JZE".toList) : execute_try vm inst out = exec_JZE vm inst.args out := by
  unfold execute_try
  rw [h]
  rfl

theorem execute_try_JNE (vm : VM) (inst : Instruction) (out : List Str)
    (h : inst.opcode = "JNE".toList) : execute_try vm inst out = exec_JNE vm inst.args out := by
  unfold execute_try
  rw [h]
  rfl

theorem execute_try_PUSH (vm : VM) (inst : Instruction) (out : List Str)
    (h : inst.opcode = "PUSH".toList) : execute_try vm inst out = exec_PUSH vm inst.args out := by
  unfold execute_try
  rw [h]
  rfl

theorem execute_try_PUSHI (vm : VM) (inst : Instruction) (out : List Str)
    (h : inst.opcode = "PUSHI".toList) : execute_try vm inst out = exec_PUSHI vm inst.args out := by
  unfold execute_try
  rw [h]
  rfl

theorem execute_try_POP (vm : VM) (inst : Instruction) (out : List Str)
    (h : inst.opcode = "POP".toList) : execute_try vm inst out = exec_POP vm inst.args out := by
  unfold execute_try
  rw [h]
  rfl

theorem execute_try_CALL (vm : VM) (inst : Instruction) (out : List Str)
    (h : inst.opcode = "CALL".toList) : execute_try vm inst out = exec_CALL vm inst.args out := by
  unfold execute_try
  rw [h]
  rfl

theorem execute_try_RET (vm : VM) (inst : Instruction) (out : List Str)
    (h : inst.opcode = "RET".toList) : execute_try vm inst out = exec_RET vm out := by
  unfold execute_try
  rw [h]
  rfl

theorem execute_try_HALT (vm : VM) (inst : Instruction) (out : List Str)
    (h : inst.opcode = "HALT".toList) : execute_try vm inst out = ⟨{ vm with is_running := false }, out, none⟩ := by
  unfold execute_try
  rw [h]
  rfl

/-! ## Integers read from arguments -/

theorem stoi_digits_range (negative : Bool) (ds : Str) (v : Int)
    (h : stoi_digits negative ds = .ok v) : -2147483648 ≤ v ∧ v < 2147483648 := by
  unfold stoi_digits at h
  by_cases hd : ds.isEmpty = true
  · rw [if_pos hd] at h; cases h
  · rw [if_neg hd] at h
    simp only at h
    generalize (if negative = true then -(digits_value ds : Int) else (digits_value ds : Int)) = x
      at h
    by_cases hx : x < -2147483648 ∨ 2147483647 < x
    · rw [if_pos hx] at h; cases h
    · rw [if_neg hx] at h
      cases h
      omega

theorem stoi_range (a : Str) (v : Int) (h : stoi a = .ok v) :
    -2147483648 ≤ v ∧ v < 2147483648 :=
  stoi_digits_range _ _ v h

theorem toSizeT_of_nonneg (x : Int) (h1 : 0 ≤ x) (h2 : x < 2147483648) :
    toSizeT x = x.toNat := by
  unfold toSizeT
  omega

theorem toSizeT_of_neg (x : Int) (h1 : -2147483648 ≤ x) (h2 : x < 0) :
    18446744071562067968 ≤ toSizeT x := by
  unfold toSizeT
  omega

theorem arg_int_eq (args : List Str) (k : Nat) (a : Str) (h : args[k]? = some a) :
    arg_int args k = stoi a := by
  unfold arg_int args_at
  rw [h]

theorem bad_not_in_range (vm : VM) (args : List Str) (k : Nat) (a : Str) (v : Int)
    (hmem : vm.memory.length = 256) (harg : args[k]? = some a) (hparse : stoi a = .ok v)
    (hbad : v < 0 ∨ 256 ≤ v) : ¬ InRange vm args k := by
  rintro ⟨addr, h1, h2⟩
  rw [arg_int_eq args k a harg, hparse] at h1
  cases h1
  obtain ⟨h3, h4⟩ := stoi_range a v hparse
  rw [hmem] at h2
  rcases hbad with h | h
  · have := toSizeT_of_neg v h3 h
    omega
  · rw [toSizeT_of_nonneg v (by omega) h4] at h2
    omega

/-- An instruction does not go through when one of its address arguments
is not an index of the memory. -/
theorem execute_try_addr (vm : VM) (inst : Instruction) (out : List Str) (k : Nat)
    (hk : (inst.opcode, k) ∈ address_args)
    (h : (execute_try vm inst out).thrown = none) : InRange vm inst.args k := by
  simp only [address_args, List.mem_cons, Prod.mk.injEq, List.mem_singleton,
    List.not_mem_nil, or_false] at hk
  rcases hk with ⟨hop, rfl⟩ | ⟨hop, rfl⟩ | ⟨hop, rfl⟩ | ⟨hop, rfl⟩ | ⟨hop, rfl⟩ | ⟨hop, rfl⟩ |
    ⟨hop, rfl⟩ | ⟨hop, rfl⟩ | ⟨hop, rfl⟩ | ⟨hop, rfl⟩ | ⟨hop, rfl⟩ | ⟨hop, rfl⟩ | ⟨hop, rfl⟩ |
    ⟨hop, rfl⟩
  · rw [execute_try_PRINT vm inst out hop] at h; exact exec_PRINT_addr _ _ _ h
  · rw [execute_try_LOAD vm inst out hop] at h; exact (exec_LOAD_addr _ _ _ h).1
  · rw [execute_try_LOAD vm inst out hop] at h; exact (exec_LOAD_addr _ _ _ h).2
  · rw [execute_try_LOADI vm inst out hop] at h; exact exec_LOADI_addr _ _ _ h
  · rw [execute_try_ADD vm inst out hop] at h; exact (exec_arith_addr _ _ _ _ h).1
  · rw [execute_try_ADD vm inst out hop] at h; exact (exec_arith_addr _ _ _ _ h).2
  · rw [execute_try_SUB vm inst out hop] at h; exact (exec_arith_addr _ _ _ _ h).1
  · rw [execute_try_SUB vm inst out hop] at h; exact (exec_arith_addr _ _ _ _ h).2
  · rw [execute_try_MUL vm inst out hop] at h; exact (exec_arith_addr _ _ _ _ h).1
  · rw [execute_try_MUL vm inst out hop] at h; exact (exec_arith_addr _ _ _ _ h).2
  · rw [execute_try_CMP vm inst out hop] at h; exact (exec_CMP_addr _ _ _ h).1
  · rw [execute_try_CMP vm inst out hop] at h; exact (exec_CMP_addr _ _ _ h).2
  · rw [execute_try_PUSH vm inst out hop] at h; exact exec_PUSH_addr _ _ _ h
  · rw [execute_try_POP vm inst out hop] at h; exact exec_POP_addr _ _ _ h

theorem mem_at_error_iff (memory : List Int) (addr : Int) :
    mem_at memory addr = .error .out_of_range ↔ ¬ toSizeT addr < memory.length := by
  unfold mem_at
  cases hm : memory[toSizeT addr]? with
  | none =>
    simp only [true_iff]
    intro hlt
    rw [List.getElem?_eq_getElem hlt] at hm
    cases hm
  | some x =>
    have := (List.getElem?_eq_some.1 hm).1
    simp [this]

theorem mem_set_error_iff (memory : List Int) (addr v : Int) :
    mem_set memory addr v = .error .out_of_range ↔ ¬ toSizeT addr < memory.length := by
  unfold mem_set
  split <;> simp [*]

/-! ## Reachable loop states -/

theorem fetch_some (vm : VM) (program : List Instruction) (inst : Instruction)
    (h : fetch vm program = some inst) :
    vm.is_running = true ∧ toSizeT vm.program_counter < program.length ∧
      program[toSizeT vm.program_counter]? = some inst := by
  unfold fetch loop_cond at h
  split at h
  · rename_i hc
    simp only [Bool.and_eq_true, decide_eq_true_eq] at hc
    exact ⟨hc.1, hc.2, h⟩
  · cases h

theorem fetch_none_of_not_running (vm : VM) (program : List Instruction)
    (h : vm.is_running = false) : fetch vm program = none := by
  unfold fetch loop_cond
  rw [h]
  rfl

theorem fetch_none_of_ge (vm : VM) (program : List Instruction)
    (h : program.length ≤ toSizeT vm.program_counter) : fetch vm program = none := by
  unfold fetch loop_cond
  have : decide (toSizeT vm.program_counter < program.length) = false := by
    simpa using h
  rw [this, Bool.and_false]
  rfl

theorem loop_state_succ (program : List Instruction) (n : Nat) :
    ∀ (vm : VM) (out : List Str) (s : VM) (o : List Str) (inst : Instruction),
      loop_state program n vm out = some (s, o) → fetch s program = some inst →
      loop_state program (n + 1) vm out = some (cycle s inst o) := by
  induction n with
  | zero =>
    intro vm out s o inst h hf
    simp only [loop_state] at h
    cases h
    simp only [loop_state, hf]
  | succ n ih =>
    intro vm out s o inst h hf
    rw [loop_state] at h ⊢
    cases hv : fetch vm program with
    | none => rw [hv] at h; cases h
    | some i0 =>
      rw [hv] at h
      exact ih _ _ s o inst h hf

/-- When the loop test fails at the `n`-th evaluation, `run_loop` returns
the state reached there, whatever the fuel above `n`. -/
theorem run_loop_of_loop_state (program : List Instruction) (n : Nat) :
    ∀ (vm : VM) (out : List Str) (s : VM) (o : List Str),
      loop_state program n vm out = some (s, o) → fetch s program = none →
      ∀ fuel, n < fuel → run_loop fuel program vm out = some (s, o) := by
  induction n with
  | zero =>
    intro vm out s o h hf fuel hfuel
    simp only [loop_state] at h
    cases h
    cases fuel with
    | zero => omega
    | succ f => simp only [run_loop, hf]
  | succ n ih =>
    intro vm out s o h hf fuel hfuel
    rw [loop_state] at h
    cases fuel with
    | zero => omega
    | succ f =>
      rw [run_loop]
      cases hv : fetch vm program with
      | none => rw [hv] at h; cases h
      | some i0 =>
        rw [hv] at h
        exact ih _ _ s o h hf f (by omega)

/-- A property kept by every cycle holds at every loop test. -/
theorem loop_state_invariant (program : List Instruction) (I : VM → List Str → Prop)
    (hstep : ∀ vm out inst, I vm out → fetch vm program = some inst →
      I (cycle vm inst out).1 (cycle vm inst out).2) (n : Nat) :
    ∀ (vm : VM) (out : List Str) (s : VM) (o : List Str),
      I vm out → loop_state program n vm out = some (s, o) → I s o := by
  induction n with
  | zero =>
    intro vm out s o hI h
    simp only [loop_state] at h
    cases h
    exact hI
  | succ n ih =>
    intro vm out s o hI h
    rw [loop_state] at h
    cases hv : fetch vm program with
    | none => rw [hv] at h; cases h
    | some i0 =>
      rw [hv] at h
      exact ih _ _ s o (hstep vm out i0 hI hv) h

/-- The program counter is an `int` at every loop test of `run_program`. -/
theorem run_state_pc_range (program : List Instruction) (vm : VM) (n : Nat) (s : VM)
    (o : List Str) (h : run_state program vm n = some (s, o)) :
    -2147483648 ≤ s.program_counter ∧ s.program_counter < 2147483648 := by
  refine loop_state_invariant program
    (fun v _ => -2147483648 ≤ v.program_counter ∧ v.program_counter < 2147483648)
    ?_ n _ _ s o ?_ h
  · intro v out inst _ _
    exact cycle_pc_range v inst out
  · show -2147483648 ≤ (0 : Int) ∧ (0 : Int) < 2147483648
    exact ⟨by decide, by decide⟩

/-! ## Fatal lines -/

theorem is_fatal_cons (c : Char) (t : Str) (h : c ≠ 'F') : is_fatal (c :: t) = false := by
  unfold is_fatal
  have : "FATAL ERROR at line ".toList = 'F' :: "ATAL ERROR at line ".toList := rfl
  rw [this, List.isPrefixOf]
  have : ('F' == c) = false := by simpa using fun e => h e.symm
  rw [this]
  rfl

theorem is_fatal_fatal_line (pc : Int) (what : Str) : is_fatal (fatal_line pc what) = true := by
  unfold is_fatal fatal_line
  rw [List.isPrefixOf_iff_prefix, List.append_assoc, List.append_assoc]
  exact List.prefix_append _ _

theorem foldl_append_cons (args : List Str) : ∀ (c : Char) (t : Str),
    ∃ t1, args.foldl (fun line arg => line ++ " ".toList ++ arg) (c :: t) = c :: t1 := by
  induction args with
  | nil => intro c t; exact ⟨t, rfl⟩
  | cons a rest ih =>
    intro c t
    rw [List.foldl_cons]
    exact ih c _

theorem is_fatal_debug_line (vm : VM) (inst : Instruction) :
    is_fatal (debug_line vm inst) = false := by
  unfold debug_line
  obtain ⟨t1, h⟩ := foldl_append_cons inst.args 'P'
    ("C:".toList ++ to_string vm.program_counter ++ " > ".toList ++ inst.opcode)
  have e : "PC:".toList ++ to_string vm.program_counter ++ " > ".toList ++ inst.opcode =
      'P' :: ("C:".toList ++ to_string vm.program_counter ++ " > ".toList ++ inst.opcode) := rfl
  rw [e, h]
  exact is_fatal_cons _ _ (by decide)

theorem nat_digits_head (fuel : Nat) : ∀ (n : Nat) (acc : Str),
    ∃ d t, d < 10 ∧ nat_digits (fuel + 1) n acc = digit_char d :: t := by
  induction fuel with
  | zero =>
    intro n acc
    unfold nat_digits
    by_cases h : n < 10
    · exact ⟨n, acc, h, by rw [if_pos h]⟩
    · refine ⟨n % 10, acc, Nat.mod_lt _ (by decide), ?_⟩
      rw [if_neg h]
      rfl
  | succ f ih =>
    intro n acc
    rw [nat_digits]
    by_cases h : n < 10
    · exact ⟨n, acc, h, by rw [if_pos h]⟩
    · rw [if_neg h]
      exact ih _ _

theorem digit_char_ne (d : Nat) (h : d < 10) : digit_char d ≠ 'F' := by
  revert d
  decide

theorem is_fatal_to_string (v : Int) : is_fatal (to_string v) = false := by
  unfold to_string
  split
  · exact is_fatal_cons _ _ (by decide)
  · obtain ⟨d, t, hd, h⟩ := nat_digits_head v.natAbs v.natAbs []
    rw [h]
    exact is_fatal_cons _ _ (digit_char_ne d hd)

/-- While the machine is running, no fatal line has been written. -/
theorem run_state_no_fatal (program : List Instruction) (vm : VM) (n : Nat) (s : VM)
    (o : List Str) (h : run_state program vm n = some (s, o)) (hr : s.is_running = true) :
    o.filter is_fatal = [] := by
  refine loop_state_invariant program
    (fun v out => v.is_running = true → out.filter is_fatal = [])
    ?_ n _ _ s o ?_ h hr
  · intro v out inst hI hf hrun
    have hv := (fetch_some _ _ _ hf).1
    cases ht : (execute_instruction v inst (out ++ [debug_line v inst])).thrown with
    | some what =>
      have := (cycle_thrown v inst out what ht).1
      rw [this] at hrun
      cases hrun
    | none =>
      rcases (cycle_ok v inst out ht).2 with h2 | ⟨x, h2⟩
      · rw [h2, List.filter_append, hI hv]
        simp [is_fatal_debug_line]
      · rw [h2, List.filter_append, List.filter_append, hI hv]
        simp [is_fatal_debug_line, is_fatal_to_string]
  · intro _
    decide

/-! ## The end of a run that faults -/

/-- After a cycle whose instruction throws, the loop ends and `run_program`
returns the machine as that cycle left it. -/
theorem run_program_of_fault (program : List Instruction) (vm : VM) (n : Nat) (s : VM)
    (o : List Str) (inst : Instruction) (what : Str)
    (hreach : run_state program vm n = some (s, o))
    (hfetch : fetch s program = some inst)
    (hfault : (execute_instruction s inst (o ++ [debug_line s inst])).thrown = some what) :
    run_state program vm (n + 1) = some (cycle s inst o) ∧
    fetch (cycle s inst o).1 program = none ∧
    ∀ fuel, n + 1 < fuel →
      run_program fuel vm program =
        some ((cycle s inst o).1, (cycle s inst o).2 ++ ["--- Program Halted ---".toList]) := by
  have h1 := loop_state_succ program n _ _ s o inst hreach hfetch
  have h2 := (cycle_thrown s inst o what hfault).1
  have h3 := fetch_none_of_not_running _ program h2
  refine ⟨h1, h3, ?_⟩
  intro fuel hfuel
  have h4 := run_loop_of_loop_state program (n + 1) _ _ (cycle s inst o).1 (cycle s inst o).2
    h1 h3 fuel hfuel
  unfold run_program
  simp only []
  rw [h4]
  simp only [h2, Bool.false_eq_true, if_false, serial_log_debug]

theorem wrap32_pred_succ (t : Int) (h1 : -2147483648 ≤ t) (h2 : t < 2147483648) :
    wrap32 (wrap32 (t - 1) + 1) = t := by
  unfold wrap32
  omega

theorem exec_goto_ok (vm : VM) (args : List Str) (out : List Str) (t : Int)
    (h : arg_int args 0 = .ok t) :
    exec_goto vm args out = ⟨{ vm with program_counter := wrap32 (t - 1) }, out, none⟩ := by
  unfold exec_goto Exec.of
  simp only [bind, Except.bind, h, pure, Except.pure]

theorem execute_instruction_of_try (vm : VM) (inst : Instruction) (out : List Str)
    (r : Exec Exn) (h : execute_try vm inst out = r) :
    execute_instruction vm inst out = ⟨r.vm, r.out, r.thrown.map (rethrow inst.opcode)⟩ := by
  unfold execute_instruction
  rw [h]

/-- The fetch at a machine that is running, whose program counter is a
non-negative `int`. -/
theorem fetch_running (program : List Instruction) (vm : VM) (hr : vm.is_running = true)
    (h1 : 0 ≤ vm.program_counter) (h2 : vm.program_counter < 2147483648) :
    fetch vm program = program[vm.program_counter.toNat]? := by
  unfold fetch loop_cond
  rw [hr, toSizeT_of_nonneg _ h1 h2]
  by_cases hlt : vm.program_counter.toNat < program.length
  · simp [hlt]
  · simp only [hlt, decide_False, Bool.and_false, Bool.false_eq_true, if_false]
    exact (List.getElem?_eq_none (by omega)).symm

/-- At a loop test of `run_program` where an instruction is fetched, the
program counter is an index of the program. -/
theorem fetch_pc_valid (program : List Instruction) (vm : VM) (n : Nat) (s : VM)
    (o : List Str) (inst : Instruction) (hsize : program.length < 9223372036854775808)
    (hreach : run_state program vm n = some (s, o)) (hf : fetch s program = some inst) :
    0 ≤ s.program_counter ∧ s.program_counter < program.length ∧
      program[s.program_counter.toNat]? = some inst := by
  obtain ⟨h1, h2⟩ := run_state_pc_range program vm n s o hreach
  obtain ⟨_, h3, h4⟩ := fetch_some _ _ _ hf
  have hnn : 0 ≤ s.program_counter := by
    by_contra hneg
    have := toSizeT_of_neg _ h1 (by omega)
    omega
  rw [toSizeT_of_nonneg _ hnn h2] at h3 h4
  exact ⟨hnn, by omega, h4⟩

/-- A cycle whose instruction sets the program counter to `t - 1` and does
not throw. -/
theorem cycle_goto (vm vm1 : VM) (inst : Instruction) (out : List Str) (t : Int)
    (ht1 : -2147483648 ≤ t) (ht2 : t < 2147483648)
    (h : execute_try vm inst (out ++ [debug_line vm inst]) =
      ⟨{ vm1 with program_counter := wrap32 (t - 1) }, out ++ [debug_line vm inst], none⟩) :
    (cycle vm inst out).1 = { vm1 with program_counter := t } := by
  have h1 := execute_instruction_of_try vm inst _ _ h
  have h2 : (execute_instruction vm inst (out ++ [debug_line vm inst])).thrown = none := by
    rw [h1]; rfl
  rw [(cycle_ok vm inst out h2).1, h1]
  simp only [wrap32_pred_succ t ht1 ht2]

/-- One cycle on `JUMP`, `CALL`, a taken `JZE` or a taken `JNE`. -/
theorem cycle_jump (vm : VM) (inst : Instruction) (out : List Str) (a : Str) (t : Int)
    (hop : inst.opcode = "JUMP".toList ∨ inst.opcode = "CALL".toList ∨
      (inst.opcode = "JZE".toList ∧ vm.flags_zero = true) ∨
      (inst.opcode = "JNE".toList ∧ vm.flags_zero = false))
    (harg : inst.args[0]? = some a) (hparse : stoi a = .ok t) :
    (cycle vm inst out).1.program_counter = t ∧
    (cycle vm inst out).1.is_running = vm.is_running ∧
    (cycle vm inst out).1.memory = vm.memory ∧
    (cycle vm inst out).1.flags_zero = vm.flags_zero ∧
    (cycle vm inst out).1.system_stack =
      if inst.opcode = "CALL".toList then wrap32 (vm.program_counter + 1) :: vm.system_stack
      else vm.system_stack := by
  obtain ⟨ht1, ht2⟩ := stoi_range a t hparse
  have hint : arg_int inst.args 0 = .ok t := by rw [arg_int_eq _ _ _ harg]; exact hparse
  rcases hop with hop | hop | ⟨hop, hz⟩ | ⟨hop, hz⟩
  · have h := execute_try_JUMP vm inst (out ++ [debug_line vm inst]) hop
    rw [exec_goto_ok _ _ _ t hint] at h
    rw [cycle_goto vm vm inst out t ht1 ht2 h, hop]
    exact ⟨rfl, rfl, rfl, rfl, rfl⟩
  · have h := execute_try_CALL vm inst (out ++ [debug_line vm inst]) hop
    unfold exec_CALL at h
    rw [exec_goto_ok _ _ _ t hint] at h
    rw [cycle_goto vm _ inst out t ht1 ht2 h, hop]
    exact ⟨rfl, rfl, rfl, rfl, rfl⟩
  · have h := execute_try_JZE vm inst (out ++ [debug_line vm inst]) hop
    unfold exec_JZE at h
    rw [hz, if_pos rfl, exec_goto_ok _ _ _ t hint] at h
    rw [cycle_goto vm vm inst out t ht1 ht2 h, hop]
    exact ⟨rfl, rfl, rfl, rfl, rfl⟩
  · have h := execute_try_JNE vm inst (out ++ [debug_line vm inst]) hop
    unfold exec_JNE at h
    rw [hz] at h
    simp only [Bool.not_false, if_true] at h
    rw [exec_goto_ok _ _ _ t hint] at h
    rw [cycle_goto vm vm inst out t ht1 ht2 h, hop]
    exact ⟨rfl, rfl, rfl, rfl, rfl⟩

/-- One cycle on `RET` with a return address on the stack. -/
theorem cycle_ret (vm : VM) (inst : Instruction) (out : List Str) (top : Int)
    (below : List Int) (hop : inst.opcode = "RET".toList)
    (hstack : vm.system_stack = top :: below)
    (ht1 : -2147483648 ≤ top) (ht2 : top < 2147483648) :
    (cycle vm inst out).1 = { vm with program_counter := top, system_stack := below } := by
  have h := execute_try_RET vm inst (out ++ [debug_line vm inst]) hop
  unfold exec_RET at h
  rw [hstack] at h
  simp only at h
  exact cycle_goto vm { vm with system_stack := below } inst out top ht1 ht2 h

/-! ## Decimal text of an integer -/

theorem digit_char_props : ∀ d, d < 10 →
    isdigit (digit_char d) = true ∧ isspace (digit_char d) = false ∧
    is_trim_ws (digit_char d) = false ∧ digit_char d ≠ '-' ∧ digit_char d ≠ '+' ∧
    digit_char d ≠ ',' ∧ digit_char d ≠ ':' ∧ digit_char d ≠ '#' ∧
    (digit_char d).toNat - 48 = d := by
  decide

theorem digits_value_append (xs : Str) (c : Char) :
    digits_value (xs ++ [c]) = 10 * digits_value xs + (c.toNat - 48) := by
  unfold digits_value
  rw [List.foldl_append]
  rfl

/-- The digits `nat_digits` puts in front of `acc`, when the fuel is enough:
a non-empty run of decimal digits whose value is `n`. -/
theorem nat_digits_spec (fuel : Nat) : ∀ (n : Nat) (acc : Str), n < fuel →
    ∃ ds, nat_digits fuel n acc = ds ++ acc ∧ ds ≠ [] ∧
      (∀ c ∈ ds, ∃ d, d < 10 ∧ c = digit_char d) ∧ digits_value ds = n := by
  induction fuel with
  | zero => intro n acc h; omega
  | succ fuel ih =>
    intro n acc h
    unfold nat_digits
    by_cases hn : n < 10
    · rw [if_pos hn]
      refine ⟨[digit_char n], rfl, by simp, ?_, ?_⟩
      · intro c hc
        exact ⟨n, hn, List.mem_singleton.1 hc⟩
      · unfold digits_value
        simp only [List.foldl_cons, List.foldl_nil, Nat.mul_zero, Nat.zero_add]
        exact (digit_char_props n hn).2.2.2.2.2.2.2.2
    · rw [if_neg hn]
      obtain ⟨ds, h1, h2, h3, h4⟩ := ih (n / 10) (digit_char (n % 10) :: acc) (by omega)
      have hd : n % 10 < 10 := Nat.mod_lt _ (by decide)
      refine ⟨ds ++ [digit_char (n % 10)], ?_, by simp, ?_, ?_⟩
      · rw [h1]
        simp
      · intro c hc
        rcases List.mem_append.1 hc with hc | hc
        · exact h3 c hc
        · exact ⟨n % 10, hd, List.mem_singleton.1 hc⟩
      · rw [digits_value_append, h4, (digit_char_props _ hd).2.2.2.2.2.2.2.2]
        omega

/-- The text `std::to_string(v)`: an optional `-` and a non-empty run of
digits whose value is the absolute value of `v`. -/
theorem to_string_spec (v : Int) :
    ∃ ds, to_string v = (if v < 0 then '-' :: ds else ds) ∧ ds ≠ [] ∧
      (∀ c ∈ ds, ∃ d, d < 10 ∧ c = digit_char d) ∧ digits_value ds = v.natAbs := by
  obtain ⟨ds, h1, h2, h3, h4⟩ := nat_digits_spec (v.natAbs + 1) v.natAbs [] (by omega)
  rw [List.append_nil] at h1
  refine ⟨ds, ?_, h2, h3, h4⟩
  unfold to_string
  rw [h1]

theorem to_string_ne_nil (v : Int) : to_string v ≠ [] := by
  obtain ⟨ds, h1, h2, _, _⟩ := to_string_spec v
  rw [h1]
  split
  · simp
  · exact h2

theorem to_string_chars (v : Int) : ∀ c ∈ to_string v,
    isspace c = false ∧ is_trim_ws c = false ∧ c ≠ ',' ∧ c ≠ ':' ∧ c ≠ '#' := by
  obtain ⟨ds, h1, _, h3, _⟩ := to_string_spec v
  have hds : ∀ c ∈ ds,
      isspace c = false ∧ is_trim_ws c = false ∧ c ≠ ',' ∧ c ≠ ':' ∧ c ≠ '#' := by
    intro c hc
    obtain ⟨d, hd, rfl⟩ := h3 c hc
    have := digit_char_props d hd
    exact ⟨this.2.1, this.2.2.1, this.2.2.2.2.2.1, this.2.2.2.2.2.2.1, this.2.2.2.2.2.2.2.1⟩
  intro c hc
  rw [h1] at hc
  split at hc
  · rcases List.mem_cons.1 hc with rfl | hc
    · decide
    · exact hds c hc
  · exact hds c hc

/-- The round trip of an `int` through `std::to_string` and `std::stoi`. -/
theorem stoi_to_string (v : Int) (h1 : -2147483648 ≤ v) (h2 : v ≤ 2147483647) :
    stoi (to_string v) = .ok v := by
  obtain ⟨ds, e, hne, hd, hv⟩ := to_string_spec v
  obtain ⟨c0, t, rfl⟩ := List.exists_cons_of_ne_nil hne
  obtain ⟨d0, hd0, hc0⟩ := hd c0 (List.mem_cons_self _ _)
  have p0 := digit_char_props d0 hd0
  rw [← hc0] at p0
  have hall : ∀ c ∈ c0 :: t, isdigit c = true := by
    intro c hc
    obtain ⟨d, hd1, rfl⟩ := hd c hc
    exact (digit_char_props d hd1).1
  have htake : (c0 :: t).takeWhile isdigit = c0 :: t := List.takeWhile_eq_self_iff.2 hall
  rw [e]
  by_cases hneg : v < 0
  · rw [if_pos hneg]
    unfold stoi
    have hs : ('-' :: c0 :: t).dropWhile isspace = '-' :: c0 :: t :=
      List.dropWhile_cons_of_neg (by decide)
    simp only [hs, List.head?_cons, true_or, if_true, List.tail_cons, htake]
    unfold stoi_digits
    simp only [List.isEmpty_cons, Bool.false_eq_true, if_false, decide_True, if_true, hv]
    rw [if_neg (by omega)]
    congr 1
    omega
  · rw [if_neg hneg]
    unfold stoi
    have hs : (c0 :: t).dropWhile isspace = c0 :: t :=
      List.dropWhile_cons_of_neg (by rw [p0.2.1]; decide)
    have hm : ¬ (some c0 = some '-' ∨ some c0 = some '+') := by
      simp only [Option.some.injEq, not_or]
      exact ⟨p0.2.2.2.1, p0.2.2.2.2.1⟩
    have hm1 : ¬ (some c0 = some '-') := fun h => hm (Or.inl h)
    have hm2 : ¬ (some c0 = some '+') := fun h => hm (Or.inr h)
    simp only [hs, List.head?_cons, hm1, hm2, or_self, if_false, htake, decide_False]
    unfold stoi_digits
    simp only [List.isEmpty_cons, Bool.false_eq_true, if_false, hv]
    rw [if_neg (by omega)]
    congr 1
    omega

/-! ## The claims on the executor -/

/-- C5: at every evaluation of the loop test of `run_program`, when the
loop body is entered and `program[program_counter]` is fetched, the program
counter satisfies `0 <= program_counter < program.length`; and when the
program counter is negative or at least `program.length` (after a jump, a
call or a return to such a target), the loop is left with the machine and
the standard output as they are: nothing is fetched, no fault is raised
(programs of fewer than `2 ^ 63` instructions, the bound of `std::vector`). -/
theorem fetch_index_valid (program : List Instruction) (vm : VM) (n : Nat) (s : VM)
    (o : List Str) (hsize : program.length < 9223372036854775808)
    (hreach : run_state program vm n = some (s, o)) :
    (∀ inst, fetch s program = some inst →
      0 ≤ s.program_counter ∧ s.program_counter < program.length ∧
        program[s.program_counter.toNat]? = some inst) ∧
    ((s.program_counter < 0 ∨ (program.length : Int) ≤ s.program_counter) →
      fetch s program = none ∧ ∀ fuel, run_loop (fuel + 1) program s o = some (s, o)) := by
  obtain ⟨h1, h2⟩ := run_state_pc_range program vm n s o hreach
  constructor
  · intro inst hf
    exact fetch_pc_valid program vm n s o inst hsize hreach hf
  · intro hout
    have hf : fetch s program = none := by
      apply fetch_none_of_ge
      rcases hout with h | h
      · have := toSizeT_of_neg _ h1 h
        omega
      · rw [toSizeT_of_nonneg _ (by omega) h2]
        omega
    refine ⟨hf, fun fuel => ?_⟩
    simp only [run_loop, hf]

/-- C5 at `sample_jump_out`: after `JUMP 7` the program counter is 7, beyond
the end of the program. -/
theorem fetch_index_valid_witness :
    (sample_jump_out.length < 9223372036854775808 ∧
      run_state sample_jump_out VM.init 1 =
        some (sample_jumped, sample_out ++ ["PC:0 > JUMP 7".toList])) ∧
    (∀ inst, fetch sample_jumped sample_jump_out = some inst →
      0 ≤ sample_jumped.program_counter ∧
        sample_jumped.program_counter < sample_jump_out.length ∧
        sample_jump_out[sample_jumped.program_counter.toNat]? = some inst) ∧
    ((sample_jumped.program_counter < 0 ∨
        (sample_jump_out.length : Int) ≤ sample_jumped.program_counter) →
      fetch sample_jumped sample_jump_out = none ∧
      ∀ fuel, run_loop (fuel + 1) sample_jump_out sample_jumped
          (sample_out ++ ["PC:0 > JUMP 7".toList]) =
        some (sample_jumped, sample_out ++ ["PC:0 > JUMP 7".toList])) :=
  ⟨⟨by decide, by decide⟩,
   fetch_index_valid sample_jump_out VM.init 1 _ _ (by decide) (by decide)⟩

/-- C6: when the instruction fetched at a loop test of `run_program` makes
`execute_instruction` throw the message `what`, `run_program` returns (for
every fuel that reaches the next loop test) a machine with
`is_running = false`; the standard output holds exactly one line that starts
with `FATAL ERROR at line `, and that line is `FATAL ERROR at line `, the
decimal text of the program counter `i` of the faulting instruction (a text
that `std::stoi` reads back as `i`), `: ` and `what`; the faulting
instruction is the one at index `i` of the program; and the loop ends at the
next test, so that what is returned is the machine as the faulting cycle left
it. -/
theorem fault_ends_run (program : List Instruction) (vm : VM) (n : Nat) (s : VM)
    (o : List Str) (inst : Instruction) (what : Str)
    (hreach : run_state program vm n = some (s, o))
    (hfetch : fetch s program = some inst)
    (hfault : (execute_instruction s inst (serial_log o (debug_line s inst) true)).thrown =
      some what) :
    ∃ vm1 out1, (∀ fuel, n + 1 < fuel → run_program fuel vm program = some (vm1, out1)) ∧
      vm1.is_running = false ∧
      out1.filter is_fatal =
        ["FATAL ERROR at line ".toList ++ to_string s.program_counter ++ ": ".toList ++
          what] ∧
      stoi (to_string s.program_counter) = .ok s.program_counter ∧
      program[toSizeT s.program_counter]? = some inst ∧
      (program.length < 9223372036854775808 →
        0 ≤ s.program_counter ∧ program[s.program_counter.toNat]? = some inst) ∧
      run_state program vm (n + 1) = some (cycle s inst o) ∧
      fetch (cycle s inst o).1 program = none ∧
      vm1 = (cycle s inst o).1 ∧
      out1 = (cycle s inst o).2 ++ ["--- Program Halted ---".toList] := by
  rw [serial_log_debug] at hfault
  obtain ⟨h1, h2, h3⟩ := run_program_of_fault program vm n s o inst what hreach hfetch hfault
  obtain ⟨h4, _, _, h5⟩ := cycle_thrown s inst o what hfault
  obtain ⟨r1, r2⟩ := run_state_pc_range program vm n s o hreach
  refine ⟨_, _, h3, h4, ?_, stoi_to_string _ r1 (by omega), (fetch_some _ _ _ hfetch).2.2,
    ?_, h1, h2, rfl, rfl⟩
  · have h6 := run_state_no_fatal program vm n s o hreach (fetch_some _ _ _ hfetch).1
    rw [h5, List.filter_append, List.filter_append, List.filter_append, h6]
    simp only [List.filter_cons, List.filter_nil, is_fatal_debug_line, is_fatal_fatal_line,
      Bool.false_eq_true, if_false, if_true, List.nil_append]
    rfl
  · intro hsize
    obtain ⟨p1, _, p3⟩ := fetch_pc_valid program vm n s o inst hsize hreach hfetch
    exact ⟨p1, p3⟩

/-- C6 at `sample_faulty`: `POP 0` on the empty stack. -/
theorem fault_ends_run_witness :
    (run_state sample_faulty VM.init 0 = some (sample_vm, sample_out) ∧
      fetch sample_vm sample_faulty = some ⟨"POP".toList, ["0".toList]⟩ ∧
      (execute_instruction sample_vm ⟨"POP".toList, ["0".toList]⟩
        (serial_log sample_out (debug_line sample_vm ⟨"POP".toList, ["0".toList]⟩)
          true)).thrown = some "Stack underflow".toList) ∧
    "FATAL ERROR at line ".toList ++ to_string sample_vm.program_counter ++ ": ".toList ++
      "Stack underflow".toList = "FATAL ERROR at line 0: Stack underflow".toList ∧
    ∃ vm1 out1,
      (∀ fuel, 0 + 1 < fuel → run_program fuel VM.init sample_faulty = some (vm1, out1)) ∧
      vm1.is_running = false ∧
      out1.filter is_fatal =
        ["FATAL ERROR at line ".toList ++ to_string sample_vm.program_counter ++
          ": ".toList ++ "Stack underflow".toList] ∧
      stoi (to_string sample_vm.program_counter) = .ok sample_vm.program_counter ∧
      sample_faulty[toSizeT sample_vm.program_counter]? =
        some ⟨"POP".toList, ["0".toList]⟩ ∧
      (sample_faulty.length < 9223372036854775808 →
        0 ≤ sample_vm.program_counter ∧
        sample_faulty[sample_vm.program_counter.toNat]? =
          some ⟨"POP".toList, ["0".toList]⟩) ∧
      run_state sample_faulty VM.init (0 + 1) =
        some (cycle sample_vm ⟨"POP".toList, ["0".toList]⟩ sample_out) ∧
      fetch (cycle sample_vm ⟨"POP".toList, ["0".toList]⟩ sample_out).1 sample_faulty = none ∧
      vm1 = (cycle sample_vm ⟨"POP".toList, ["0".toList]⟩ sample_out).1 ∧
      out1 = (cycle sample_vm ⟨"POP".toList, ["0".toList]⟩ sample_out).2 ++
        ["--- Program Halted ---".toList] :=
  ⟨⟨by decide, by decide, by decide⟩, by decide,
   fault_ends_run sample_faulty VM.init 0 sample_vm sample_out ⟨"POP".toList, ["0".toList]⟩
    "Stack underflow".toList (by decide) (by decide) (by decide)⟩

/-- C7 fails on the code: in `sample_faulty` the instruction fetched at
index 0 faults, and the run ends with `program_counter = 1`, not 0. -/
theorem fault_keeps_pc_counterexample :
    (execute_instruction sample_vm ⟨"POP".toList, ["0".toList]⟩
      (serial_log sample_out (debug_line sample_vm ⟨"POP".toList, ["0".toList]⟩)
        true)).thrown = some "Stack underflow".toList ∧
    (run_program 2 VM.init sample_faulty).map (fun r => r.1.program_counter) = some 1 := by
  decide

/-- C7 as amended: the loop of `run_program` increments the program counter
after every dispatched instruction, whether the instruction raised a fault
or not; when the instruction fetched at index `i` faults, the program
counter is incremented all the same and the run ends with
`program_counter = i + 1` (programs of fewer than `2 ^ 31` instructions). -/
theorem fault_increments_pc (program : List Instruction) (vm : VM) (n : Nat) (s : VM)
    (o : List Str) (inst : Instruction) (what : Str)
    (hsize : program.length < 2147483648)
    (hreach : run_state program vm n = some (s, o))
    (hfetch : fetch s program = some inst)
    (hfault : (execute_instruction s inst (serial_log o (debug_line s inst) true)).thrown =
      some what) :
    (∀ (vm0 : VM) (inst0 : Instruction) (out0 : List Str),
      (cycle vm0 inst0 out0).1.program_counter =
        wrap32 ((execute_instruction vm0 inst0
          (serial_log out0 (debug_line vm0 inst0) true)).vm.program_counter + 1)) ∧
    ∃ vm1 out1, (∀ fuel, n + 1 < fuel → run_program fuel vm program = some (vm1, out1)) ∧
      vm1.program_counter = s.program_counter + 1 := by
  constructor
  · intro vm0 inst0 out0
    unfold cycle
    simp only
    split <;> rfl
  · rw [serial_log_debug] at hfault
    obtain ⟨_, _, h3⟩ := run_program_of_fault program vm n s o inst what hreach hfetch hfault
    obtain ⟨_, h5, _, _⟩ := cycle_thrown s inst o what hfault
    refine ⟨_, _, h3, ?_⟩
    obtain ⟨h6, h7, _⟩ := fetch_pc_valid program vm n s o inst (by omega) hreach hfetch
    rw [h5]
    apply wrap32_of_range <;> omega

/-- C7 as amended, at `sample_faulty`. -/
theorem fault_increments_pc_witness :
    (sample_faulty.length < 2147483648 ∧
      run_state sample_faulty VM.init 0 = some (sample_vm, sample_out) ∧
      fetch sample_vm sample_faulty = some ⟨"POP".toList, ["0".toList]⟩ ∧
      (execute_instruction sample_vm ⟨"POP".toList, ["0".toList]⟩
        (serial_log sample_out (debug_line sample_vm ⟨"POP".toList, ["0".toList]⟩)
          true)).thrown = some "Stack underflow".toList) ∧
    (∀ (vm0 : VM) (inst0 : Instruction) (out0 : List Str),
      (cycle vm0 inst0 out0).1.program_counter =
        wrap32 ((execute_instruction vm0 inst0
          (serial_log out0 (debug_line vm0 inst0) true)).vm.program_counter + 1)) ∧
    ∃ vm1 out1,
      (∀ fuel, 0 + 1 < fuel → run_program fuel VM.init sample_faulty = some (vm1, out1)) ∧
      vm1.program_counter = sample_vm.program_counter + 1 :=
  ⟨⟨by decide, by decide, by decide, by decide⟩,
   fault_increments_pc sample_faulty VM.init 0 sample_vm sample_out
    ⟨"POP".toList, ["0".toList]⟩ "Stack underflow".toList
    (by decide) (by decide) (by decide) (by decide)⟩

/-- C8: on a machine with 256 memory cells, when an address argument of
`LOAD`, `LOADI`, `ADD`, `SUB`, `MUL`, `CMP`, `PRINT`, `PUSH` or `POP` is read
as an integer below 0 or at least 256, `execute_instruction` throws, and the
memory and the standard output are left as they were; at such an address the
read `mem_at` and the write `mem_set` of the embedding both take their
`out_of_range` branch. -/
theorem bad_address_faults (vm : VM) (inst : Instruction) (out : List Str) (k : Nat)
    (a : Str) (v : Int) (hmem : vm.memory.length = 256)
    (hk : (inst.opcode, k) ∈ address_args) (harg : inst.args[k]? = some a)
    (hparse : stoi a = .ok v) (hbad : v < 0 ∨ 256 ≤ v) :
    (∃ what, (execute_instruction vm inst out).thrown = some what) ∧
    (execute_instruction vm inst out).vm.memory = vm.memory ∧
    (execute_instruction vm inst out).out = out ∧
    mem_at vm.memory v = .error .out_of_range ∧
    ∀ x, mem_set vm.memory v x = .error .out_of_range := by
  have hnot := bad_not_in_range vm inst.args k a v hmem harg hparse hbad
  have hlen : ¬ toSizeT v < vm.memory.length := by
    intro hlt
    exact hnot ⟨v, by rw [arg_int_eq _ _ _ harg]; exact hparse, hlt⟩
  cases ht : (execute_try vm inst out).thrown with
  | none => exact absurd (execute_try_addr vm inst out k hk ht) hnot
  | some e =>
    have hthrown : (execute_instruction vm inst out).thrown = some (rethrow inst.opcode e) := by
      unfold execute_instruction
      simp only [ht, Option.map_some']
    obtain ⟨h1, _, _, _, h5⟩ := execute_instruction_thrown vm inst out _ hthrown
    exact ⟨⟨_, hthrown⟩, h1, h5, (mem_at_error_iff _ _).2 hlen,
      fun x => (mem_set_error_iff _ _ _).2 hlen⟩

/-- C8 at `LOAD 3 256` on a new machine. -/
theorem bad_address_faults_witness :
    (VM.init.memory.length = 256 ∧ ("LOAD".toList, 1) ∈ address_args ∧
      (["3".toList, "256".toList] : List Str)[1]? = some "256".toList ∧
      stoi "256".toList = .ok 256 ∧ ((256 : Int) < 0 ∨ (256 : Int) ≤ 256)) ∧
    (∃ what, (execute_instruction VM.init ⟨"LOAD".toList, ["3".toList, "256".toList]⟩
        []).thrown = some what) ∧
    (execute_instruction VM.init ⟨"LOAD".toList, ["3".toList, "256".toList]⟩ []).vm.memory =
      VM.init.memory ∧
    (execute_instruction VM.init ⟨"LOAD".toList, ["3".toList, "256".toList]⟩ []).out = [] ∧
    mem_at VM.init.memory 256 = .error .out_of_range ∧
    ∀ x, mem_set VM.init.memory 256 x = .error .out_of_range :=
  ⟨⟨by decide, by decide, by decide, by decide, by decide⟩,
   bad_address_faults VM.init ⟨"LOAD".toList, ["3".toList, "256".toList]⟩ [] 1 "256".toList 256
    (by decide) (by decide) (by decide) (by decide) (by decide)⟩

/-- C9: in a run of a program of fewer than `2 ^ 31` instructions, when the
instruction fetched at index `i` is `CALL t` with `0 <= t < program.length`,
the cycle leaves `i + 1` on top of the stack and the next instruction
fetched is `program[t]`; and a cycle on `RET` with `i + 1` on top of the
stack pops it and leaves the program counter at `i + 1`, so that the next
fetch is at index `i + 1`, after the `CALL`, and not at `t` (unless
`t = i + 1`). -/
theorem call_then_ret (program : List Instruction) (vm : VM) (n : Nat) (s : VM)
    (o : List Str) (inst : Instruction) (a : Str) (t : Int) (s2 : VM) (o2 : List Str)
    (ret : Instruction) (below : List Int)
    (hsize : program.length < 2147483648)
    (hreach : run_state program vm n = some (s, o))
    (hfetch : fetch s program = some inst) (hop : inst.opcode = "CALL".toList)
    (harg : inst.args[0]? = some a) (hparse : stoi a = .ok t)
    (ht : 0 ≤ t ∧ t < program.length)
    (hfetch2 : fetch s2 program = some ret) (hret : ret.opcode = "RET".toList)
    (hstack : s2.system_stack = (s.program_counter + 1) :: below) :
    ((cycle s inst o).1.program_counter = t ∧
      (cycle s inst o).1.system_stack = (s.program_counter + 1) :: s.system_stack ∧
      (program[t.toNat]?).isSome = true ∧
      fetch (cycle s inst o).1 program = program[t.toNat]?) ∧
    ((cycle s2 ret o2).1.system_stack = below ∧
      (cycle s2 ret o2).1.program_counter = s.program_counter + 1 ∧
      fetch (cycle s2 ret o2).1 program = program[(s.program_counter + 1).toNat]? ∧
      (t ≠ s.program_counter + 1 → (cycle s2 ret o2).1.program_counter ≠ t)) := by
  obtain ⟨h1, h2, _⟩ := fetch_pc_valid program vm n s o inst (by omega) hreach hfetch
  have hw : wrap32 (s.program_counter + 1) = s.program_counter + 1 := by
    apply wrap32_of_range <;> omega
  obtain ⟨c1, c2, _, _, c5⟩ := cycle_jump s inst o a t (Or.inr (Or.inl hop)) harg hparse
  rw [if_pos hop, hw] at c5
  have hrun := (fetch_some _ _ _ hfetch).1
  have hrun2 := (fetch_some _ _ _ hfetch2).1
  refine ⟨⟨c1, c5, ?_, ?_⟩, ?_⟩
  · have : t.toNat < program.length := by omega
    rw [List.getElem?_eq_getElem this]; rfl
  · have := fetch_running program (cycle s inst o).1 (by rw [c2]; exact hrun)
      (by rw [c1]; exact ht.1) (by rw [c1]; omega)
    rw [c1] at this
    exact this
  · have hc := cycle_ret s2 ret o2 (s.program_counter + 1) below hret hstack (by omega)
      (by omega)
    rw [hc]
    refine ⟨rfl, rfl, ?_, fun hne heq => hne heq.symm⟩
    exact fetch_running program _ hrun2 (by show 0 ≤ s.program_counter + 1; omega)
      (by show s.program_counter + 1 < 2147483648; omega)

/-- C9 at `sample_call`: `CALL 2` at index 0, `RET` at index 2. -/
theorem call_then_ret_witness :
    (sample_call.length < 2147483648 ∧
      run_state sample_call VM.init 0 = some (sample_vm, sample_out) ∧
      fetch sample_vm sample_call = some ⟨"CALL".toList, ["2".toList]⟩ ∧
      (["2".toList] : List Str)[0]? = some "2".toList ∧ stoi "2".toList = .ok 2 ∧
      ((0 : Int) ≤ 2 ∧ (2 : Int) < sample_call.length) ∧
      fetch sample_called sample_call = some ⟨"RET".toList, []⟩ ∧
      sample_called.system_stack = (sample_vm.program_counter + 1) :: []) ∧
    ((cycle sample_vm ⟨"CALL".toList, ["2".toList]⟩ sample_out).1.program_counter = 2 ∧
      (cycle sample_vm ⟨"CALL".toList, ["2".toList]⟩ sample_out).1.system_stack =
        (sample_vm.program_counter + 1) :: sample_vm.system_stack ∧
      (sample_call[(2 : Int).toNat]?).isSome = true ∧
      fetch (cycle sample_vm ⟨"CALL".toList, ["2".toList]⟩ sample_out).1 sample_call =
        sample_call[(2 : Int).toNat]?) ∧
    ((cycle sample_called ⟨"RET".toList, []⟩ sample_out).1.system_stack = [] ∧
      (cycle sample_called ⟨"RET".toList, []⟩ sample_out).1.program_counter =
        sample_vm.program_counter + 1 ∧
      fetch (cycle sample_called ⟨"RET".toList, []⟩ sample_out).1 sample_call =
        sample_call[(sample_vm.program_counter + 1).toNat]? ∧
      ((2 : Int) ≠ sample_vm.program_counter + 1 →
        (cycle sample_called ⟨"RET".toList, []⟩ sample_out).1.program_counter ≠ 2)) :=
  ⟨⟨by decide, by decide, by decide, by decide, by decide, by decide, by decide, by decide⟩,
   call_then_ret sample_call VM.init 0 sample_vm sample_out ⟨"CALL".toList, ["2".toList]⟩
    "2".toList 2 sample_called sample_out ⟨"RET".toList, []⟩ []
    (by decide) (by decide) (by decide) rfl (by decide) (by decide) (by decide) (by decide)
    rfl (by decide)⟩

/-- C10: for every machine and every target `t` with
`0 <= t < program.length`, one cycle of the loop of `run_program` on `JUMP t`,
on `CALL t`, on `JZE t` with `zero_flag` true or on `JNE t` with `zero_flag`
false leaves `program_counter = t`; the machine being in a run
(`is_running` true), the next instruction fetched is `program[t]`. -/
theorem jump_lands_on_target (program : List Instruction) (vm : VM) (inst : Instruction)
    (out : List Str) (a : Str) (t : Int)
    (hop : inst.opcode = "JUMP".toList ∨ inst.opcode = "CALL".toList ∨
      (inst.opcode = "JZE".toList ∧ vm.flags_zero = true) ∨
      (inst.opcode = "JNE".toList ∧ vm.flags_zero = false))
    (harg : inst.args[0]? = some a) (hparse : stoi a = .ok t)
    (ht : 0 ≤ t ∧ t < program.length) :
    (cycle vm inst out).1.program_counter = t ∧
    (vm.is_running = true →
      ∃ next, program[t.toNat]? = some next ∧
        fetch (cycle vm inst out).1 program = some next) := by
  obtain ⟨_, ht2⟩ := stoi_range a t hparse
  obtain ⟨c1, c2, _⟩ := cycle_jump vm inst out a t hop harg hparse
  have hlt : t.toNat < program.length := by omega
  refine ⟨c1, fun hrun => ⟨program[t.toNat], List.getElem?_eq_getElem hlt, ?_⟩⟩
  have := fetch_running program (cycle vm inst out).1 (by rw [c2]; exact hrun)
    (by rw [c1]; exact ht.1) (by rw [c1]; exact ht2)
  rw [this, c1]
  exact List.getElem?_eq_getElem hlt

/-- C10 at `sample_program`: `JNE 3` at index 1 with `zero_flag` false. -/
theorem jump_lands_on_target_witness :
    (((⟨"JNE".toList, ["3".toList]⟩ : Instruction).opcode = "JUMP".toList ∨
        (⟨"JNE".toList, ["3".toList]⟩ : Instruction).opcode = "CALL".toList ∨
        ((⟨"JNE".toList, ["3".toList]⟩ : Instruction).opcode = "JZE".toList ∧
          sample_vm.flags_zero = true) ∨
        ((⟨"JNE".toList, ["3".toList]⟩ : Instruction).opcode = "JNE".toList ∧
          sample_vm.flags_zero = false)) ∧
      (["3".toList] : List Str)[0]? = some "3".toList ∧ stoi "3".toList = .ok 3 ∧
      ((0 : Int) ≤ 3 ∧ (3 : Int) < sample_program.length)) ∧
    (cycle sample_vm ⟨"JNE".toList, ["3".toList]⟩ sample_out).1.program_counter = 3 ∧
    (sample_vm.is_running = true →
      ∃ next, sample_program[(3 : Int).toNat]? = some next ∧
        fetch (cycle sample_vm ⟨"JNE".toList, ["3".toList]⟩ sample_out).1 sample_program =
          some next) :=
  ⟨⟨by decide, by decide, by decide, by decide⟩,
   jump_lands_on_target sample_program sample_vm ⟨"JNE".toList, ["3".toList]⟩ sample_out
    "3".toList 3 (by decide) (by decide) (by decide) (by decide)⟩

/-! ## Instructions that go through -/

theorem mem_at_of (memory : List Int) (addr x : Int) (h0 : 0 ≤ addr)
    (h1 : addr < 2147483648) (hx : memory[addr.toNat]? = some x) :
    mem_at memory addr = .ok x := by
  unfold mem_at
  rw [toSizeT_of_nonneg addr h0 h1, hx]

theorem mem_set_of (memory : List Int) (addr x v : Int) (h0 : 0 ≤ addr)
    (h1 : addr < 2147483648) (hx : memory[addr.toNat]? = some x) :
    mem_set memory addr v = .ok (memory.set addr.toNat v) := by
  unfold mem_set
  rw [toSizeT_of_nonneg addr h0 h1, if_pos (List.getElem?_eq_some.1 hx).1]

theorem arg_int_of (args : List Str) (k : Nat) (a : Str) (v : Int) (h : args[k]? = some a)
    (hv : stoi a = .ok v) : arg_int args k = .ok v := by
  rw [arg_int_eq args k a h, hv]

theorem exec_CMP_ok (vm : VM) (args : List Str) (out : List Str) (a b x y : Int)
    (ha : arg_int args 0 = .ok a) (hb : arg_int args 1 = .ok b)
    (hx : mem_at vm.memory a = .ok x) (hy : mem_at vm.memory b = .ok y) :
    exec_CMP vm args out = ⟨{ vm with flags_zero := decide (x = y) }, out, none⟩ := by
  unfold exec_CMP Exec.of
  simp only [bind, Except.bind, pure, Except.pure, ha, hb, hx, hy]

theorem exec_arith_ok (f : Int → Int → Int) (vm : VM) (args : List Str) (out : List Str)
    (a b x y : Int) (m : List Int)
    (ha : arg_int args 0 = .ok a) (hb : arg_int args 1 = .ok b)
    (hx : mem_at vm.memory a = .ok x) (hy : mem_at vm.memory b = .ok y)
    (hm : mem_set vm.memory a (wrap32 (f x y)) = .ok m) :
    exec_arith f vm args out = ⟨{ vm with memory := m }, out, none⟩ := by
  unfold exec_arith Exec.of
  simp only [bind, Except.bind, pure, Except.pure, ha, hb, hx, hy, hm]

theorem exec_LOADI_ok (vm : VM) (args : List Str) (out : List Str) (a v : Int) (m : List Int)
    (ha : arg_int args 0 = .ok a) (hv : arg_int args 1 = .ok v)
    (hm : mem_set vm.memory a v = .ok m) :
    exec_LOADI vm args out = ⟨{ vm with memory := m }, out, none⟩ := by
  unfold exec_LOADI Exec.of
  simp only [bind, Except.bind, pure, Except.pure, ha, hv, hm]

theorem exec_PRINT_ok (vm : VM) (args : List Str) (out : List Str) (a x : Int)
    (ha : arg_int args 0 = .ok a) (hx : mem_at vm.memory a = .ok x) :
    exec_PRINT vm args out = ⟨vm, out ++ [to_string x], none⟩ := by
  unfold exec_PRINT Exec.of
  simp only [bind, Except.bind, pure, Except.pure, ha, hx, serial_log_debug]

theorem exec_PUSH_ok (vm : VM) (args : List Str) (out : List Str) (a x : Int)
    (ha : arg_int args 0 = .ok a) (hx : mem_at vm.memory a = .ok x) :
    exec_PUSH vm args out = ⟨{ vm with system_stack := x :: vm.system_stack }, out, none⟩ := by
  unfold exec_PUSH Exec.of
  simp only [bind, Except.bind, pure, Except.pure, ha, hx]

theorem exec_PUSHI_ok (vm : VM) (args : List Str) (out : List Str) (v : Int)
    (hv : arg_int args 0 = .ok v) :
    exec_PUSHI vm args out = ⟨{ vm with system_stack := v :: vm.system_stack }, out, none⟩ := by
  unfold exec_PUSHI Exec.of
  simp only [bind, Except.bind, pure, Except.pure, hv]

theorem exec_POP_ok (vm : VM) (args : List Str) (out : List Str) (a top : Int)
    (below m : List Int) (hs : vm.system_stack = top :: below)
    (ha : arg_int args 0 = .ok a) (hm : mem_set vm.memory a top = .ok m) :
    exec_POP vm args out = ⟨{ vm with memory := m, system_stack := below }, out, none⟩ := by
  unfold exec_POP Exec.of
  rw [hs]
  simp only [bind, Except.bind, pure, Except.pure, ha, hm]

/-- A result of `execute_try` that did not throw is the result of
`execute_instruction`. -/
theorem execute_instruction_of_ok (vm vm1 : VM) (inst : Instruction) (out out1 : List Str)
    (h : execute_try vm inst out = ⟨vm1, out1, none⟩) :
    execute_instruction vm inst out = ⟨vm1, out1, none⟩ := by
  rw [execute_instruction_of_try vm inst out _ h]
  rfl

/-- A cycle whose instruction does not throw and writes nothing. -/
theorem cycle_of_ok (vm vm1 : VM) (inst : Instruction) (out out1 : List Str)
    (h : execute_instruction vm inst (out ++ [debug_line vm inst]) = ⟨vm1, out1, none⟩) :
    cycle vm inst out =
      ({ vm1 with program_counter := wrap32 (vm1.program_counter + 1) }, out1) := by
  rw [cycle_eq, h]

/-- After a cycle that leaves `is_running` false, the loop ends and
`run_program` returns the machine as that cycle left it. -/
theorem run_program_of_stop (program : List Instruction) (vm : VM) (n : Nat) (s : VM)
    (o : List Str) (inst : Instruction)
    (hreach : run_state program vm n = some (s, o))
    (hfetch : fetch s program = some inst)
    (hstop : (cycle s inst o).1.is_running = false) :
    run_state program vm (n + 1) = some (cycle s inst o) ∧
    fetch (cycle s inst o).1 program = none ∧
    ∀ fuel, n + 1 < fuel →
      run_program fuel vm program =
        some ((cycle s inst o).1, (cycle s inst o).2 ++ ["--- Program Halted ---".toList]) := by
  have h1 := loop_state_succ program n _ _ s o inst hreach hfetch
  have h3 := fetch_none_of_not_running _ program hstop
  refine ⟨h1, h3, ?_⟩
  intro fuel hfuel
  have h4 := run_loop_of_loop_state program (n + 1) _ _ (cycle s inst o).1 (cycle s inst o).2
    h1 h3 fuel hfuel
  unfold run_program
  simp only []
  rw [h4]
  simp only [hstop, Bool.false_eq_true, if_false, serial_log_debug]

/-- One cycle on `JZE` or `JNE` when the jump is not taken. -/
theorem cycle_not_taken (vm : VM) (inst : Instruction) (out : List Str)
    (hop : (inst.opcode = "JZE".toList ∧ vm.flags_zero = false) ∨
      (inst.opcode = "JNE".toList ∧ vm.flags_zero = true)) :
    cycle vm inst out =
      ({ vm with program_counter := wrap32 (vm.program_counter + 1) },
        out ++ [debug_line vm inst]) := by
  apply cycle_of_ok
  apply execute_instruction_of_ok
  rcases hop with ⟨hop, hz⟩ | ⟨hop, hz⟩
  · rw [execute_try_JZE _ _ _ hop]
    unfold exec_JZE
    rw [hz]
    rfl
  · rw [execute_try_JNE _ _ _ hop]
    unfold exec_JNE
    rw [hz]
    rfl

/-- C11: with in-range addresses `a` and `b`, `CMP a b` sets `zero_flag` to
`memory[a] == memory[b]` and changes nothing else; when the `CMP` stands at
index `i` and a `JZE t` follows at `i + 1`, the program counter after the
`JZE` is `t` if the two cells are equal and `i + 2` otherwise; with a
`JNE t` it is `t` if they differ and `i + 2` otherwise. The program
`sample_compare` prints `0`: its `LOADI 2 1` is skipped. -/
theorem cmp_then_conditional_jump (vm : VM) (cmp jmp : Instruction) (out out1 : List Str)
    (sa sb st : Str) (a b t x y : Int)
    (hop : cmp.opcode = "CMP".toList)
    (ha : cmp.args[0]? = some sa) (hb : cmp.args[1]? = some sb)
    (hsa : stoi sa = .ok a) (hsb : stoi sb = .ok b)
    (hx : 0 ≤ a ∧ vm.memory[a.toNat]? = some x) (hy : 0 ≤ b ∧ vm.memory[b.toNat]? = some y)
    (hj : jmp.args[0]? = some st) (hst : stoi st = .ok t)
    (hpc : 0 ≤ vm.program_counter ∧ vm.program_counter + 2 < 2147483648) :
    execute_instruction vm cmp out = ⟨{ vm with flags_zero := decide (x = y) }, out, none⟩ ∧
    (cycle vm cmp out).1 =
      { vm with flags_zero := decide (x = y), program_counter := vm.program_counter + 1 } ∧
    (jmp.opcode = "JZE".toList →
      (cycle (cycle vm cmp out).1 jmp out1).1.program_counter =
        if x = y then t else vm.program_counter + 2) ∧
    (jmp.opcode = "JNE".toList →
      (cycle (cycle vm cmp out).1 jmp out1).1.program_counter =
        if x = y then vm.program_counter + 2 else t) ∧
    (run_source 10 sample_compare).map (Option.map Prod.snd) =
      .ok (some sample_compare_out) := by
  have hcmp : ∀ o, execute_instruction vm cmp o =
      ⟨{ vm with flags_zero := decide (x = y) }, o, none⟩ := by
    intro o
    apply execute_instruction_of_ok
    rw [execute_try_CMP _ _ _ hop]
    exact exec_CMP_ok vm cmp.args o a b x y (arg_int_of _ _ _ _ ha hsa)
      (arg_int_of _ _ _ _ hb hsb)
      (mem_at_of _ _ _ hx.1 (stoi_range _ _ hsa).2 hx.2)
      (mem_at_of _ _ _ hy.1 (stoi_range _ _ hsb).2 hy.2)
  have hw1 : wrap32 (vm.program_counter + 1) = vm.program_counter + 1 := by
    apply wrap32_of_range <;> omega
  have hw2 : wrap32 (vm.program_counter + 1 + 1) = vm.program_counter + 2 := by
    rw [wrap32_of_range] <;> omega
  have hc : (cycle vm cmp out).1 =
      { vm with flags_zero := decide (x = y), program_counter := vm.program_counter + 1 } := by
    rw [cycle_of_ok vm _ cmp out _ (hcmp _)]
    simp only [hw1]
  refine ⟨hcmp out, hc, ?_, ?_, by decide⟩
  · intro hjz
    rw [hc]
    by_cases hxy : x = y
    · rw [if_pos hxy]
      exact (cycle_jump _ jmp out1 st t
        (Or.inr (Or.inr (Or.inl ⟨hjz, by simp [hxy]⟩))) hj hst).1
    · rw [if_neg hxy, cycle_not_taken _ jmp out1 (Or.inl ⟨hjz, by simp [hxy]⟩)]
      exact hw2
  · intro hjn
    rw [hc]
    by_cases hxy : x = y
    · rw [if_pos hxy, cycle_not_taken _ jmp out1 (Or.inr ⟨hjn, by simp [hxy]⟩)]
      exact hw2
    · rw [if_neg hxy]
      exact (cycle_jump _ jmp out1 st t
        (Or.inr (Or.inr (Or.inr ⟨hjn, by simp [hxy]⟩))) hj hst).1

/-- C11 at `CMP 0 1` followed by `JZE 5` on a new machine. -/
theorem cmp_then_conditional_jump_witness :
    ((⟨"CMP".toList, ["0".toList, "1".toList]⟩ : Instruction).opcode = "CMP".toList ∧
      (["0".toList, "1".toList] : List Str)[0]? = some "0".toList ∧
      (["0".toList, "1".toList] : List Str)[1]? = some "1".toList ∧
      stoi "0".toList = .ok 0 ∧ stoi "1".toList = .ok 1 ∧
      ((0 : Int) ≤ 0 ∧ sample_vm.memory[(0 : Int).toNat]? = some 0) ∧
      ((0 : Int) ≤ 1 ∧ sample_vm.memory[(1 : Int).toNat]? = some 0) ∧
      (["5".toList] : List Str)[0]? = some "5".toList ∧ stoi "5".toList = .ok 5 ∧
      (0 ≤ sample_vm.program_counter ∧ sample_vm.program_counter + 2 < 2147483648)) ∧
    execute_instruction sample_vm ⟨"CMP".toList, ["0".toList, "1".toList]⟩ sample_out =
      ⟨{ sample_vm with flags_zero := decide ((0 : Int) = 0) }, sample_out, none⟩ ∧
    (cycle sample_vm ⟨"CMP".toList, ["0".toList, "1".toList]⟩ sample_out).1 =
      { sample_vm with flags_zero := decide ((0 : Int) = 0),
                       program_counter := sample_vm.program_counter + 1 } ∧
    ((⟨"JZE".toList, ["5".toList]⟩ : Instruction).opcode = "JZE".toList →
      (cycle (cycle sample_vm ⟨"CMP".toList, ["0".toList, "1".toList]⟩ sample_out).1
        ⟨"JZE".toList, ["5".toList]⟩ sample_out).1.program_counter =
        if (0 : Int) = 0 then 5 else sample_vm.program_counter + 2) ∧
    ((⟨"JZE".toList, ["5".toList]⟩ : Instruction).opcode = "JNE".toList →
      (cycle (cycle sample_vm ⟨"CMP".toList, ["0".toList, "1".toList]⟩ sample_out).1
        ⟨"JZE".toList, ["5".toList]⟩ sample_out).1.program_counter =
        if (0 : Int) = 0 then sample_vm.program_counter + 2 else 5) ∧
    (run_source 10 sample_compare).map (Option.map Prod.snd) =
      .ok (some sample_compare_out) :=
  ⟨⟨by decide, by decide, by decide, by decide, by decide, by decide, by decide, by decide,
    by decide, by decide⟩,
   cmp_then_conditional_jump sample_vm ⟨"CMP".toList, ["0".toList, "1".toList]⟩
    ⟨"JZE".toList, ["5".toList]⟩ sample_out sample_out "0".toList "1".toList "5".toList
    0 1 5 0 0 (by decide) (by decide) (by decide) (by decide) (by decide) (by decide)
    (by decide) (by decide) (by decide) (by decide)⟩

/-- C12: with in-range addresses `a` and `b` (equal or not), `ADD a b`,
`SUB a b` and `MUL a b` put in `memory[a]` the sum, the difference and the
product of the old `memory[a]` and `memory[b]` when that result `r` is an
`int`; the other cells, the stack, `zero_flag`, `is_running` and the standard
output are unchanged, and the cycle leaves the program counter one higher. -/
theorem arith_updates_memory (vm : VM) (inst : Instruction) (out : List Str)
    (sa sb : Str) (a b x y r : Int)
    (hop : (inst.opcode = "ADD".toList ∧ r = x + y) ∨
      (inst.opcode = "SUB".toList ∧ r = x - y) ∨
      (inst.opcode = "MUL".toList ∧ r = x * y))
    (ha : inst.args[0]? = some sa) (hb : inst.args[1]? = some sb)
    (hsa : stoi sa = .ok a) (hsb : stoi sb = .ok b)
    (hx : 0 ≤ a ∧ vm.memory[a.toNat]? = some x) (hy : 0 ≤ b ∧ vm.memory[b.toNat]? = some y)
    (hr : -2147483648 ≤ r ∧ r < 2147483648)
    (hpc : -2147483648 ≤ vm.program_counter ∧ vm.program_counter + 1 < 2147483648) :
    execute_instruction vm inst out =
      ⟨{ vm with memory := vm.memory.set a.toNat r }, out, none⟩ ∧
    (cycle vm inst out).1 =
      { vm with memory := vm.memory.set a.toNat r,
                program_counter := vm.program_counter + 1 } ∧
    (vm.memory.set a.toNat r)[a.toNat]? = some r ∧
    (∀ k, k ≠ a.toNat → (vm.memory.set a.toNat r)[k]? = vm.memory[k]?) := by
  have ha1 := arg_int_of _ _ _ _ ha hsa
  have hb1 := arg_int_of _ _ _ _ hb hsb
  have hx1 := mem_at_of _ _ _ hx.1 (stoi_range _ _ hsa).2 hx.2
  have hy1 := mem_at_of _ _ _ hy.1 (stoi_range _ _ hsb).2 hy.2
  have hw : wrap32 r = r := wrap32_of_range r hr.1 hr.2
  have hexec : ∀ o, execute_instruction vm inst o =
      ⟨{ vm with memory := vm.memory.set a.toNat r }, o, none⟩ := by
    intro o
    apply execute_instruction_of_ok
    rcases hop with ⟨hop, rfl⟩ | ⟨hop, rfl⟩ | ⟨hop, rfl⟩
    · rw [execute_try_ADD _ _ _ hop]
      exact exec_arith_ok _ vm inst.args o a b x y _ ha1 hb1 hx1 hy1
        (by simp only [hw]; exact mem_set_of _ _ x _ hx.1 (stoi_range _ _ hsa).2 hx.2)
    · rw [execute_try_SUB _ _ _ hop]
      exact exec_arith_ok _ vm inst.args o a b x y _ ha1 hb1 hx1 hy1
        (by simp only [hw]; exact mem_set_of _ _ x _ hx.1 (stoi_range _ _ hsa).2 hx.2)
    · rw [execute_try_MUL _ _ _ hop]
      exact exec_arith_ok _ vm inst.args o a b x y _ ha1 hb1 hx1 hy1
        (by simp only [hw]; exact mem_set_of _ _ x _ hx.1 (stoi_range _ _ hsa).2 hx.2)
  have hlt : a.toNat < vm.memory.length := (List.getElem?_eq_some.1 hx.2).1
  refine ⟨hexec out, ?_, ?_, ?_⟩
  · rw [cycle_of_ok vm _ inst out _ (hexec _)]
    have : wrap32 (vm.program_counter + 1) = vm.program_counter + 1 := by
      apply wrap32_of_range <;> omega
    simp only [this]
  · exact List.getElem?_set_self hlt
  · intro k hk
    exact List.getElem?_set_ne (fun e => hk e.symm)

/-- C12 at `SUB 0 1`, `ADD 0 1` and `MUL 0 1` on `sample_cells`, whose cells 0
and 1 hold 3 and 4: cell 0 becomes -1, 7 and 12. -/
theorem arith_updates_memory_witness :
    (((((⟨"SUB".toList, ["0".toList, "1".toList]⟩ : Instruction).opcode = "ADD".toList ∧ (-1 : Int) = 3 + 4) ∨
        ((⟨"SUB".toList, ["0".toList, "1".toList]⟩ : Instruction).opcode = "SUB".toList ∧ (-1 : Int) = 3 - 4) ∨
        ((⟨"SUB".toList, ["0".toList, "1".toList]⟩ : Instruction).opcode = "MUL".toList ∧ (-1 : Int) = 3 * 4)) ∧
      (["0".toList, "1".toList] : List Str)[0]? = some "0".toList ∧
      (["0".toList, "1".toList] : List Str)[1]? = some "1".toList ∧
      stoi "0".toList = .ok 0 ∧ stoi "1".toList = .ok 1 ∧
      ((0 : Int) ≤ 0 ∧ sample_cells.memory[(0 : Int).toNat]? = some 3) ∧
      ((0 : Int) ≤ 1 ∧ sample_cells.memory[(1 : Int).toNat]? = some 4) ∧
      ((-2147483648 : Int) ≤ -1 ∧ (-1 : Int) < 2147483648) ∧
      (-2147483648 ≤ sample_cells.program_counter ∧
        sample_cells.program_counter + 1 < 2147483648)) ∧
      ((((⟨"ADD".toList, ["0".toList, "1".toList]⟩ : Instruction).opcode = "ADD".toList ∧ (7 : Int) = 3 + 4) ∨
        ((⟨"ADD".toList, ["0".toList, "1".toList]⟩ : Instruction).opcode = "SUB".toList ∧ (7 : Int) = 3 - 4) ∨
        ((⟨"ADD".toList, ["0".toList, "1".toList]⟩ : Instruction).opcode = "MUL".toList ∧ (7 : Int) = 3 * 4)) ∧
      (["0".toList, "1".toList] : List Str)[0]? = some "0".toList ∧
      (["0".toList, "1".toList] : List Str)[1]? = some "1".toList ∧
      stoi "0".toList = .ok 0 ∧ stoi "1".toList = .ok 1 ∧
      ((0 : Int) ≤ 0 ∧ sample_cells.memory[(0 : Int).toNat]? = some 3) ∧
      ((0 : Int) ≤ 1 ∧ sample_cells.memory[(1 : Int).toNat]? = some 4) ∧
      ((-2147483648 : Int) ≤ 7 ∧ (7 : Int) < 2147483648) ∧
      (-2147483648 ≤ sample_cells.program_counter ∧
        sample_cells.program_counter + 1 < 2147483648)) ∧
      ((((⟨"MUL".toList, ["0".toList, "1".toList]⟩ : Instruction).opcode = "ADD".toList ∧ (12 : Int) = 3 + 4) ∨
        ((⟨"MUL".toList, ["0".toList, "1".toList]⟩ : Instruction).opcode = "SUB".toList ∧ (12 : Int) = 3 - 4) ∨
        ((⟨"MUL".toList, ["0".toList, "1".toList]⟩ : Instruction).opcode = "MUL".toList ∧ (12 : Int) = 3 * 4)) ∧
      (["0".toList, "1".toList] : List Str)[0]? = some "0".toList ∧
      (["0".toList, "1".toList] : List Str)[1]? = some "1".toList ∧
      stoi "0".toList = .ok 0 ∧ stoi "1".toList = .ok 1 ∧
      ((0 : Int) ≤ 0 ∧ sample_cells.memory[(0 : Int).toNat]? = some 3) ∧
      ((0 : Int) ≤ 1 ∧ sample_cells.memory[(1 : Int).toNat]? = some 4) ∧
      ((-2147483648 : Int) ≤ 12 ∧ (12 : Int) < 2147483648) ∧
      (-2147483648 ≤ sample_cells.program_counter ∧
        sample_cells.program_counter + 1 < 2147483648))) ∧
    (sample_cells.memory.set (0 : Int).toNat (-1) = (-1) :: 4 :: List.replicate 254 0 ∧
      sample_cells.memory.set (0 : Int).toNat 7 = 7 :: 4 :: List.replicate 254 0 ∧
      sample_cells.memory.set (0 : Int).toNat 12 = 12 :: 4 :: List.replicate 254 0) ∧
    (execute_instruction sample_cells ⟨"SUB".toList, ["0".toList, "1".toList]⟩ sample_out =
        ⟨{ sample_cells with memory := sample_cells.memory.set (0 : Int).toNat (-1) },
          sample_out, none⟩ ∧
      (cycle sample_cells ⟨"SUB".toList, ["0".toList, "1".toList]⟩ sample_out).1 =
        { sample_cells with memory := sample_cells.memory.set (0 : Int).toNat (-1),
                            program_counter := sample_cells.program_counter + 1 } ∧
      (sample_cells.memory.set (0 : Int).toNat (-1))[(0 : Int).toNat]? = some (-1) ∧
      (∀ k, k ≠ (0 : Int).toNat →
        (sample_cells.memory.set (0 : Int).toNat (-1))[k]? = sample_cells.memory[k]?)) ∧
    execute_instruction sample_cells ⟨"ADD".toList, ["0".toList, "1".toList]⟩ sample_out =
      ⟨{ sample_cells with memory := sample_cells.memory.set (0 : Int).toNat 7 },
        sample_out, none⟩ ∧
    execute_instruction sample_cells ⟨"MUL".toList, ["0".toList, "1".toList]⟩ sample_out =
      ⟨{ sample_cells with memory := sample_cells.memory.set (0 : Int).toNat 12 },
        sample_out, none⟩ :=
  ⟨⟨⟨by decide, by decide, by decide, by decide, by decide, by decide, by decide, by decide,
      by decide⟩,
     ⟨by decide, by decide, by decide, by decide, by decide, by decide, by decide, by decide,
      by decide⟩,
     ⟨by decide, by decide, by decide, by decide, by decide, by decide, by decide, by decide,
      by decide⟩⟩,
   ⟨by decide, by decide, by decide⟩,
   arith_updates_memory sample_cells ⟨"SUB".toList, ["0".toList, "1".toList]⟩ sample_out
      "0".toList "1".toList 0 1 3 4 (-1) (by decide) (by decide) (by decide) (by decide)
      (by decide) (by decide) (by decide) (by decide) (by decide),
   (arith_updates_memory sample_cells ⟨"ADD".toList, ["0".toList, "1".toList]⟩ sample_out
      "0".toList "1".toList 0 1 3 4 (7) (by decide) (by decide) (by decide) (by decide)
      (by decide) (by decide) (by decide) (by decide) (by decide)).1,
   (arith_updates_memory sample_cells ⟨"MUL".toList, ["0".toList, "1".toList]⟩ sample_out
      "0".toList "1".toList 0 1 3 4 (12) (by decide) (by decide) (by decide) (by decide)
      (by decide) (by decide) (by decide) (by decide) (by decide)).1⟩

/-- The instruction that throws for an empty stack. -/
theorem execute_instruction_underflow (vm : VM) (inst : Instruction) (out : List Str)
    (hs : vm.system_stack = [])
    (hop : inst.opcode = "POP".toList ∨ inst.opcode = "RET".toList) :
    execute_instruction vm inst out =
      ⟨vm, out, some (if inst.opcode = "POP".toList then "Stack underflow".toList
        else "Stack underflow on RET".toList)⟩ := by
  rcases hop with hop | hop
  · have h : execute_try vm inst out =
        ⟨vm, out, some (.runtime_error "Stack underflow".toList)⟩ := by
      rw [execute_try_POP _ _ _ hop]
      unfold exec_POP
      rw [hs]
    rw [execute_instruction_of_try vm inst out _ h, if_pos hop]
    rfl
  · have h : execute_try vm inst out =
        ⟨vm, out, some (.runtime_error "Stack underflow on RET".toList)⟩ := by
      rw [execute_try_RET _ _ _ hop]
      unfold exec_RET
      rw [hs]
    have hne : ¬ inst.opcode = "POP".toList := by rw [hop]; decide
    rw [execute_instruction_of_try vm inst out _ h, if_neg hne]
    rfl

/-- C14: `PUSHI v` followed by `POP a`, with `a` in range, puts `v` in
`memory[a]` and leaves the stack as it was before the `PUSHI` and the other
cells unchanged; `PUSH b` followed by `POP a` puts `memory[b]` in
`memory[a]`; `POP` and `RET` on the empty stack throw the stack-underflow
error, and in a run the loop ends there: `run_program` returns the machine of
that cycle, halted. The program `sample_stack` prints `7`, and
`sample_underflow` stops at its `POP 0`. -/
theorem push_pop_roundtrip (vm : VM) (pushi push pop : Instruction) (out out1 : List Str)
    (sv sb sa : Str) (v b a x y : Int)
    (hpushi : pushi.opcode = "PUSHI".toList) (hv : pushi.args[0]? = some sv)
    (hsv : stoi sv = .ok v)
    (hpush : push.opcode = "PUSH".toList) (hb : push.args[0]? = some sb)
    (hsb : stoi sb = .ok b) (hy : 0 ≤ b ∧ vm.memory[b.toNat]? = some y)
    (hpop : pop.opcode = "POP".toList) (ha : pop.args[0]? = some sa)
    (hsa : stoi sa = .ok a) (hx : 0 ≤ a ∧ vm.memory[a.toNat]? = some x) :
    (execute_instruction vm pushi out =
        ⟨{ vm with system_stack := v :: vm.system_stack }, out, none⟩ ∧
      execute_instruction { vm with system_stack := v :: vm.system_stack } pop out1 =
        ⟨{ vm with memory := vm.memory.set a.toNat v }, out1, none⟩) ∧
    (execute_instruction vm push out =
        ⟨{ vm with system_stack := y :: vm.system_stack }, out, none⟩ ∧
      execute_instruction { vm with system_stack := y :: vm.system_stack } pop out1 =
        ⟨{ vm with memory := vm.memory.set a.toNat y }, out1, none⟩) ∧
    (∀ w, (vm.memory.set a.toNat w)[a.toNat]? = some w ∧
      ∀ k, k ≠ a.toNat → (vm.memory.set a.toNat w)[k]? = vm.memory[k]?) ∧
    (∀ (program : List Instruction) (vm0 : VM) (n : Nat) (s : VM) (o : List Str)
        (inst : Instruction),
      run_state program vm0 n = some (s, o) → fetch s program = some inst →
      inst.opcode = "POP".toList ∨ inst.opcode = "RET".toList → s.system_stack = [] →
        (execute_instruction s inst (serial_log o (debug_line s inst) true)).thrown =
          some (if inst.opcode = "POP".toList then "Stack underflow".toList
            else "Stack underflow on RET".toList) ∧
        (cycle s inst o).1.is_running = false ∧
        fetch (cycle s inst o).1 program = none ∧
        ∀ fuel, n + 1 < fuel →
          run_program fuel vm0 program =
            some ((cycle s inst o).1,
              (cycle s inst o).2 ++ ["--- Program Halted ---".toList])) ∧
    (run_source 10 sample_stack).map (Option.map Prod.snd) = .ok (some sample_stack_out) ∧
    (run_source 10 sample_underflow).map (Option.map Prod.snd) =
      .ok (some sample_underflow_out) := by
  have hlt : a.toNat < vm.memory.length := (List.getElem?_eq_some.1 hx.2).1
  have hpopw : ∀ w, execute_instruction { vm with system_stack := w :: vm.system_stack }
      pop out1 = ⟨{ vm with memory := vm.memory.set a.toNat w }, out1, none⟩ := by
    intro w
    apply execute_instruction_of_ok
    rw [execute_try_POP _ _ _ hpop]
    exact exec_POP_ok _ pop.args out1 a w vm.system_stack _ rfl (arg_int_of _ _ _ _ ha hsa)
      (mem_set_of _ _ x _ hx.1 (stoi_range _ _ hsa).2 hx.2)
  refine ⟨⟨?_, hpopw v⟩, ⟨?_, hpopw y⟩, ?_, ?_, by decide, by decide⟩
  · apply execute_instruction_of_ok
    rw [execute_try_PUSHI _ _ _ hpushi]
    exact exec_PUSHI_ok vm pushi.args out v (arg_int_of _ _ _ _ hv hsv)
  · apply execute_instruction_of_ok
    rw [execute_try_PUSH _ _ _ hpush]
    exact exec_PUSH_ok vm push.args out b y (arg_int_of _ _ _ _ hb hsb)
      (mem_at_of _ _ _ hy.1 (stoi_range _ _ hsb).2 hy.2)
  · intro w
    exact ⟨List.getElem?_set_self hlt, fun k hk => List.getElem?_set_ne (fun e => hk e.symm)⟩
  · intro program vm0 n s o inst hreach hfetch hop hs
    have hthrown := execute_instruction_underflow s inst (o ++ [debug_line s inst]) hs hop
    have ht : (execute_instruction s inst (o ++ [debug_line s inst])).thrown =
        some (if inst.opcode = "POP".toList then "Stack underflow".toList
          else "Stack underflow on RET".toList) := by
      rw [hthrown]
    obtain ⟨_, h2, h3⟩ := run_program_of_fault program vm0 n s o inst _ hreach hfetch ht
    rw [serial_log_debug]
    exact ⟨ht, (cycle_thrown s inst o _ ht).1, h2, h3⟩

/-- C14 at `PUSHI 7`, `PUSH 1` and `POP 0` on a new machine. -/
theorem push_pop_roundtrip_witness :
    ((⟨"PUSHI".toList, ["7".toList]⟩ : Instruction).opcode = "PUSHI".toList ∧
      (["7".toList] : List Str)[0]? = some "7".toList ∧ stoi "7".toList = .ok 7 ∧
      (⟨"PUSH".toList, ["1".toList]⟩ : Instruction).opcode = "PUSH".toList ∧
      (["1".toList] : List Str)[0]? = some "1".toList ∧ stoi "1".toList = .ok 1 ∧
      ((0 : Int) ≤ 1 ∧ sample_vm.memory[(1 : Int).toNat]? = some 0) ∧
      (⟨"POP".toList, ["0".toList]⟩ : Instruction).opcode = "POP".toList ∧
      (["0".toList] : List Str)[0]? = some "0".toList ∧ stoi "0".toList = .ok 0 ∧
      ((0 : Int) ≤ 0 ∧ sample_vm.memory[(0 : Int).toNat]? = some 0)) ∧
    (execute_instruction sample_vm ⟨"PUSHI".toList, ["7".toList]⟩ sample_out =
        ⟨{ sample_vm with system_stack := 7 :: sample_vm.system_stack }, sample_out, none⟩ ∧
      execute_instruction { sample_vm with system_stack := 7 :: sample_vm.system_stack }
          ⟨"POP".toList, ["0".toList]⟩ sample_out =
        ⟨{ sample_vm with memory := sample_vm.memory.set (0 : Int).toNat 7 }, sample_out,
          none⟩) ∧
    (execute_instruction sample_vm ⟨"PUSH".toList, ["1".toList]⟩ sample_out =
        ⟨{ sample_vm with system_stack := 0 :: sample_vm.system_stack }, sample_out, none⟩ ∧
      execute_instruction { sample_vm with system_stack := 0 :: sample_vm.system_stack }
          ⟨"POP".toList, ["0".toList]⟩ sample_out =
        ⟨{ sample_vm with memory := sample_vm.memory.set (0 : Int).toNat 0 }, sample_out,
          none⟩) ∧
    (∀ w, (sample_vm.memory.set (0 : Int).toNat w)[(0 : Int).toNat]? = some w ∧
      ∀ k, k ≠ (0 : Int).toNat →
        (sample_vm.memory.set (0 : Int).toNat w)[k]? = sample_vm.memory[k]?) ∧
    (∀ (program : List Instruction) (vm0 : VM) (n : Nat) (s : VM) (o : List Str)
        (inst : Instruction),
      run_state program vm0 n = some (s, o) → fetch s program = some inst →
      inst.opcode = "POP".toList ∨ inst.opcode = "RET".toList → s.system_stack = [] →
        (execute_instruction s inst (serial_log o (debug_line s inst) true)).thrown =
          some (if inst.opcode = "POP".toList then "Stack underflow".toList
            else "Stack underflow on RET".toList) ∧
        (cycle s inst o).1.is_running = false ∧
        fetch (cycle s inst o).1 program = none ∧
        ∀ fuel, n + 1 < fuel →
          run_program fuel vm0 program =
            some ((cycle s inst o).1,
              (cycle s inst o).2 ++ ["--- Program Halted ---".toList])) ∧
    (run_source 10 sample_stack).map (Option.map Prod.snd) = .ok (some sample_stack_out) ∧
    (run_source 10 sample_underflow).map (Option.map Prod.snd) =
      .ok (some sample_underflow_out) :=
  ⟨⟨by decide, by decide, by decide, by decide, by decide, by decide, by decide, by decide,
    by decide, by decide, by decide⟩,
   push_pop_roundtrip sample_vm ⟨"PUSHI".toList, ["7".toList]⟩ ⟨"PUSH".toList, ["1".toList]⟩
    ⟨"POP".toList, ["0".toList]⟩ sample_out sample_out "7".toList "1".toList "0".toList
    7 1 0 0 0 (by decide) (by decide) (by decide) (by decide) (by decide) (by decide)
    (by decide) (by decide) (by decide) (by decide) (by decide)⟩

theorem loop_state_none_succ (program : List Instruction) (n : Nat) :
    ∀ (vm : VM) (out : List Str) (s : VM) (o : List Str),
      loop_state program n vm out = some (s, o) → fetch s program = none →
      loop_state program (n + 1) vm out = none := by
  induction n with
  | zero =>
    intro vm out s o h hf
    simp only [loop_state] at h
    cases h
    simp only [loop_state, hf]
  | succ n ih =>
    intro vm out s o h hf
    rw [loop_state] at h ⊢
    cases hv : fetch vm program with
    | none => rfl
    | some i0 =>
      rw [hv] at h
      exact ih _ _ s o h hf

theorem execute_instruction_HALT (vm : VM) (inst : Instruction) (out : List Str)
    (hop : inst.opcode = "HALT".toList) :
    execute_instruction vm inst out = ⟨{ vm with is_running := false }, out, none⟩ :=
  execute_instruction_of_ok vm _ inst out _ (execute_try_HALT vm inst out hop)

/-- C17: `HALT` sets `is_running` to false and leaves the memory, the stack,
`zero_flag` and the standard output unchanged; in a run, the loop test that
follows fails whatever the program holds after the `HALT`, and `run_program`
returns the machine of that cycle. -/
theorem halt_stops_run (program : List Instruction) (vm : VM) (n : Nat) (s : VM)
    (o : List Str) (inst : Instruction)
    (hreach : run_state program vm n = some (s, o))
    (hfetch : fetch s program = some inst) (hop : inst.opcode = "HALT".toList) :
    (∀ (vm0 : VM) (out0 : List Str),
      execute_instruction vm0 inst out0 = ⟨{ vm0 with is_running := false }, out0, none⟩) ∧
    cycle s inst o =
      ({ s with is_running := false, program_counter := wrap32 (s.program_counter + 1) },
        o ++ [debug_line s inst]) ∧
    run_state program vm (n + 1) = some (cycle s inst o) ∧
    fetch (cycle s inst o).1 program = none ∧
    run_state program vm (n + 2) = none ∧
    ∀ fuel, n + 1 < fuel →
      run_program fuel vm program =
        some ({ s with is_running := false,
                       program_counter := wrap32 (s.program_counter + 1) },
          o ++ [debug_line s inst] ++ ["--- Program Halted ---".toList]) := by
  have hex := fun vm0 out0 => execute_instruction_HALT vm0 inst out0 hop
  have hc : cycle s inst o =
      ({ s with is_running := false, program_counter := wrap32 (s.program_counter + 1) },
        o ++ [debug_line s inst]) := cycle_of_ok s _ inst o _ (hex _ _)
  have hstop : (cycle s inst o).1.is_running = false := by rw [hc]
  obtain ⟨h1, h2, h3⟩ := run_program_of_stop program vm n s o inst hreach hfetch hstop
  refine ⟨hex, hc, h1, h2, ?_, ?_⟩
  · exact loop_state_none_succ program (n + 1) _ _ (cycle s inst o).1 (cycle s inst o).2 h1 h2
  · intro fuel hfuel
    rw [h3 fuel hfuel]
    simp only [hc]

/-- C17 at `sample_halt`. -/
theorem halt_stops_run_witness :
    (run_state sample_halt VM.init 0 = some (sample_vm, sample_out) ∧
      fetch sample_vm sample_halt = some ⟨"HALT".toList, []⟩ ∧
      (⟨"HALT".toList, []⟩ : Instruction).opcode = "HALT".toList) ∧
    (∀ (vm0 : VM) (out0 : List Str),
      execute_instruction vm0 ⟨"HALT".toList, []⟩ out0 =
        ⟨{ vm0 with is_running := false }, out0, none⟩) ∧
    cycle sample_vm ⟨"HALT".toList, []⟩ sample_out =
      ({ sample_vm with is_running := false,
                        program_counter := wrap32 (sample_vm.program_counter + 1) },
        sample_out ++ [debug_line sample_vm ⟨"HALT".toList, []⟩]) ∧
    run_state sample_halt VM.init (0 + 1) =
      some (cycle sample_vm ⟨"HALT".toList, []⟩ sample_out) ∧
    fetch (cycle sample_vm ⟨"HALT".toList, []⟩ sample_out).1 sample_halt = none ∧
    run_state sample_halt VM.init (0 + 2) = none ∧
    ∀ fuel, 0 + 1 < fuel →
      run_program fuel VM.init sample_halt =
        some ({ sample_vm with is_running := false,
                               program_counter := wrap32 (sample_vm.program_counter + 1) },
          sample_out ++ [debug_line sample_vm ⟨"HALT".toList, []⟩] ++
            ["--- Program Halted ---".toList]) :=
  ⟨⟨by decide, by decide, by decide⟩,
   halt_stops_run sample_halt VM.init 0 sample_vm sample_out ⟨"HALT".toList, []⟩
    (by decide) (by decide) (by decide)⟩

/-! ## Case analysis on the opcode -/

theorem opcode_cases (op : Str) :
    op = "PRINT".toList ∨ op = "LOAD".toList ∨ op = "LOADI".toList ∨ op = "ADD".toList ∨
    op = "SUB".toList ∨ op = "MUL".toList ∨ op = "CMP".toList ∨ op = "JUMP".toList ∨
    op = "JZE".toList ∨ op = "JNE".toList ∨ op = "PUSH".toList ∨ op = "PUSHI".toList ∨
    op = "POP".toList ∨ op = "CALL".toList ∨ op = "RET".toList ∨ op = "HALT".toList ∨
    op ∉ known_opcodes := by
  by_cases h : op ∈ known_opcodes
  · simp only [known_opcodes, List.mem_cons, List.mem_singleton, List.not_mem_nil,
      or_false] at h
    tauto
  · exact Or.inr (Or.inr (Or.inr (Or.inr (Or.inr (Or.inr (Or.inr (Or.inr (Or.inr (Or.inr
      (Or.inr (Or.inr (Or.inr (Or.inr (Or.inr (Or.inr h)))))))))))))))

theorem execute_try_unknown (vm : VM) (inst : Instruction) (out : List Str)
    (h : inst.opcode ∉ known_opcodes) :
    execute_try vm inst out =
      ⟨vm, out,
        some (.runtime_error ("Unknown instruction '".toList ++ inst.opcode ++ "'".toList))⟩ := by
  have hne : ∀ op, op ∈ known_opcodes → ¬ inst.opcode = op := fun op hop e => h (e ▸ hop)
  unfold execute_try
  rw [if_neg (hne _ (by decide)), if_neg (hne _ (by decide)), if_neg (hne _ (by decide)),
    if_neg (hne _ (by decide)), if_neg (hne _ (by decide)), if_neg (hne _ (by decide)),
    if_neg (hne _ (by decide)), if_neg (hne _ (by decide)), if_neg (hne _ (by decide)),
    if_neg (hne _ (by decide)), if_neg (hne _ (by decide)), if_neg (hne _ (by decide)),
    if_neg (hne _ (by decide)), if_neg (hne _ (by decide)), if_neg (hne _ (by decide)),
    if_neg (hne _ (by decide))]

/-! ## The zero flag -/

theorem exec_PRINT_flag (vm : VM) (f : Bool) (args : List Str) (out : List Str) :
    exec_PRINT { vm with flags_zero := f } args out = with_flag f (exec_PRINT vm args out) := by
  unfold exec_PRINT Exec.of with_flag
  simp only [bind, Except.bind, pure, Except.pure]
  cases arg_int args 0 with
  | error e => rfl
  | ok a =>
    simp only
    cases mem_at vm.memory a with
    | error e => rfl
    | ok x =>
      rfl

theorem exec_LOAD_flag (vm : VM) (f : Bool) (args : List Str) (out : List Str) :
    exec_LOAD { vm with flags_zero := f } args out = with_flag f (exec_LOAD vm args out) := by
  unfold exec_LOAD Exec.of with_flag
  simp only [bind, Except.bind, pure, Except.pure]
  cases arg_int args 0 with
  | error e => rfl
  | ok a =>
    simp only
    cases arg_int args 1 with
    | error e => rfl
    | ok b =>
      simp only
      cases mem_at vm.memory b with
      | error e => rfl
      | ok x =>
        simp only
        cases mem_set vm.memory a x with
        | error e => rfl
        | ok m =>
          rfl

theorem exec_LOADI_flag (vm : VM) (f : Bool) (args : List Str) (out : List Str) :
    exec_LOADI { vm with flags_zero := f } args out = with_flag f (exec_LOADI vm args out) := by
  unfold exec_LOADI Exec.of with_flag
  simp only [bind, Except.bind, pure, Except.pure]
  cases arg_int args 0 with
  | error e => rfl
  | ok a =>
    simp only
    cases arg_int args 1 with
    | error e => rfl
    | ok v =>
      simp only
      cases mem_set vm.memory a v with
      | error e => rfl
      | ok m =>
        rfl

theorem exec_arith_flag (g : Int → Int → Int) (vm : VM) (f : Bool) (args : List Str) (out : List Str) :
    exec_arith g { vm with flags_zero := f } args out = with_flag f (exec_arith g vm args out) := by
  unfold exec_arith Exec.of with_flag
  simp only [bind, Except.bind, pure, Except.pure]
  cases arg_int args 0 with
  | error e => rfl
  | ok a =>
    simp only
    cases arg_int args 1 with
    | error e => rfl
    | ok b =>
      simp only
      cases mem_at vm.memory b with
      | error e => rfl
      | ok y =>
        simp only
        cases mem_at vm.memory a with
        | error e => rfl
        | ok x =>
          simp only
          cases mem_set vm.memory a (wrap32 (g x y)) with
          | error e => rfl
          | ok m =>
            rfl

theorem exec_goto_flag (vm : VM) (f : Bool) (args : List Str) (out : List Str) :
    exec_goto { vm with flags_zero := f } args out = with_flag f (exec_goto vm args out) := by
  unfold exec_goto Exec.of with_flag
  simp only [bind, Except.bind, pure, Except.pure]
  cases arg_int args 0 with
  | error e => rfl
  | ok t =>
    rfl

theorem exec_PUSH_flag (vm : VM) (f : Bool) (args : List Str) (out : List Str) :
    exec_PUSH { vm with flags_zero := f } args out = with_flag f (exec_PUSH vm args out) := by
  unfold exec_PUSH Exec.of with_flag
  simp only [bind, Except.bind, pure, Except.pure]
  cases arg_int args 0 with
  | error e => rfl
  | ok a =>
    simp only
    cases mem_at vm.memory a with
    | error e => rfl
    | ok x =>
      rfl

theorem exec_PUSHI_flag (vm : VM) (f : Bool) (args : List Str) (out : List Str) :
    exec_PUSHI { vm with flags_zero := f } args out = with_flag f (exec_PUSHI vm args out) := by
  unfold exec_PUSHI Exec.of with_flag
  simp only [bind, Except.bind, pure, Except.pure]
  cases arg_int args 0 with
  | error e => rfl
  | ok v =>
    rfl

theorem exec_POP_flag (vm : VM) (f : Bool) (args : List Str) (out : List Str) :
    exec_POP { vm with flags_zero := f } args out = with_flag f (exec_POP vm args out) := by
  obtain ⟨memory, stack, pc, running, flag⟩ := vm
  unfold exec_POP Exec.of with_flag
  simp only [bind, Except.bind, pure, Except.pure]
  cases stack with
  | nil => rfl
  | cons top below =>
    simp only
    cases arg_int args 0 with
    | error e => rfl
    | ok a =>
      simp only
      cases mem_set memory a top with
      | error e => rfl
      | ok m =>
        rfl

theorem exec_CALL_flag (vm : VM) (f : Bool) (args : List Str) (out : List Str) :
    exec_CALL { vm with flags_zero := f } args out = with_flag f (exec_CALL vm args out) := by
  unfold exec_CALL
  exact exec_goto_flag
    { vm with system_stack := wrap32 (vm.program_counter + 1) :: vm.system_stack } f args out

theorem exec_RET_flag (vm : VM) (f : Bool) (out : List Str) :
    exec_RET { vm with flags_zero := f } out = with_flag f (exec_RET vm out) := by
  obtain ⟨memory, stack, pc, running, flag⟩ := vm
  unfold exec_RET with_flag
  cases stack with
  | nil => rfl
  | cons top below => rfl

/-- Apart from the flag itself, `CMP` does the same whatever `zero_flag` is
before it. -/
theorem exec_CMP_flag (vm : VM) (f : Bool) (args : List Str) (out : List Str) :
    (exec_CMP { vm with flags_zero := f } args out).thrown = (exec_CMP vm args out).thrown ∧
    (exec_CMP { vm with flags_zero := f } args out).out = (exec_CMP vm args out).out ∧
    (exec_CMP { vm with flags_zero := f } args out).vm.memory =
      (exec_CMP vm args out).vm.memory ∧
    (exec_CMP { vm with flags_zero := f } args out).vm.system_stack =
      (exec_CMP vm args out).vm.system_stack ∧
    (exec_CMP { vm with flags_zero := f } args out).vm.program_counter =
      (exec_CMP vm args out).vm.program_counter ∧
    (exec_CMP { vm with flags_zero := f } args out).vm.is_running =
      (exec_CMP vm args out).vm.is_running := by
  unfold exec_CMP Exec.of
  simp only [bind, Except.bind, pure, Except.pure]
  cases arg_int args 0 with
  | error e => exact ⟨rfl, rfl, rfl, rfl, rfl, rfl⟩
  | ok a =>
    simp only
    cases mem_at vm.memory a with
    | error e => exact ⟨rfl, rfl, rfl, rfl, rfl, rfl⟩
    | ok x =>
      simp only
      cases arg_int args 1 with
      | error e => exact ⟨rfl, rfl, rfl, rfl, rfl, rfl⟩
      | ok b =>
        simp only
        cases mem_at vm.memory b with
        | error e => exact ⟨rfl, rfl, rfl, rfl, rfl, rfl⟩
        | ok y => exact ⟨rfl, rfl, rfl, rfl, rfl, rfl⟩

/-- An instruction other than `CMP`, `JZE` and `JNE` does the same whatever
`zero_flag` is, and hands the flag on. -/
theorem execute_try_flag (vm : VM) (f : Bool) (inst : Instruction) (out : List Str)
    (hc : inst.opcode ≠ "CMP".toList) (hz : inst.opcode ≠ "JZE".toList)
    (hn : inst.opcode ≠ "JNE".toList) :
    execute_try { vm with flags_zero := f } inst out =
      with_flag f (execute_try vm inst out) := by
  rcases opcode_cases inst.opcode with h | h | h | h | h | h | h | h | h | h | h | h | h | h | h | h | h
  · rw [execute_try_PRINT _ _ _ h, execute_try_PRINT _ _ _ h]
    exact exec_PRINT_flag vm f inst.args out
  · rw [execute_try_LOAD _ _ _ h, execute_try_LOAD _ _ _ h]
    exact exec_LOAD_flag vm f inst.args out
  · rw [execute_try_LOADI _ _ _ h, execute_try_LOADI _ _ _ h]
    exact exec_LOADI_flag vm f inst.args out
  · rw [execute_try_ADD _ _ _ h, execute_try_ADD _ _ _ h]
    exact exec_arith_flag _ vm f inst.args out
  · rw [execute_try_SUB _ _ _ h, execute_try_SUB _ _ _ h]
    exact exec_arith_flag _ vm f inst.args out
  · rw [execute_try_MUL _ _ _ h, execute_try_MUL _ _ _ h]
    exact exec_arith_flag _ vm f inst.args out
  · exact absurd h hc
  · rw [execute_try_JUMP _ _ _ h, execute_try_JUMP _ _ _ h]
    exact exec_goto_flag vm f inst.args out
  · exact absurd h hz
  · exact absurd h hn
  · rw [execute_try_PUSH _ _ _ h, execute_try_PUSH _ _ _ h]
    exact exec_PUSH_flag vm f inst.args out
  · rw [execute_try_PUSHI _ _ _ h, execute_try_PUSHI _ _ _ h]
    exact exec_PUSHI_flag vm f inst.args out
  · rw [execute_try_POP _ _ _ h, execute_try_POP _ _ _ h]
    exact exec_POP_flag vm f inst.args out
  · rw [execute_try_CALL _ _ _ h, execute_try_CALL _ _ _ h]
    exact exec_CALL_flag vm f inst.args out
  · rw [execute_try_RET _ _ _ h, execute_try_RET _ _ _ h]
    exact exec_RET_flag vm f out
  · rw [execute_try_HALT _ _ _ h, execute_try_HALT _ _ _ h]
    rfl
  · rw [execute_try_unknown _ _ _ h, execute_try_unknown _ _ _ h]
    rfl

theorem flag_of_with_flag (X : VM → Exec Exn) (vm : VM)
    (h : ∀ f, X { vm with flags_zero := f } = with_flag f (X vm)) :
    (X vm).vm.flags_zero = vm.flags_zero :=
  congrArg (fun r => r.vm.flags_zero) (h vm.flags_zero)

/-- An instruction other than `CMP` leaves `zero_flag` as it is. -/
theorem execute_try_flag_kept (vm : VM) (inst : Instruction) (out : List Str)
    (hc : inst.opcode ≠ "CMP".toList) :
    (execute_try vm inst out).vm.flags_zero = vm.flags_zero := by
  by_cases hz : inst.opcode = "JZE".toList
  · rw [execute_try_JZE _ _ _ hz]
    unfold exec_JZE
    split
    · exact flag_of_with_flag (fun v => exec_goto v inst.args out) vm
        (fun f => exec_goto_flag vm f inst.args out)
    · rfl
  · by_cases hn : inst.opcode = "JNE".toList
    · rw [execute_try_JNE _ _ _ hn]
      unfold exec_JNE
      split
      · exact flag_of_with_flag (fun v => exec_goto v inst.args out) vm
          (fun f => exec_goto_flag vm f inst.args out)
      · rfl
    · exact flag_of_with_flag (fun v => execute_try v inst out) vm
        (fun f => execute_try_flag vm f inst out hc hz hn)

/-- The stack an instruction that throws leaves behind: `CALL` has pushed
its return address, every other instruction leaves the stack as it was. -/
theorem execute_try_thrown_stack (vm : VM) (inst : Instruction) (out : List Str) (e : Exn)
    (ht : (execute_try vm inst out).thrown = some e) :
    (execute_try vm inst out).vm.system_stack =
      if inst.opcode = "CALL".toList then
        wrap32 (vm.program_counter + 1) :: vm.system_stack
      else vm.system_stack := by
  rcases opcode_cases inst.opcode with h | h | h | h | h | h | h | h | h | h | h | h | h | h | h | h | h
  · rw [execute_try_PRINT _ _ _ h] at ht ⊢
    rw [if_neg (by rw [h]; decide)]
    unfold exec_PRINT at ht ⊢
    rw [(Exec.of_thrown _ _ _ _ ht).1]
  · rw [execute_try_LOAD _ _ _ h] at ht ⊢
    rw [if_neg (by rw [h]; decide)]
    unfold exec_LOAD at ht ⊢
    rw [(Exec.of_thrown _ _ _ _ ht).1]
  · rw [execute_try_LOADI _ _ _ h] at ht ⊢
    rw [if_neg (by rw [h]; decide)]
    unfold exec_LOADI at ht ⊢
    rw [(Exec.of_thrown _ _ _ _ ht).1]
  · rw [execute_try_ADD _ _ _ h] at ht ⊢
    rw [if_neg (by rw [h]; decide)]
    unfold exec_arith at ht ⊢
    rw [(Exec.of_thrown _ _ _ _ ht).1]
  · rw [execute_try_SUB _ _ _ h] at ht ⊢
    rw [if_neg (by rw [h]; decide)]
    unfold exec_arith at ht ⊢
    rw [(Exec.of_thrown _ _ _ _ ht).1]
  · rw [execute_try_MUL _ _ _ h] at ht ⊢
    rw [if_neg (by rw [h]; decide)]
    unfold exec_arith at ht ⊢
    rw [(Exec.of_thrown _ _ _ _ ht).1]
  · rw [execute_try_CMP _ _ _ h] at ht ⊢
    rw [if_neg (by rw [h]; decide)]
    unfold exec_CMP at ht ⊢
    rw [(Exec.of_thrown _ _ _ _ ht).1]
  · rw [execute_try_JUMP _ _ _ h] at ht ⊢
    rw [if_neg (by rw [h]; decide)]
    unfold exec_goto at ht ⊢
    rw [(Exec.of_thrown _ _ _ _ ht).1]
  · rw [execute_try_JZE _ _ _ h] at ht ⊢
    rw [if_neg (by rw [h]; decide)]
    unfold exec_JZE at ht ⊢
    split at ht
    · rename_i hf
      rw [if_pos hf]
      unfold exec_goto at ht ⊢
      rw [(Exec.of_thrown _ _ _ _ ht).1]
    · cases ht
  · rw [execute_try_JNE _ _ _ h] at ht ⊢
    rw [if_neg (by rw [h]; decide)]
    unfold exec_JNE at ht ⊢
    split at ht
    · rename_i hf
      rw [if_pos hf]
      unfold exec_goto at ht ⊢
      rw [(Exec.of_thrown _ _ _ _ ht).1]
    · cases ht
  · rw [execute_try_PUSH _ _ _ h] at ht ⊢
    rw [if_neg (by rw [h]; decide)]
    unfold exec_PUSH at ht ⊢
    rw [(Exec.of_thrown _ _ _ _ ht).1]
  · rw [execute_try_PUSHI _ _ _ h] at ht ⊢
    rw [if_neg (by rw [h]; decide)]
    unfold exec_PUSHI at ht ⊢
    rw [(Exec.of_thrown _ _ _ _ ht).1]
  · rw [execute_try_POP _ _ _ h] at ht ⊢
    rw [if_neg (by rw [h]; decide)]
    unfold exec_POP at ht ⊢
    split at ht
    · rename_i hs
      rw [hs]
    · rename_i top below hs
      rw [hs, (Exec.of_thrown _ _ _ _ ht).1]
      exact hs
  · rw [execute_try_CALL _ _ _ h] at ht ⊢
    rw [if_pos h]
    unfold exec_CALL exec_goto at ht ⊢
    rw [(Exec.of_thrown _ _ _ _ ht).1]
  · rw [execute_try_RET _ _ _ h] at ht ⊢
    rw [if_neg (by rw [h]; decide)]
    unfold exec_RET at ht ⊢
    split at ht
    · rename_i hs
      rw [hs]
    · cases ht
  · rw [execute_try_HALT _ _ _ h] at ht
    cases ht
  · rw [execute_try_unknown _ _ _ h]
    have hne : ¬ inst.opcode = "CALL".toList := fun e => h (by rw [e]; decide)
    rw [if_neg hne]

/-- C18: an instruction whose opcode is not `CMP` leaves `zero_flag` as it
was, whether it goes through or throws; and for an instruction whose opcode
is neither `JZE` nor `JNE`, the exception, the standard output, the memory,
the stack, the program counter and `is_running` that `execute_instruction`
leaves are the same whatever `zero_flag` is before it. -/
theorem zero_flag_frame (vm : VM) (inst : Instruction) (out : List Str) :
    (inst.opcode ≠ "CMP".toList →
      (execute_instruction vm inst out).vm.flags_zero = vm.flags_zero) ∧
    (inst.opcode ≠ "JZE".toList → inst.opcode ≠ "JNE".toList → ∀ f : Bool,
      (execute_instruction { vm with flags_zero := f } inst out).thrown =
        (execute_instruction vm inst out).thrown ∧
      (execute_instruction { vm with flags_zero := f } inst out).out =
        (execute_instruction vm inst out).out ∧
      (execute_instruction { vm with flags_zero := f } inst out).vm.memory =
        (execute_instruction vm inst out).vm.memory ∧
      (execute_instruction { vm with flags_zero := f } inst out).vm.system_stack =
        (execute_instruction vm inst out).vm.system_stack ∧
      (execute_instruction { vm with flags_zero := f } inst out).vm.program_counter =
        (execute_instruction vm inst out).vm.program_counter ∧
      (execute_instruction { vm with flags_zero := f } inst out).vm.is_running =
        (execute_instruction vm inst out).vm.is_running) := by
  constructor
  · intro hc
    exact execute_try_flag_kept vm inst out hc
  · intro hz hn f
    unfold execute_instruction
    simp only
    by_cases hc : inst.opcode = "CMP".toList
    · rw [execute_try_CMP _ _ _ hc, execute_try_CMP _ _ _ hc]
      obtain ⟨h1, h2, h3, h4, h5, h6⟩ := exec_CMP_flag vm f inst.args out
      rw [h1]
      exact ⟨rfl, h2, h3, h4, h5, h6⟩
    · rw [execute_try_flag vm f inst out hc hz hn]
      exact ⟨rfl, rfl, rfl, rfl, rfl, rfl⟩

/-- C18 at `PUSHI 7` on a machine whose flag is set. -/
theorem zero_flag_frame_witness :
    ((⟨"PUSHI".toList, ["7".toList]⟩ : Instruction).opcode ≠ "CMP".toList ∧
      (⟨"PUSHI".toList, ["7".toList]⟩ : Instruction).opcode ≠ "JZE".toList ∧
      (⟨"PUSHI".toList, ["7".toList]⟩ : Instruction).opcode ≠ "JNE".toList) ∧
    ((⟨"PUSHI".toList, ["7".toList]⟩ : Instruction).opcode ≠ "CMP".toList →
      (execute_instruction sample_vm ⟨"PUSHI".toList, ["7".toList]⟩ sample_out).vm.flags_zero =
        sample_vm.flags_zero) ∧
    ((⟨"PUSHI".toList, ["7".toList]⟩ : Instruction).opcode ≠ "JZE".toList →
      (⟨"PUSHI".toList, ["7".toList]⟩ : Instruction).opcode ≠ "JNE".toList → ∀ f : Bool,
      (execute_instruction { sample_vm with flags_zero := f } ⟨"PUSHI".toList, ["7".toList]⟩
          sample_out).thrown =
        (execute_instruction sample_vm ⟨"PUSHI".toList, ["7".toList]⟩ sample_out).thrown ∧
      (execute_instruction { sample_vm with flags_zero := f } ⟨"PUSHI".toList, ["7".toList]⟩
          sample_out).out =
        (execute_instruction sample_vm ⟨"PUSHI".toList, ["7".toList]⟩ sample_out).out ∧
      (execute_instruction { sample_vm with flags_zero := f } ⟨"PUSHI".toList, ["7".toList]⟩
          sample_out).vm.memory =
        (execute_instruction sample_vm ⟨"PUSHI".toList, ["7".toList]⟩ sample_out).vm.memory ∧
      (execute_instruction { sample_vm with flags_zero := f } ⟨"PUSHI".toList, ["7".toList]⟩
          sample_out).vm.system_stack =
        (execute_instruction sample_vm ⟨"PUSHI".toList, ["7".toList]⟩
          sample_out).vm.system_stack ∧
      (execute_instruction { sample_vm with flags_zero := f } ⟨"PUSHI".toList, ["7".toList]⟩
          sample_out).vm.program_counter =
        (execute_instruction sample_vm ⟨"PUSHI".toList, ["7".toList]⟩
          sample_out).vm.program_counter ∧
      (execute_instruction { sample_vm with flags_zero := f } ⟨"PUSHI".toList, ["7".toList]⟩
          sample_out).vm.is_running =
        (execute_instruction sample_vm ⟨"PUSHI".toList, ["7".toList]⟩
          sample_out).vm.is_running) :=
  ⟨⟨by decide, by decide, by decide⟩,
   zero_flag_frame sample_vm ⟨"PUSHI".toList, ["7".toList]⟩ sample_out⟩

/-- C20 fails on the code: `CALL` without an argument throws, and the stack
then holds the return address it has pushed. -/
theorem fault_atomic_counterexample :
    (execute_instruction VM.init ⟨"CALL".toList, []⟩ []).thrown =
      some (rethrow "CALL".toList .out_of_range) ∧
    VM.init.system_stack = [] ∧
    (execute_instruction VM.init ⟨"CALL".toList, []⟩ []).vm.system_stack = [1] := by
  decide

/-- C20 as amended: when `execute_instruction` throws, the memory,
`zero_flag`, the program counter, `is_running` and the standard output are
what they were before the instruction; so is the stack, except for `CALL`,
which has pushed the return address `program_counter + 1` before it reads
its argument. -/
theorem fault_leaves_machine (vm : VM) (inst : Instruction) (out : List Str) (what : Str)
    (h : (execute_instruction vm inst out).thrown = some what) :
    (execute_instruction vm inst out).vm.memory = vm.memory ∧
    (execute_instruction vm inst out).vm.flags_zero = vm.flags_zero ∧
    (execute_instruction vm inst out).vm.program_counter = vm.program_counter ∧
    (execute_instruction vm inst out).vm.is_running = vm.is_running ∧
    (execute_instruction vm inst out).out = out ∧
    (execute_instruction vm inst out).vm.system_stack =
      if inst.opcode = "CALL".toList then
        wrap32 (vm.program_counter + 1) :: vm.system_stack
      else vm.system_stack := by
  obtain ⟨h1, h2, h3, h4, h5⟩ := execute_instruction_thrown vm inst out what h
  refine ⟨h1, h4, h2, h3, h5, ?_⟩
  cases ht : (execute_try vm inst out).thrown with
  | none =>
    unfold execute_instruction at h
    simp only [ht, Option.map_none'] at h
    cases h
  | some e => exact execute_try_thrown_stack vm inst out e ht

/-- C20 as amended, at `POP 0` on the empty stack. -/
theorem fault_leaves_machine_witness :
    (execute_instruction sample_vm ⟨"POP".toList, ["0".toList]⟩ sample_out).thrown =
      some "Stack underflow".toList ∧
    (execute_instruction sample_vm ⟨"POP".toList, ["0".toList]⟩ sample_out).vm.memory =
      sample_vm.memory ∧
    (execute_instruction sample_vm ⟨"POP".toList, ["0".toList]⟩ sample_out).vm.flags_zero =
      sample_vm.flags_zero ∧
    (execute_instruction sample_vm ⟨"POP".toList, ["0".toList]⟩
      sample_out).vm.program_counter = sample_vm.program_counter ∧
    (execute_instruction sample_vm ⟨"POP".toList, ["0".toList]⟩ sample_out).vm.is_running =
      sample_vm.is_running ∧
    (execute_instruction sample_vm ⟨"POP".toList, ["0".toList]⟩ sample_out).out = sample_out ∧
    (execute_instruction sample_vm ⟨"POP".toList, ["0".toList]⟩ sample_out).vm.system_stack =
      if (⟨"POP".toList, ["0".toList]⟩ : Instruction).opcode = "CALL".toList then
        wrap32 (sample_vm.program_counter + 1) :: sample_vm.system_stack
      else sample_vm.system_stack :=
  ⟨by decide,
   fault_leaves_machine sample_vm ⟨"POP".toList, ["0".toList]⟩ sample_out
    "Stack underflow".toList (by decide)⟩

/-! ## Instructions that throw -/

theorem stoi_digits_error (negative : Bool) (ds : Str) (e : Exn)
    (h : stoi_digits negative ds = .error e) : e = .invalid_argument ∨ e = .out_of_range := by
  unfold stoi_digits at h
  by_cases hd : ds.isEmpty = true
  · rw [if_pos hd] at h; cases h; exact Or.inl rfl
  · rw [if_neg hd] at h
    simp only at h
    generalize (if negative = true then -(digits_value ds : Int) else (digits_value ds : Int)) = x
      at h
    by_cases hx : x < -2147483648 ∨ 2147483647 < x
    · rw [if_pos hx] at h; cases h; exact Or.inr rfl
    · rw [if_neg hx] at h; cases h

theorem stoi_error (a : Str) (e : Exn) (h : stoi a = .error e) :
    e = .invalid_argument ∨ e = .out_of_range :=
  stoi_digits_error _ _ e h

theorem arg_int_missing (args : List Str) (k : Nat) (h : args.length ≤ k) :
    arg_int args k = .error .out_of_range := by
  unfold arg_int args_at
  rw [List.getElem?_eq_none h]

theorem mem_at_error (memory : List Int) (addr : Int) (e : Exn)
    (h : mem_at memory addr = .error e) : e = .out_of_range := by
  unfold mem_at at h
  split at h
  · cases h
  · cases h; rfl

theorem exec_PRINT_err0 (vm : VM) (args : List Str) (out : List Str) (e : Exn)
    (h0 : arg_int args 0 = .error e) :
    exec_PRINT vm args out = ⟨vm, out, some e⟩ := by
  unfold exec_PRINT Exec.of
  simp only [bind, Except.bind, pure, Except.pure, h0]

theorem exec_LOAD_err0 (vm : VM) (args : List Str) (out : List Str) (e : Exn)
    (h0 : arg_int args 0 = .error e) :
    exec_LOAD vm args out = ⟨vm, out, some e⟩ := by
  unfold exec_LOAD Exec.of
  simp only [bind, Except.bind, pure, Except.pure, h0]

theorem exec_LOAD_err1 (vm : VM) (args : List Str) (out : List Str) (a : Int) (e : Exn)
    (h0 : arg_int args 0 = .ok a) (h1 : arg_int args 1 = .error e) :
    exec_LOAD vm args out = ⟨vm, out, some e⟩ := by
  unfold exec_LOAD Exec.of
  simp only [bind, Except.bind, pure, Except.pure, h0, h1]

theorem exec_LOADI_err0 (vm : VM) (args : List Str) (out : List Str) (e : Exn)
    (h0 : arg_int args 0 = .error e) :
    exec_LOADI vm args out = ⟨vm, out, some e⟩ := by
  unfold exec_LOADI Exec.of
  simp only [bind, Except.bind, pure, Except.pure, h0]

theorem exec_LOADI_err1 (vm : VM) (args : List Str) (out : List Str) (a : Int) (e : Exn)
    (h0 : arg_int args 0 = .ok a) (h1 : arg_int args 1 = .error e) :
    exec_LOADI vm args out = ⟨vm, out, some e⟩ := by
  unfold exec_LOADI Exec.of
  simp only [bind, Except.bind, pure, Except.pure, h0, h1]

theorem exec_arith_err0 (g : Int → Int → Int) (vm : VM) (args : List Str) (out : List Str) (e : Exn)
    (h0 : arg_int args 0 = .error e) :
    exec_arith g vm args out = ⟨vm, out, some e⟩ := by
  unfold exec_arith Exec.of
  simp only [bind, Except.bind, pure, Except.pure, h0]

theorem exec_arith_err1 (g : Int → Int → Int) (vm : VM) (args : List Str) (out : List Str) (a : Int) (e : Exn)
    (h0 : arg_int args 0 = .ok a) (h1 : arg_int args 1 = .error e) :
    exec_arith g vm args out = ⟨vm, out, some e⟩ := by
  unfold exec_arith Exec.of
  simp only [bind, Except.bind, pure, Except.pure, h0, h1]

theorem exec_CMP_err0 (vm : VM) (args : List Str) (out : List Str) (e : Exn)
    (h0 : arg_int args 0 = .error e) :
    exec_CMP vm args out = ⟨vm, out, some e⟩ := by
  unfold exec_CMP Exec.of
  simp only [bind, Except.bind, pure, Except.pure, h0]

theorem exec_CMP_err1 (vm : VM) (args : List Str) (out : List Str) (a : Int) (e : Exn)
    (h0 : arg_int args 0 = .ok a) (h1 : mem_at vm.memory a = .error e) :
    exec_CMP vm args out = ⟨vm, out, some e⟩ := by
  unfold exec_CMP Exec.of
  simp only [bind, Except.bind, pure, Except.pure, h0, h1]

theorem exec_CMP_err2 (vm : VM) (args : List Str) (out : List Str) (a x : Int) (e : Exn)
    (h0 : arg_int args 0 = .ok a) (h1 : mem_at vm.memory a = .ok x) (h2 : arg_int args 1 = .error e) :
    exec_CMP vm args out = ⟨vm, out, some e⟩ := by
  unfold exec_CMP Exec.of
  simp only [bind, Except.bind, pure, Except.pure, h0, h1, h2]

theorem exec_goto_err0 (vm : VM) (args : List Str) (out : List Str) (e : Exn)
    (h0 : arg_int args 0 = .error e) :
    exec_goto vm args out = ⟨vm, out, some e⟩ := by
  unfold exec_goto Exec.of
  simp only [bind, Except.bind, pure, Except.pure, h0]

theorem exec_PUSH_err0 (vm : VM) (args : List Str) (out : List Str) (e : Exn)
    (h0 : arg_int args 0 = .error e) :
    exec_PUSH vm args out = ⟨vm, out, some e⟩ := by
  unfold exec_PUSH Exec.of
  simp only [bind, Except.bind, pure, Except.pure, h0]

theorem exec_PUSHI_err0 (vm : VM) (args : List Str) (out : List Str) (e : Exn)
    (h0 : arg_int args 0 = .error e) :
    exec_PUSHI vm args out = ⟨vm, out, some e⟩ := by
  unfold exec_PUSHI Exec.of
  simp only [bind, Except.bind, pure, Except.pure, h0]

theorem exec_POP_err0 (vm : VM) (args : List Str) (out : List Str) (e : Exn)
    (hs : vm.system_stack ≠ []) (h0 : arg_int args 0 = .error e) :
    exec_POP vm args out = ⟨vm, out, some e⟩ := by
  unfold exec_POP Exec.of
  split
  · rename_i h; exact absurd h hs
  · simp only [bind, Except.bind, pure, Except.pure, h0]

/-- The exception of `execute_try` when the integer argument at position `k`
is the first thing that fails. -/
theorem execute_try_arg_error (vm : VM) (inst : Instruction) (out : List Str) (k : Nat)
    (e : Exn) (hk : (inst.opcode, k) ∈ integer_args)
    (herr : arg_int inst.args k = .error e)
    (hfirst : k = 1 → ∃ v0, arg_int inst.args 0 = .ok v0 ∧
      (inst.opcode = "CMP".toList → ∃ x, mem_at vm.memory v0 = .ok x))
    (hpop : inst.opcode = "POP".toList → vm.system_stack ≠ [])
    (hjze : inst.opcode = "JZE".toList → vm.flags_zero = true)
    (hjne : inst.opcode = "JNE".toList → vm.flags_zero = false) :
    (execute_try vm inst out).thrown = some e := by
  simp only [integer_args, List.mem_cons, Prod.mk.injEq, List.mem_singleton,
    List.not_mem_nil, or_false] at hk
  rcases hk with ⟨hop, rfl⟩ | ⟨hop, rfl⟩ | ⟨hop, rfl⟩ | ⟨hop, rfl⟩ | ⟨hop, rfl⟩ | ⟨hop, rfl⟩ | ⟨hop, rfl⟩ | ⟨hop, rfl⟩ | ⟨hop, rfl⟩ | ⟨hop, rfl⟩ | ⟨hop, rfl⟩ | ⟨hop, rfl⟩ | ⟨hop, rfl⟩ | ⟨hop, rfl⟩ | ⟨hop, rfl⟩ | ⟨hop, rfl⟩ | ⟨hop, rfl⟩ | ⟨hop, rfl⟩ | ⟨hop, rfl⟩ | ⟨hop, rfl⟩
  · rw [execute_try_PRINT _ _ _ hop]
    exact congrArg Exec.thrown (exec_PRINT_err0 vm inst.args out e herr)
  · rw [execute_try_LOAD _ _ _ hop]
    exact congrArg Exec.thrown (exec_LOAD_err0 vm inst.args out e herr)
  · obtain ⟨v0, h0, _⟩ := hfirst rfl
    rw [execute_try_LOAD _ _ _ hop]
    exact congrArg Exec.thrown (exec_LOAD_err1 vm inst.args out v0 e h0 herr)
  · rw [execute_try_LOADI _ _ _ hop]
    exact congrArg Exec.thrown (exec_LOADI_err0 vm inst.args out e herr)
  · obtain ⟨v0, h0, _⟩ := hfirst rfl
    rw [execute_try_LOADI _ _ _ hop]
    exact congrArg Exec.thrown (exec_LOADI_err1 vm inst.args out v0 e h0 herr)
  · rw [execute_try_ADD _ _ _ hop]
    exact congrArg Exec.thrown (exec_arith_err0 _ vm inst.args out e herr)
  · obtain ⟨v0, h0, _⟩ := hfirst rfl
    rw [execute_try_ADD _ _ _ hop]
    exact congrArg Exec.thrown (exec_arith_err1 _ vm inst.args out v0 e h0 herr)
  · rw [execute_try_SUB _ _ _ hop]
    exact congrArg Exec.thrown (exec_arith_err0 _ vm inst.args out e herr)
  · obtain ⟨v0, h0, _⟩ := hfirst rfl
    rw [execute_try_SUB _ _ _ hop]
    exact congrArg Exec.thrown (exec_arith_err1 _ vm inst.args out v0 e h0 herr)
  · rw [execute_try_MUL _ _ _ hop]
    exact congrArg Exec.thrown (exec_arith_err0 _ vm inst.args out e herr)
  · obtain ⟨v0, h0, _⟩ := hfirst rfl
    rw [execute_try_MUL _ _ _ hop]
    exact congrArg Exec.thrown (exec_arith_err1 _ vm inst.args out v0 e h0 herr)
  · rw [execute_try_CMP _ _ _ hop]
    exact congrArg Exec.thrown (exec_CMP_err0 vm inst.args out e herr)
  · obtain ⟨v0, h0, hm⟩ := hfirst rfl
    obtain ⟨x, hx⟩ := hm hop
    rw [execute_try_CMP _ _ _ hop]
    exact congrArg Exec.thrown (exec_CMP_err2 vm inst.args out v0 x e h0 hx herr)
  · rw [execute_try_JUMP _ _ _ hop]
    exact congrArg Exec.thrown (exec_goto_err0 vm inst.args out e herr)
  · rw [execute_try_JZE _ _ _ hop]
    unfold exec_JZE
    rw [hjze hop]
    exact congrArg Exec.thrown (exec_goto_err0 vm inst.args out e herr)
  · rw [execute_try_JNE _ _ _ hop]
    unfold exec_JNE
    rw [hjne hop]
    exact congrArg Exec.thrown (exec_goto_err0 vm inst.args out e herr)
  · rw [execute_try_PUSH _ _ _ hop]
    exact congrArg Exec.thrown (exec_PUSH_err0 vm inst.args out e herr)
  · rw [execute_try_PUSHI _ _ _ hop]
    exact congrArg Exec.thrown (exec_PUSHI_err0 vm inst.args out e herr)
  · rw [execute_try_POP _ _ _ hop]
    exact congrArg Exec.thrown (exec_POP_err0 vm inst.args out e (hpop hop) herr)
  · rw [execute_try_CALL _ _ _ hop]
    unfold exec_CALL
    exact congrArg Exec.thrown (exec_goto_err0 _ inst.args out e herr)

/-! ## Missing and malformed arguments -/

theorem required_integer :
    ∀ p ∈ required_args, p.2 ≤ 2 ∧ ∀ k < p.2, (p.1, k) ∈ integer_args := by
  decide

theorem required_two :
    ∀ p ∈ required_args, p.2 = 2 →
      p.1 ≠ "POP".toList ∧ p.1 ≠ "JZE".toList ∧ p.1 ≠ "JNE".toList := by
  decide

theorem execute_instruction_thrown_of_try (vm : VM) (inst : Instruction) (out : List Str)
    (e : Exn) (h : (execute_try vm inst out).thrown = some e) :
    (execute_instruction vm inst out).thrown = some (rethrow inst.opcode e) := by
  unfold execute_instruction
  simp only [h, Option.map_some']

/-- What `execute_try` throws when an instruction has fewer arguments than
its opcode reads and no argument is rejected by `std::stoi` as not being a
number. -/
theorem execute_try_missing (vm : VM) (inst : Instruction) (out : List Str) (req : Nat)
    (hreq : (inst.opcode, req) ∈ required_args) (hlen : inst.args.length < req)
    (hnum : ∀ a ∈ inst.args, stoi a ≠ .error .invalid_argument)
    (hpop : inst.opcode = "POP".toList → vm.system_stack ≠ [])
    (hjze : inst.opcode = "JZE".toList → vm.flags_zero = true)
    (hjne : inst.opcode = "JNE".toList → vm.flags_zero = false) :
    (execute_try vm inst out).thrown = some .out_of_range := by
  obtain ⟨hle, hint⟩ := required_integer _ hreq
  simp only at hle hint
  cases hargs : inst.args with
  | nil =>
    exact execute_try_arg_error vm inst out 0 _ (hint 0 (by omega))
      (arg_int_missing _ _ (by rw [hargs]; simp)) (fun h => absurd h (by decide)) hpop hjze hjne
  | cons a rest =>
    rw [hargs] at hlen
    simp only [List.length_cons] at hlen
    have hrest : rest = [] := List.eq_nil_of_length_eq_zero (by omega)
    subst hrest
    have harg0 : inst.args[0]? = some a := by rw [hargs]; rfl
    have hmiss : arg_int inst.args 1 = .error .out_of_range :=
      arg_int_missing _ _ (by rw [hargs]; simp)
    cases hs : stoi a with
    | error e =>
      have he : e = .out_of_range := by
        rcases stoi_error a e hs with h | h
        · exact absurd (h ▸ hs) (hnum a (by rw [hargs]; simp))
        · exact h
      subst he
      exact execute_try_arg_error vm inst out 0 _ (hint 0 (by omega))
        (by rw [arg_int_eq _ _ _ harg0]; exact hs) (fun h => absurd h (by decide))
        hpop hjze hjne
    | ok v0 =>
      have h0 : arg_int inst.args 0 = .ok v0 := by rw [arg_int_eq _ _ _ harg0]; exact hs
      by_cases hc : inst.opcode = "CMP".toList
      · cases hm : mem_at vm.memory v0 with
        | error e =>
          have he := mem_at_error _ _ _ hm
          subst he
          rw [execute_try_CMP _ _ _ hc]
          exact congrArg Exec.thrown (exec_CMP_err1 vm inst.args out v0 _ h0 hm)
        | ok x =>
          exact execute_try_arg_error vm inst out 1 _ (hint 1 (by omega)) hmiss
            (fun _ => ⟨v0, h0, fun _ => ⟨x, hm⟩⟩) hpop hjze hjne
      · exact execute_try_arg_error vm inst out 1 _ (hint 1 (by omega)) hmiss
          (fun _ => ⟨v0, h0, fun h => absurd h hc⟩) hpop hjze hjne

/-- What `execute_instruction` does with a conditional jump that is not
taken: nothing, whatever its arguments. -/
theorem execute_instruction_not_taken (vm : VM) (inst : Instruction) (out : List Str)
    (h : inst.opcode = "JZE".toList ∧ vm.flags_zero = false ∨
      inst.opcode = "JNE".toList ∧ vm.flags_zero = true) :
    execute_instruction vm inst out = ⟨vm, out, none⟩ := by
  have ht : execute_try vm inst out = ⟨vm, out, none⟩ := by
    rcases h with ⟨hop, hf⟩ | ⟨hop, hf⟩
    · rw [execute_try_JZE _ _ _ hop]
      unfold exec_JZE
      rw [hf]
      rfl
    · rw [execute_try_JNE _ _ _ hop]
      unfold exec_JNE
      rw [hf]
      rfl
  unfold execute_instruction
  rw [ht]
  rfl

/-- C15 fails on the code: a conditional jump that is not taken does not
read its argument, so `JZE` without arguments on a machine whose zero flag is
clear raises no fault; and `LOADI x`, one argument short, faults with the
malformed-argument error. -/
theorem missing_argument_counterexample :
    (("JZE".toList, 1) ∈ required_args ∧
      (Instruction.mk "JZE".toList []).args.length < 1) ∧
    VM.init.flags_zero = false ∧
    execute_instruction VM.init ⟨"JZE".toList, []⟩ [] = ⟨VM.init, [], none⟩ ∧
    (execute_instruction VM.init ⟨"LOADI".toList, ["x".toList]⟩ []).thrown =
      some "Execution error for LOADI: Invalid number format in arguments.".toList := by
  decide

/-- C15 as amended: an instruction with fewer arguments than its opcode reads
faults with the invalid-access error when no argument that is present is
rejected as not being a number, the stack is not empty for `POP` and the jump
is taken for `JZE` and `JNE`. Otherwise: a conditional jump that is not taken
does nothing and raises no fault, `POP` on an empty stack faults with
`Stack underflow`, and a two-argument opcode whose only argument is not a
number faults with the malformed-argument error. -/
theorem missing_argument_faults (vm : VM) (inst : Instruction) (out : List Str) (req : Nat)
    (hreq : (inst.opcode, req) ∈ required_args) (hlen : inst.args.length < req) :
    ((∀ a ∈ inst.args, stoi a ≠ .error .invalid_argument) →
      (inst.opcode = "POP".toList → vm.system_stack ≠ []) →
      (inst.opcode = "JZE".toList → vm.flags_zero = true) →
      (inst.opcode = "JNE".toList → vm.flags_zero = false) →
      (execute_instruction vm inst out).thrown =
        some ("Execution error for ".toList ++ inst.opcode ++
          ": Invalid memory address or argument count.".toList)) ∧
    ((inst.opcode = "JZE".toList ∧ vm.flags_zero = false ∨
        inst.opcode = "JNE".toList ∧ vm.flags_zero = true) →
      execute_instruction vm inst out = ⟨vm, out, none⟩) ∧
    (inst.opcode = "POP".toList → vm.system_stack = [] →
      (execute_instruction vm inst out).thrown = some "Stack underflow".toList) ∧
    (∀ a, inst.args = [a] → stoi a = .error .invalid_argument →
      (execute_instruction vm inst out).thrown =
        some ("Execution error for ".toList ++ inst.opcode ++
          ": Invalid number format in arguments.".toList)) := by
  refine ⟨?_, execute_instruction_not_taken vm inst out, ?_, ?_⟩
  · intro hnum hpop hjze hjne
    exact execute_instruction_thrown_of_try vm inst out .out_of_range
      (execute_try_missing vm inst out req hreq hlen hnum hpop hjze hjne)
  · intro hop hs
    rw [execute_instruction_underflow vm inst out hs (Or.inl hop), if_pos hop]
  · intro a hargs hs
    obtain ⟨hle, hint⟩ := required_integer _ hreq
    simp only at hle hint
    have hreq2 : req = 2 := by
      rw [hargs] at hlen
      simp only [List.length_singleton] at hlen
      omega
    obtain ⟨hnpop, hnjze, hnjne⟩ := required_two _ hreq hreq2
    simp only at hnpop hnjze hnjne
    have harg0 : inst.args[0]? = some a := by rw [hargs]; rfl
    exact execute_instruction_thrown_of_try vm inst out .invalid_argument
      (execute_try_arg_error vm inst out 0 .invalid_argument (hint 0 (by omega))
        (by rw [arg_int_eq _ _ _ harg0]; exact hs) (fun h => absurd h (by decide))
        (fun h => absurd h hnpop) (fun h => absurd h hnjze) (fun h => absurd h hnjne))

/-- C15 as amended, at `LOADI 0`. -/
theorem missing_argument_faults_witness :
    (("LOADI".toList, 2) ∈ required_args ∧
      (Instruction.mk "LOADI".toList ["0".toList]).args.length < 2) ∧
    (execute_instruction sample_vm ⟨"LOADI".toList, ["0".toList]⟩ sample_out).thrown =
      some "Execution error for LOADI: Invalid memory address or argument count.".toList :=
  ⟨⟨by decide, by decide⟩,
   (missing_argument_faults sample_vm ⟨"LOADI".toList, ["0".toList]⟩ sample_out 2
      (by decide) (by decide)).1 (by decide) (by decide) (by decide) (by decide)⟩

/-- What the handler of `std::invalid_argument` (Main.cpp 195-196) does
reject: when an argument that the opcode reads as an integer is
present and `std::stoi` finds no number at its start (after optional white
space and an optional sign, no digit follows, as in `loop`), and nothing
earlier in the instruction fails (for a second argument the first one reads
as an integer, and for `CMP` as a valid address; the stack is not empty for
`POP`; the jump is taken for `JZE` and `JNE`), `execute_instruction` faults
with the malformed-argument error attributed to the opcode. -/
theorem malformed_argument_faults (vm : VM) (inst : Instruction) (out : List Str) (k : Nat)
    (a : Str) (hk : (inst.opcode, k) ∈ integer_args) (harg : inst.args[k]? = some a)
    (hbad : stoi a = .error .invalid_argument)
    (hfirst : k = 1 → ∃ v0, arg_int inst.args 0 = .ok v0 ∧
      (inst.opcode = "CMP".toList → ∃ x, mem_at vm.memory v0 = .ok x))
    (hpop : inst.opcode = "POP".toList → vm.system_stack ≠ [])
    (hjze : inst.opcode = "JZE".toList → vm.flags_zero = true)
    (hjne : inst.opcode = "JNE".toList → vm.flags_zero = false) :
    (execute_instruction vm inst out).thrown =
      some ("Execution error for ".toList ++ inst.opcode ++
        ": Invalid number format in arguments.".toList) :=
  execute_instruction_thrown_of_try vm inst out .invalid_argument
    (execute_try_arg_error vm inst out k .invalid_argument hk
      (by rw [arg_int_eq _ _ _ harg]; exact hbad) hfirst hpop hjze hjne)

/-- The malformed-argument error at `JUMP loop`. -/
theorem malformed_argument_faults_witness :
    (("JUMP".toList, 0) ∈ integer_args ∧
      (Instruction.mk "JUMP".toList ["loop".toList]).args[0]? = some "loop".toList ∧
      stoi "loop".toList = .error .invalid_argument) ∧
    (execute_instruction sample_vm ⟨"JUMP".toList, ["loop".toList]⟩ sample_out).thrown =
      some "Execution error for JUMP: Invalid number format in arguments.".toList :=
  ⟨⟨by decide, by decide, by decide⟩,
   malformed_argument_faults sample_vm ⟨"JUMP".toList, ["loop".toList]⟩ sample_out 0
      "loop".toList (by decide) (by decide) (by decide) (fun h => absurd h (by decide))
      (fun h => absurd h (by decide)) (fun h => absurd h (by decide))
      (fun h => absurd h (by decide))⟩

/-! ## Token extraction -/

theorem tokens_from_word (w : Str) (hw : ∀ c ∈ w, isspace c = false) :
    ∀ (cur rest : Str), tokens_from cur (w ++ rest) = tokens_from (w.reverse ++ cur) rest := by
  induction w with
  | nil => intro cur rest; rfl
  | cons c cs ih =>
    intro cur rest
    have hc : isspace c = false := hw c (List.mem_cons_self _ _)
    rw [List.cons_append, tokens_from]
    simp only [hc, Bool.false_eq_true, if_false]
    rw [ih (fun x hx => hw x (List.mem_cons_of_mem _ hx))]
    simp only [List.reverse_cons, List.append_assoc, List.singleton_append]

theorem tokens_from_skip (ws : Str) (hws : ∀ c ∈ ws, isspace c = true) (rest : Str) :
    tokens_from [] (ws ++ rest) = tokens_from [] rest := by
  induction ws with
  | nil => rfl
  | cons c cs ih =>
    have hc : isspace c = true := hws c (List.mem_cons_self _ _)
    rw [List.cons_append, tokens_from]
    simp only [hc, if_true, List.isEmpty_nil]
    exact ih (fun x hx => hws x (List.mem_cons_of_mem _ hx))

/-- The first token of a line: the run of non-space characters `w` that
follows the leading white space, when white space or the end of the line
follows it. -/
theorem tokens_word (ws w rest : Str) (hws : ∀ c ∈ ws, isspace c = true) (hne : w ≠ [])
    (hw : ∀ c ∈ w, isspace c = false) (hrest : ∀ c, rest.head? = some c → isspace c = true) :
    tokens (ws ++ w ++ rest) = w :: tokens rest := by
  unfold tokens
  rw [List.append_assoc, tokens_from_skip ws hws, tokens_from_word w hw, List.append_nil]
  have hr : w.reverse.isEmpty = false := by
    cases w with
    | nil => exact absurd rfl hne
    | cons c cs => simp
  cases rest with
  | nil =>
    rw [tokens_from]
    simp only [hr, Bool.false_eq_true, if_false, List.reverse_reverse]
    rfl
  | cons c cs =>
    have hc : isspace c = true := hrest c rfl
    rw [tokens_from]
    simp only [hc, if_true, hr, Bool.false_eq_true, if_false, List.reverse_reverse]
    rw [tokens_from]
    simp only [hc, if_true, List.isEmpty_nil]

/-! ## The mnemonic of a source line -/

theorem dropWhile_around {α : Type} (p : α → Bool) (x : List α) (c : α) (y : List α)
    (hc : p c = false) : (x ++ c :: y).dropWhile p = x.dropWhile p ++ c :: y := by
  induction x with
  | nil => simp [List.dropWhile, hc]
  | cons a t ih =>
    by_cases ha : p a = true
    · simp only [List.cons_append, List.dropWhile_cons_of_pos ha, ih]
    · simp only [List.cons_append, List.dropWhile_cons_of_neg ha]

theorem rdropWhile_around {α : Type} (p : α → Bool) (x : List α) (c : α) (y : List α)
    (hc : p c = false) : (x ++ c :: y).rdropWhile p = x ++ c :: y.rdropWhile p := by
  unfold List.rdropWhile
  rw [List.reverse_append, List.reverse_cons, List.append_assoc, List.singleton_append,
    dropWhile_around p _ c _ hc]
  simp

theorem trim_around (x op y : Str) (hne : op ≠ []) (hop : ∀ c ∈ op, is_trim_ws c = false) :
    trim (x ++ op ++ y) = x.dropWhile is_trim_ws ++ op ++ y.rdropWhile is_trim_ws := by
  obtain ⟨c, o, rfl⟩ := List.exists_cons_of_ne_nil hne
  have hc : is_trim_ws c = false := hop c (List.mem_cons_self _ _)
  have hd : (x ++ (c :: o) ++ y).dropWhile is_trim_ws =
      x.dropWhile is_trim_ws ++ c :: (o ++ y) := by
    rw [List.append_assoc, List.cons_append]
    exact dropWhile_around _ _ _ _ hc
  rw [trim_eq, hd, if_neg (by simp)]
  have hl : (c :: o) ≠ [] := by simp
  have hsplit := (List.dropLast_append_getLast hl).symm
  have hlast : is_trim_ws ((c :: o).getLast hl) = false := hop _ (List.getLast_mem hl)
  have e1 : x.dropWhile is_trim_ws ++ c :: (o ++ y) =
      (x.dropWhile is_trim_ws ++ (c :: o).dropLast) ++ (c :: o).getLast hl :: y := by
    conv_lhs => rw [← List.cons_append, hsplit]
    simp
  rw [e1, rdropWhile_around _ _ _ _ hlast]
  conv_rhs => rw [hsplit]
  simp

theorem isspace_of_trim_ws (c : Char) (h : is_trim_ws c = true) : isspace c = true := by
  simp only [is_trim_ws, trim_chars, List.contains_cons, List.contains_nil, Bool.or_false,
    Bool.or_eq_true, beq_iff_eq] at h
  unfold isspace
  rcases h with h | h | h | h <;> subst h <;> decide

theorem not_trim_ws_of_not_isspace (c : Char) (h : isspace c = false) :
    is_trim_ws c = false := by
  cases hw : is_trim_ws c with
  | false => rfl
  | true => rw [isspace_of_trim_ws c hw] at h; cases h

theorem head?_of_initial {α : Type} (r l : List α) (h : r <+: l) (c : α)
    (hc : r.head? = some c) : l.head? = some c := by
  obtain ⟨t, rfl⟩ := h
  cases r with
  | nil => cases hc
  | cons a r1 => exact hc

theorem find_colon_none (s : Str) (h : ':' ∉ s) : find ':' s = none := by
  rw [find_eq, if_neg h]

theorem find_colon_at (a b : Str) (ha : ':' ∉ a) :
    find ':' (a ++ ':' :: b) = some a.length := by
  have hna : ∀ c ∈ a, not_colon c = true := by
    intro c hc
    unfold not_colon
    simp only [bne_iff_ne, ne_eq]
    intro e
    exact ha (e ▸ hc)
  rw [find_eq, if_pos (by simp)]
  have := takeWhile_colon a b hna
  unfold not_colon at this
  rw [this]

/-- The first pass on a line made of white space, a mnemonic `op` and a rest
that holds no `:`. -/
theorem first_pass_parts_plain (ws op rest : Str) (hws : ∀ c ∈ ws, isspace c = true)
    (hrest : ':' ∉ rest) (hne : op ≠ [])
    (hop : ∀ c ∈ op, isspace c = false ∧ c ≠ ':' ∧ c ≠ '#') :
    label_of (ws ++ op ++ rest) = none ∧
    clean_of (ws ++ op ++ rest) =
      some (ws.dropWhile is_trim_ws ++ op ++ rest.rdropWhile is_trim_ws) := by
  have ht := trim_around ws op rest hne (fun c hc => not_trim_ws_of_not_isspace c (hop c hc).1)
  obtain ⟨c0, o, rfl⟩ := List.exists_cons_of_ne_nil hne
  have hws1 : ∀ c ∈ ws.dropWhile is_trim_ws, isspace c = true :=
    fun c hc => hws c ((List.dropWhile_suffix _).subset hc)
  have hhead : ∀ c, (ws.dropWhile is_trim_ws ++ (c0 :: o) ++
      rest.rdropWhile is_trim_ws).head? = some c → c ≠ '#' := by
    intro c hc
    cases hw : ws.dropWhile is_trim_ws with
    | nil =>
      rw [hw] at hc
      simp only [List.nil_append, List.cons_append, List.head?_cons, Option.some.injEq] at hc
      exact hc ▸ (hop c0 (List.mem_cons_self _ _)).2.2
    | cons a t =>
      rw [hw] at hc
      simp only [List.cons_append, List.head?_cons, Option.some.injEq] at hc
      have : isspace a = true := hws1 a (by rw [hw]; exact List.mem_cons_self _ _)
      intro e
      rw [hc, e] at this
      exact absurd this (by decide)
  have hsk : is_skipped (ws ++ (c0 :: o) ++ rest) = false := by
    unfold is_skipped
    rw [ht]
    simp only [Bool.or_eq_false_iff, decide_eq_false_iff_not]
    refine ⟨by simp, fun e => hhead _ e rfl⟩
  have hcol : ':' ∉ ws.dropWhile is_trim_ws ++ (c0 :: o) ++ rest.rdropWhile is_trim_ws := by
    intro hm
    simp only [List.mem_append] at hm
    rcases hm with (hm | hm) | hm
    · exact absurd (hws1 _ hm) (by decide)
    · exact (hop _ hm).2.1 rfl
    · exact hrest (List.IsPrefix.subset ( List.rdropWhile_prefix _ _) hm)
  constructor
  · unfold label_of
    rw [hsk, ht, find_colon_none _ hcol]
    rfl
  · unfold clean_of
    rw [hsk, ht, find_colon_none _ hcol]
    simp

/-- The first pass on a line made of a label part `lab`, a `:`, white space,
a mnemonic `op` and a rest. -/
theorem first_pass_parts_label (lab ws op rest : Str) (hlab : ':' ∉ lab) (hne : op ≠ [])
    (hop : ∀ c ∈ op, isspace c = false ∧ c ≠ ':' ∧ c ≠ '#') :
    label_of (lab ++ ':' :: ws ++ op ++ rest) =
      (if (lab.dropWhile is_trim_ws).head? = some '#' then none
        else some (trim (lab.dropWhile is_trim_ws))) ∧
    clean_of (lab ++ ':' :: ws ++ op ++ rest) =
      (if (lab.dropWhile is_trim_ws).head? = some '#' then none
        else some (ws.dropWhile is_trim_ws ++ op ++
          (rest.rdropWhile is_trim_ws).rdropWhile is_trim_ws)) := by
  have hopw : ∀ c ∈ op, is_trim_ws c = false :=
    fun c hc => not_trim_ws_of_not_isspace c (hop c hc).1
  have ht := trim_around (lab ++ ':' :: ws) op rest hne hopw
  rw [dropWhile_around is_trim_ws lab ':' ws (by decide)] at ht
  have ht2 : trim (lab ++ ':' :: ws ++ op ++ rest) =
      lab.dropWhile is_trim_ws ++ ':' :: (ws ++ op ++ rest.rdropWhile is_trim_ws) := by
    rw [ht]
    simp
  have hlab1 : ':' ∉ lab.dropWhile is_trim_ws :=
    fun hm => hlab ((List.dropWhile_suffix _).subset hm)
  have hhead : (lab.dropWhile is_trim_ws ++
      ':' :: (ws ++ op ++ rest.rdropWhile is_trim_ws)).head? = some '#' ↔
      (lab.dropWhile is_trim_ws).head? = some '#' := by
    cases lab.dropWhile is_trim_ws with
    | nil => simp
    | cons a t => simp
  have hsk : is_skipped (lab ++ ':' :: ws ++ op ++ rest) =
      decide ((lab.dropWhile is_trim_ws).head? = some '#') := by
    unfold is_skipped
    rw [ht2]
    rw [Bool.eq_iff_iff]
    simp only [Bool.or_eq_true, decide_eq_true_eq, hhead]
    simp
  have hfind := find_colon_at (lab.dropWhile is_trim_ws)
    (ws ++ op ++ rest.rdropWhile is_trim_ws) hlab1
  have htrim2 := trim_around ws op (rest.rdropWhile is_trim_ws) hne hopw
  by_cases hh : (lab.dropWhile is_trim_ws).head? = some '#'
  · rw [if_pos hh, if_pos hh]
    unfold label_of clean_of
    rw [hsk]
    simp only [hh, decide_True, if_true, and_self]
  · rw [if_neg hh, if_neg hh]
    unfold label_of clean_of
    rw [hsk, ht2, hfind]
    simp only [hh, decide_False, Bool.false_eq_true, if_false, Option.map_some', substr,
      substr_from, List.drop_zero, List.take_left', List.drop_left', htrim2]
    have e2 : List.drop ((lab.dropWhile is_trim_ws).length + 1)
        (lab.dropWhile is_trim_ws ++ ':' :: (ws ++ op ++ rest.rdropWhile is_trim_ws)) =
        ws ++ op ++ rest.rdropWhile is_trim_ws := by
      rw [← List.drop_drop, List.drop_left' rfl]
      rfl
    rw [e2, htrim2]
    obtain ⟨c0, o, rfl⟩ := List.exists_cons_of_ne_nil hne
    simp

/-- Two clean lines that differ in the letter case of the mnemonic decode to
the same instruction. -/
theorem parse_line_mnemonic (m : List (Str × Int)) (ws op op1 rest : Str)
    (hws : ∀ c ∈ ws, isspace c = true) (hrest : ∀ c, rest.head? = some c → isspace c = true)
    (hne : op ≠ []) (hop : ∀ c ∈ op, isspace c = false)
    (hne1 : op1 ≠ []) (hop1 : ∀ c ∈ op1, isspace c = false)
    (hcase : op.map toupper = op1.map toupper) :
    parse_line m (ws ++ op ++ rest) = parse_line m (ws ++ op1 ++ rest) := by
  rw [parse_line_tokens m _ op (tokens rest) (tokens_word ws op rest hws hne hop hrest),
    parse_line_tokens m _ op1 (tokens rest) (tokens_word ws op1 rest hws hne1 hop1 hrest),
    hcase]

theorem Pass1.Same.refl (st : Pass1) : Pass1.Same st st := ⟨rfl, rfl, fun _ => rfl⟩

theorem first_pass_line_same (st st1 : Pass1) (l l1 : Str) (hs : Pass1.Same st st1)
    (hL : label_of l = label_of l1)
    (hC : (clean_of l = none ∧ clean_of l1 = none) ∨
      ∃ t t1, clean_of l = some t ∧ clean_of l1 = some t1 ∧
        ∀ m, parse_line m t = parse_line m t1) :
    SameResult (first_pass_line st l) (first_pass_line st1 l1) := by
  obtain ⟨h1, h2, h3⟩ := hs
  have hcode : ∀ m, (st.clean_code ++ (clean_of l).toList).map (parse_line m) =
      (st1.clean_code ++ (clean_of l1).toList).map (parse_line m) := by
    intro m
    rcases hC with ⟨e, e1⟩ | ⟨t, t1, e, e1, hp⟩
    · rw [e, e1]
      simpa using h3 m
    · rw [e, e1]
      simp only [Option.toList_some, List.map_append, List.map_cons, List.map_nil, h3 m, hp m]
  have hbump : ∀ n, bump n (clean_of l) = bump n (clean_of l1) := by
    intro n
    rcases hC with ⟨e, e1⟩ | ⟨t, t1, e, e1, _⟩
    · rw [e, e1]
    · rw [e, e1]
      rfl
  rw [first_pass_line_eq, first_pass_line_eq, ← hL, ← h1, ← h2]
  cases label_of l with
  | none => exact ⟨rfl, hbump _, hcode⟩
  | some L =>
    simp only
    cases hlk : (List.lookup L st.label_map).isSome with
    | true =>
      simp only [if_true]
      exact rfl
    | false =>
      simp only [Bool.false_eq_true, if_false]
      exact ⟨rfl, hbump _, hcode⟩

theorem first_pass_from_same (src : List Str) : ∀ st st1 : Pass1, Pass1.Same st st1 →
    SameResult (first_pass_from st src) (first_pass_from st1 src) := by
  induction src with
  | nil => intro st st1 hs; exact hs
  | cons l rest ih =>
    intro st st1 hs
    have hl : SameResult (first_pass_line st l) (first_pass_line st1 l) := by
      apply first_pass_line_same st st1 l l hs rfl
      cases clean_of l with
      | none => exact Or.inl ⟨rfl, rfl⟩
      | some t => exact Or.inr ⟨t, t, rfl, rfl, fun _ => rfl⟩
    rw [first_pass_from_cons, first_pass_from_cons]
    cases h : first_pass_line st l with
    | error e =>
      cases h1 : first_pass_line st1 l with
      | error e1 => rw [h, h1] at hl; exact hl
      | ok b => rw [h, h1] at hl; exact hl.elim
    | ok a =>
      cases h1 : first_pass_line st1 l with
      | error e1 => rw [h, h1] at hl; exact hl.elim
      | ok b =>
        rw [h, h1] at hl
        exact ih a b hl

theorem assemble_of_same (src src1 : List Str)
    (h : SameResult (first_pass src) (first_pass src1)) : assemble src = assemble src1 := by
  unfold assemble
  cases h0 : first_pass src with
  | error e =>
    cases h1 : first_pass src1 with
    | error e1 => rw [h0, h1] at h; rw [show e = e1 from h]
    | ok b => rw [h0, h1] at h; exact h.elim
  | ok a =>
    cases h1 : first_pass src1 with
    | error e1 => rw [h0, h1] at h; exact h.elim
    | ok b =>
      rw [h0, h1] at h
      obtain ⟨e1, _, e3⟩ := h
      simp only [Except.ok.injEq]
      rw [e3 a.label_map, e1]

/-- Replacing one line by a line with the same label and an alike clean text
does not change the assembled program. -/
theorem assemble_line_same (before after : List Str) (l l1 : Str)
    (hL : label_of l = label_of l1)
    (hC : (clean_of l = none ∧ clean_of l1 = none) ∨
      ∃ t t1, clean_of l = some t ∧ clean_of l1 = some t1 ∧
        ∀ m, parse_line m t = parse_line m t1) :
    assemble (before ++ l :: after) = assemble (before ++ l1 :: after) := by
  apply assemble_of_same
  unfold first_pass
  rw [first_pass_from_append, first_pass_from_append]
  cases first_pass_from ⟨[], 0, []⟩ before with
  | error e => exact rfl
  | ok s =>
    simp only
    have hl := first_pass_line_same s s l l1 (Pass1.Same.refl s) hL hC
    rw [first_pass_from_cons, first_pass_from_cons]
    cases h : first_pass_line s l with
    | error e =>
      cases h1 : first_pass_line s l1 with
      | error e1 => rw [h, h1] at hl; exact hl
      | ok b => rw [h, h1] at hl; exact hl.elim
    | ok a =>
      cases h1 : first_pass_line s l1 with
      | error e1 => rw [h, h1] at hl; exact hl.elim
      | ok b =>
        rw [h, h1] at hl
        exact first_pass_from_same after a b hl

/-- Changing the letter case of the mnemonic of one source line does not
change what `assemble` returns. -/
theorem assemble_mnemonic_case (before after : List Str) (lead ws op op1 rest : Str)
    (hws : ∀ c ∈ ws, isspace c = true) (hrest : ∀ c, rest.head? = some c → isspace c = true)
    (hlead : (lead = ws ∧ ':' ∉ rest) ∨ ∃ lab, ':' ∉ lab ∧ lead = lab ++ ':' :: ws)
    (hne : op ≠ []) (hop : ∀ c ∈ op, isspace c = false ∧ c ≠ ':' ∧ c ≠ '#')
    (hne1 : op1 ≠ []) (hop1 : ∀ c ∈ op1, isspace c = false ∧ c ≠ ':' ∧ c ≠ '#')
    (hcase : op.map toupper = op1.map toupper) :
    assemble (before ++ (lead ++ op ++ rest) :: after) =
      assemble (before ++ (lead ++ op1 ++ rest) :: after) := by
  have hws1 : ∀ c ∈ ws.dropWhile is_trim_ws, isspace c = true :=
    fun c hc => hws c ((List.dropWhile_suffix _).subset hc)
  rcases hlead with ⟨rfl, hcol⟩ | ⟨lab, hlab, rfl⟩
  · obtain ⟨a1, a2⟩ := first_pass_parts_plain lead op rest hws hcol hne hop
    obtain ⟨b1, b2⟩ := first_pass_parts_plain lead op1 rest hws hcol hne1 hop1
    apply assemble_line_same before after _ _ (by rw [a1, b1])
    refine Or.inr ⟨_, _, a2, b2, fun m => ?_⟩
    exact parse_line_mnemonic m _ op op1 _ hws1
      (fun c hc => hrest c (head?_of_initial _ _ ( List.rdropWhile_prefix _ _) c hc))
      hne (fun c hc => (hop c hc).1) hne1 (fun c hc => (hop1 c hc).1) hcase
  · obtain ⟨a1, a2⟩ := first_pass_parts_label lab ws op rest hlab hne hop
    obtain ⟨b1, b2⟩ := first_pass_parts_label lab ws op1 rest hlab hne1 hop1
    apply assemble_line_same before after _ _ (by rw [a1, b1])
    by_cases hh : (lab.dropWhile is_trim_ws).head? = some '#'
    · rw [if_pos hh] at a2 b2
      exact Or.inl ⟨a2, b2⟩
    · rw [if_neg hh] at a2 b2
      refine Or.inr ⟨_, _, a2, b2, fun m => ?_⟩
      exact parse_line_mnemonic m _ op op1 _ hws1
        (fun c hc => hrest c (head?_of_initial _ _
          (List.IsPrefix.trans ( List.rdropWhile_prefix _ _) ( List.rdropWhile_prefix _ _)) c hc))
        hne (fun c hc => (hop c hc).1) hne1 (fun c hc => (hop1 c hc).1) hcase

/-! ## Decoding of the clean lines -/

theorem tokens_blank (ws : Str) (hws : ∀ c ∈ ws, isspace c = true) : tokens ws = [] := by
  have h := tokens_from_skip ws hws []
  rw [List.append_nil] at h
  exact h

theorem strip_comma_append (t : Str) : strip_comma (t ++ [',']) = t := by
  unfold strip_comma
  simp

theorem strip_comma_of_ne (a : Str) (h : a.getLast? ≠ some ',') : strip_comma a = a := by
  unfold strip_comma
  rw [if_neg h]

theorem resolve_arg_cases (m : List (Str × Int)) (opcode a : Str) :
    (is_jump_opcode opcode = true → ∀ n, m.lookup (strip_comma a) = some n →
      resolve_arg m opcode a = to_string n) ∧
    ((is_jump_opcode opcode = false ∨ m.lookup (strip_comma a) = none) →
      resolve_arg m opcode a = strip_comma a) := by
  constructor
  · intro hop n hl
    exact resolve_arg_label m opcode a n hop hl
  · intro h
    unfold resolve_arg
    rcases h with h | h
    · simp only [h, Bool.false_eq_true, if_false]
    · simp only [h, ite_self]

/-! ## A value loaded and printed -/

theorem mem_of_getLast?_append {α : Type} (xs ys : List α) (h : ys ≠ []) (c : α)
    (hc : (xs ++ ys).getLast? = some c) : c ∈ ys := by
  rw [List.getLast?_append] at hc
  cases hy : ys.getLast? with
  | none => exact absurd (List.getLast?_eq_none_iff.1 hy) h
  | some d =>
    rw [hy] at hc
    simp only [Option.or_some, Option.some.injEq] at hc
    subst hc
    exact List.mem_of_mem_getLast? hy

/-- The first pass on a line that has no white space at its ends, is not
empty, does not start with `#` and holds no `:`. -/
theorem first_pass_line_tight (st : Pass1) (line : Str) (ht : Tight line) (hne : line ≠ [])
    (hh : line.head? ≠ some '#') (hc : ':' ∉ line) :
    first_pass_line st line =
      .ok ⟨st.label_map, wrap32 (st.line_number + 1), st.clean_code ++ [line]⟩ := by
  have hsk : is_skipped line = false := by
    unfold is_skipped
    rw [trim_of_tight line ht]
    cases line with
    | nil => exact absurd rfl hne
    | cons c t => simpa using hh
  unfold first_pass_line
  simp only [hsk, Bool.false_eq_true, if_false, trim_of_tight line ht, find_colon_none line hc]
  cases line with
  | nil => exact absurd rfl hne
  | cons c t => rfl

theorem strip_comma_to_string (v : Int) : strip_comma (to_string v) = to_string v := by
  unfold strip_comma
  rw [if_neg]
  intro h
  exact (to_string_chars v _ (List.mem_of_mem_getLast? h)).2.2.1 rfl

theorem tight_word (w t : Str) (c : Char) (hc : is_trim_ws c = false) (hne : t ≠ [])
    (ht : ∀ x ∈ t, is_trim_ws x = false) : Tight (c :: w ++ t) := by
  constructor
  · intro x hx
    simp only [List.cons_append, List.head?_cons, Option.some.injEq] at hx
    exact hx ▸ hc
  · intro x hx
    exact ht x (mem_of_getLast?_append _ _ hne x hx)

theorem assemble_loadi_print (a v : Int) :
    assemble (loadi_print_source a v) = .ok (loadi_print_program a v) := by
  have ca := to_string_chars a
  have cv := to_string_chars v
  have na := to_string_ne_nil a
  have nv := to_string_ne_nil v
  have e1 : "LOADI ".toList ++ to_string a ++ ' ' :: to_string v =
      'L' :: ("OADI ".toList ++ to_string a ++ [' ']) ++ to_string v := by
    simp
  have e2 : "PRINT ".toList ++ to_string a = 'P' :: "RINT ".toList ++ to_string a := rfl
  have t1 : Tight ("LOADI ".toList ++ to_string a ++ ' ' :: to_string v) := by
    rw [e1]
    exact tight_word _ _ _ (by decide) nv (fun x hx => (cv x hx).2.1)
  have t2 : Tight ("PRINT ".toList ++ to_string a) := by
    rw [e2]
    exact tight_word _ _ _ (by decide) na (fun x hx => (ca x hx).2.1)
  have c1 : ':' ∉ "LOADI ".toList ++ to_string a ++ ' ' :: to_string v := by
    intro hm
    simp only [List.mem_append, List.mem_cons] at hm
    rcases hm with (hm | hm) | hm | hm
    · exact absurd hm (by decide)
    · exact (ca _ hm).2.2.2.1 rfl
    · exact absurd hm (by decide)
    · exact (cv _ hm).2.2.2.1 rfl
  have c2 : ':' ∉ "PRINT ".toList ++ to_string a := by
    intro hm
    simp only [List.mem_append] at hm
    rcases hm with hm | hm
    · exact absurd hm (by decide)
    · exact (ca _ hm).2.2.2.1 rfl
  have f1 := first_pass_line_tight ⟨[], 0, []⟩ _ t1 (by rw [e1]; simp) (by rw [e1]; simp) c1
  have f2 := first_pass_line_tight ⟨[], wrap32 (0 + 1),
    [] ++ ["LOADI ".toList ++ to_string a ++ ' ' :: to_string v]⟩ _ t2
    (by rw [e2]; simp) (by rw [e2]; simp) c2
  have hfp : first_pass (loadi_print_source a v) = .ok ⟨[], wrap32 (wrap32 (0 + 1) + 1),
      [] ++ ["LOADI ".toList ++ to_string a ++ ' ' :: to_string v] ++
        ["PRINT ".toList ++ to_string a]⟩ := by
    unfold first_pass loadi_print_source
    rw [first_pass_from_cons, f1]
    simp only
    rw [first_pass_from_cons, f2]
    rfl
  have hsp : ∀ c, (' ' :: to_string v).head? = some c → isspace c = true := by
    intro c hc
    simp only [List.head?_cons, Option.some.injEq] at hc
    subst hc
    decide
  have k1 : tokens ("LOADI ".toList ++ to_string a ++ ' ' :: to_string v) =
      ["LOADI".toList, to_string a, to_string v] := by
    have s1 : "LOADI ".toList ++ to_string a ++ ' ' :: to_string v =
        [] ++ "LOADI".toList ++ ([' '] ++ to_string a ++ ([' '] ++ to_string v ++ [])) := by
      simp
    rw [s1, tokens_word [] _ _ (by simp) (by decide) (by decide) (by simp; decide),
      tokens_word [' '] _ _ (by decide) na (fun c hc => (ca c hc).1) (by simp; decide),
      tokens_word [' '] _ _ (by decide) nv (fun c hc => (cv c hc).1) (by simp)]
    rfl
  have k2 : tokens ("PRINT ".toList ++ to_string a) = ["PRINT".toList, to_string a] := by
    have s2 : "PRINT ".toList ++ to_string a =
        [] ++ "PRINT".toList ++ ([' '] ++ to_string a ++ []) := by
      simp
    rw [s2, tokens_word [] _ _ (by simp) (by decide) (by decide) (by simp; decide),
      tokens_word [' '] _ _ (by decide) na (fun c hc => (ca c hc).1) (by simp)]
    rfl
  have r1 : ∀ x : Int, resolve_arg [] "LOADI".toList (to_string x) = to_string x := by
    intro x
    unfold resolve_arg
    simp only [strip_comma_to_string, show is_jump_opcode "LOADI".toList = false by decide,
      Bool.false_eq_true, if_false]
  have r2 : ∀ x : Int, resolve_arg [] "PRINT".toList (to_string x) = to_string x := by
    intro x
    unfold resolve_arg
    simp only [strip_comma_to_string, show is_jump_opcode "PRINT".toList = false by decide,
      Bool.false_eq_true, if_false]
  rw [assemble_ok_iff_first_pass]
  refine ⟨_, hfp, ?_⟩
  simp only [List.nil_append, List.cons_append, List.map_cons, List.map_nil]
  rw [parse_line_tokens _ _ _ _ k1, parse_line_tokens _ _ _ _ k2]
  simp only [List.map_cons, List.map_nil]
  rw [show "LOADI".toList.map toupper = "LOADI".toList by decide,
    show "PRINT".toList.map toupper = "PRINT".toList by decide, r1, r1, r2]
  rfl

theorem debug_line_loadi (vm : VM) (a v : Int) (h : vm.program_counter = 0) :
    debug_line vm ⟨"LOADI".toList, [to_string a, to_string v]⟩ =
      "PC:0 > LOADI ".toList ++ to_string a ++ ' ' :: to_string v := by
  unfold debug_line
  rw [h]
  simp only [List.foldl_cons, List.foldl_nil, show to_string 0 = "0".toList by decide]
  simp

theorem debug_line_print (vm : VM) (a : Int) (h : vm.program_counter = 1) :
    debug_line vm ⟨"PRINT".toList, [to_string a]⟩ = "PC:1 > PRINT ".toList ++ to_string a := by
  unfold debug_line
  rw [h]
  simp only [List.foldl_cons, List.foldl_nil, show to_string 1 = "1".toList by decide]
  simp

/-- The run of the program `LOADI a v`, `PRINT a` on a fresh machine. -/
theorem run_loadi_print (a v : Int) (ha0 : 0 ≤ a) (ha1 : a < 256)
    (hv0 : -2147483648 ≤ v) (hv1 : v ≤ 2147483647) (fuel : Nat) (hf : 3 ≤ fuel) :
    run_program fuel VM.init (loadi_print_program a v) =
      some (⟨VM.init.memory.set a.toNat v, [], 2, true, false⟩, loadi_print_out a v) := by
  have sa : stoi (to_string a) = .ok a := stoi_to_string a (by omega) (by omega)
  have sv : stoi (to_string v) = .ok v := stoi_to_string v hv0 hv1
  have hlt : a.toNat < 256 := by omega
  have hset : mem_set VM.init.memory a v = .ok (VM.init.memory.set a.toNat v) :=
    mem_set_of VM.init.memory a 0 v ha0 (by omega)
      (by
        unfold VM.init
        simp only [List.getElem?_replicate, hlt, if_true])
  have hget : mem_at (VM.init.memory.set a.toNat v) a = .ok v :=
    mem_at_of _ a v ha0 (by omega)
      (List.getElem?_set_self (by unfold VM.init; simpa using hlt))
  have x0 : execute_instruction ⟨VM.init.memory, [], 0, true, false⟩
      ⟨"LOADI".toList, [to_string a, to_string v]⟩
      ["--- Executing Program ---".toList,
        "PC:0 > LOADI ".toList ++ to_string a ++ ' ' :: to_string v] =
      ⟨⟨VM.init.memory.set a.toNat v, [], 0, true, false⟩,
        ["--- Executing Program ---".toList,
          "PC:0 > LOADI ".toList ++ to_string a ++ ' ' :: to_string v], none⟩ := by
    apply execute_instruction_of_ok
    rw [execute_try_LOADI _ _ _ rfl]
    exact exec_LOADI_ok _ _ _ a v _ (arg_int_of _ 0 _ a rfl sa) (arg_int_of _ 1 _ v rfl sv) hset
  have x1 : execute_instruction ⟨VM.init.memory.set a.toNat v, [], 1, true, false⟩
      ⟨"PRINT".toList, [to_string a]⟩
      ["--- Executing Program ---".toList,
        "PC:0 > LOADI ".toList ++ to_string a ++ ' ' :: to_string v,
        "PC:1 > PRINT ".toList ++ to_string a] =
      ⟨⟨VM.init.memory.set a.toNat v, [], 1, true, false⟩,
        ["--- Executing Program ---".toList,
          "PC:0 > LOADI ".toList ++ to_string a ++ ' ' :: to_string v,
          "PC:1 > PRINT ".toList ++ to_string a] ++ [to_string v], none⟩ := by
    apply execute_instruction_of_ok
    rw [execute_try_PRINT _ _ _ rfl]
    exact exec_PRINT_ok _ _ _ a v (arg_int_of _ 0 _ a rfl sa) hget
  have y0 : cycle ⟨VM.init.memory, [], 0, true, false⟩
      ⟨"LOADI".toList, [to_string a, to_string v]⟩ ["--- Executing Program ---".toList] =
      (⟨VM.init.memory.set a.toNat v, [], 1, true, false⟩,
        ["--- Executing Program ---".toList,
          "PC:0 > LOADI ".toList ++ to_string a ++ ' ' :: to_string v]) := by
    rw [cycle_of_ok _ _ _ _ _ (by rw [debug_line_loadi _ a v rfl]; exact x0)]
    rfl
  have y1 : cycle ⟨VM.init.memory.set a.toNat v, [], 1, true, false⟩
      ⟨"PRINT".toList, [to_string a]⟩
      ["--- Executing Program ---".toList,
        "PC:0 > LOADI ".toList ++ to_string a ++ ' ' :: to_string v] =
      (⟨VM.init.memory.set a.toNat v, [], 2, true, false⟩,
        ["--- Executing Program ---".toList,
          "PC:0 > LOADI ".toList ++ to_string a ++ ' ' :: to_string v,
          "PC:1 > PRINT ".toList ++ to_string a, to_string v]) := by
    rw [cycle_of_ok _ _ _ _ _ (by rw [debug_line_print _ a rfl]; exact x1)]
    rfl
  obtain ⟨k, rfl⟩ : ∃ k, fuel = k + 3 := ⟨fuel - 3, by omega⟩
  have hl : run_loop (k + 3)
      [⟨"LOADI".toList, [to_string a, to_string v]⟩, ⟨"PRINT".toList, [to_string a]⟩]
      ⟨VM.init.memory, [], 0, true, false⟩ ["--- Executing Program ---".toList] =
      some (⟨VM.init.memory.set a.toNat v, [], 2, true, false⟩,
        ["--- Executing Program ---".toList,
          "PC:0 > LOADI ".toList ++ to_string a ++ ' ' :: to_string v,
          "PC:1 > PRINT ".toList ++ to_string a, to_string v]) := by
    rw [run_loop]
    have g0 : fetch ⟨VM.init.memory, [], 0, true, false⟩
        [⟨"LOADI".toList, [to_string a, to_string v]⟩, ⟨"PRINT".toList, [to_string a]⟩] =
        some ⟨"LOADI".toList, [to_string a, to_string v]⟩ := rfl
    simp only [g0, y0]
    rw [run_loop]
    have g1 : fetch ⟨VM.init.memory.set a.toNat v, [], 1, true, false⟩
        [⟨"LOADI".toList, [to_string a, to_string v]⟩, ⟨"PRINT".toList, [to_string a]⟩] =
        some ⟨"PRINT".toList, [to_string a]⟩ := rfl
    simp only [g1, y1]
    rw [run_loop]
    have g2 : fetch ⟨VM.init.memory.set a.toNat v, [], 2, true, false⟩
        [⟨"LOADI".toList, [to_string a, to_string v]⟩, ⟨"PRINT".toList, [to_string a]⟩] =
        none := rfl
    simp only [g2]
  have hrun : run_program (k + 3) VM.init (loadi_print_program a v) =
      match run_loop (k + 3)
        [⟨"LOADI".toList, [to_string a, to_string v]⟩, ⟨"PRINT".toList, [to_string a]⟩]
        ⟨VM.init.memory, [], 0, true, false⟩ ["--- Executing Program ---".toList] with
      | none => none
      | some (vm1, out1) =>
        if vm1.is_running then
          some (vm1, serial_log out1 "--- Program Completed ---".toList true)
        else some (vm1, serial_log out1 "--- Program Halted ---".toList true) := rfl
  rw [hrun, hl]
  rfl

/-- C13: for an address `a` with `0 ≤ a < 256` and an `int` `v`, the source
of the two lines `LOADI a v` and `PRINT a` (the numbers written by
`std::to_string`) assembles, and its run on a fresh machine ends within three
loop tests with the machine still running, `memory[a] = v`, and the standard
output made of the opening line, the two trace lines of the debug mode, the
one line written by `PRINT`, which is the decimal text of `v`, and the line
`--- Program Completed ---`; no line is a `FATAL ERROR` line. The decimal
text of `v` read back by `std::stoi` gives `v`. -/
theorem loadi_print_roundtrip (a v : Int) (fuel : Nat) (ha0 : 0 ≤ a) (ha1 : a < 256)
    (hv0 : -2147483648 ≤ v) (hv1 : v ≤ 2147483647) (hf : 3 ≤ fuel) :
    stoi (to_string v) = .ok v ∧
    run_source fuel (loadi_print_source a v) =
      .ok (some (⟨VM.init.memory.set a.toNat v, [], 2, true, false⟩, loadi_print_out a v)) ∧
    (∀ line ∈ loadi_print_out a v, is_fatal line = false) := by
  refine ⟨stoi_to_string v hv0 hv1, ?_, ?_⟩
  · unfold run_source
    rw [assemble_loadi_print]
    simp only [run_loadi_print a v ha0 ha1 hv0 hv1 fuel hf]
  · intro line hl
    unfold loadi_print_out at hl
    simp only [List.mem_cons, List.mem_singleton, List.not_mem_nil, or_false] at hl
    rcases hl with rfl | rfl | rfl | rfl | rfl
    · decide
    · exact is_fatal_cons 'P' _ (by decide)
    · exact is_fatal_cons 'P' _ (by decide)
    · exact is_fatal_to_string v
    · decide

/-- C13 at `LOADI 0 5`, `PRINT 0`. -/
theorem loadi_print_roundtrip_witness :
    ((0 : Int) ≤ 0 ∧ (0 : Int) < 256 ∧ (-2147483648 : Int) ≤ 5 ∧ (5 : Int) ≤ 2147483647 ∧
      3 ≤ 3) ∧
    (loadi_print_source 0 5 = ["LOADI 0 5".toList, "PRINT 0".toList] ∧
      loadi_print_out 0 5 =
        ["--- Executing Program ---".toList, "PC:0 > LOADI 0 5".toList,
          "PC:1 > PRINT 0".toList, "5".toList, "--- Program Completed ---".toList]) ∧
    stoi (to_string 5) = .ok 5 ∧
    run_source 3 (loadi_print_source 0 5) =
      .ok (some (⟨VM.init.memory.set (0 : Int).toNat 5, [], 2, true, false⟩,
        loadi_print_out 0 5)) ∧
    (∀ line ∈ loadi_print_out 0 5, is_fatal line = false) :=
  ⟨⟨by decide, by decide, by decide, by decide, by decide⟩, ⟨by decide, by decide⟩,
   loadi_print_roundtrip 0 5 3 (by decide) (by decide) (by decide) (by decide) (by decide)⟩

/-! ## Numbers followed by other characters -/

/-- What `std::stoi` makes of the decimal text of an `int` followed by
characters that do not start with a digit: the `int`. -/
theorem stoi_to_string_append (v : Int) (junk : Str) (h1 : -2147483648 ≤ v)
    (h2 : v ≤ 2147483647) (hj : ∀ c, junk.head? = some c → isdigit c = false) :
    stoi (to_string v ++ junk) = .ok v := by
  obtain ⟨ds, e, hne, hd, hv⟩ := to_string_spec v
  obtain ⟨c0, t, rfl⟩ := List.exists_cons_of_ne_nil hne
  obtain ⟨d0, hd0, hc0⟩ := hd c0 (List.mem_cons_self _ _)
  have p0 := digit_char_props d0 hd0
  rw [← hc0] at p0
  have hall : ∀ c ∈ c0 :: t, isdigit c = true := by
    intro c hc
    obtain ⟨d, hd1, rfl⟩ := hd c hc
    exact (digit_char_props d hd1).1
  have htake : (c0 :: t ++ junk).takeWhile isdigit = c0 :: t := by
    rw [List.takeWhile_append_of_pos hall]
    cases junk with
    | nil => simp
    | cons j js =>
      have : isdigit j = false := hj j rfl
      simp [List.takeWhile, this]
  rw [e]
  by_cases hneg : v < 0
  · rw [if_pos hneg]
    unfold stoi
    have hs : ('-' :: c0 :: t ++ junk).dropWhile isspace = '-' :: (c0 :: t ++ junk) :=
      List.dropWhile_cons_of_neg (by decide)
    simp only [hs, List.head?_cons, true_or, if_true, List.tail_cons, htake]
    unfold stoi_digits
    simp only [List.isEmpty_cons, Bool.false_eq_true, if_false, decide_True, if_true, hv]
    rw [if_neg (by omega)]
    congr 1
    omega
  · rw [if_neg hneg]
    unfold stoi
    have hs : (c0 :: t ++ junk).dropWhile isspace = c0 :: (t ++ junk) :=
      List.dropWhile_cons_of_neg (by rw [p0.2.1]; decide)
    have hm1 : ¬ (some c0 = some '-') := by
      simp only [Option.some.injEq]
      exact p0.2.2.2.1
    have hm2 : ¬ (some c0 = some '+') := by
      simp only [Option.some.injEq]
      exact p0.2.2.2.2.1
    have htake2 : (c0 :: (t ++ junk)).takeWhile isdigit = c0 :: t := htake
    simp only [hs, List.head?_cons, hm1, hm2, or_self, if_false, htake2, decide_False]
    unfold stoi_digits
    simp only [List.isEmpty_cons, Bool.false_eq_true, if_false, hv]
    rw [if_neg (by omega)]
    congr 1
    omega

/-- The decimal text of an `int` followed by characters that do not start
with a digit is not a well-formed literal. -/
theorem spec_integer_literal_append (v : Int) (junk : Str) (hne : junk ≠ [])
    (hj : ∀ c, junk.head? = some c → isdigit c = false) :
    spec_integer_literal (to_string v ++ junk) = false := by
  obtain ⟨ds, e, hds, hd, _⟩ := to_string_spec v
  obtain ⟨c0, t, rfl⟩ := List.exists_cons_of_ne_nil hds
  obtain ⟨d0, hd0, hc0⟩ := hd c0 (List.mem_cons_self _ _)
  have p0 := digit_char_props d0 hd0
  rw [← hc0] at p0
  obtain ⟨j, js, rfl⟩ := List.exists_cons_of_ne_nil hne
  have hjd : isdigit j = false := hj j rfl
  have hall : (c0 :: t ++ j :: js).all isdigit = false := by
    rw [List.all_eq_false]
    exact ⟨j, by simp, by rw [hjd]; decide⟩
  rw [e]
  unfold spec_integer_literal
  by_cases hneg : v < 0
  · rw [if_pos hneg]
    simp only [List.cons_append, List.head?_cons, true_or, if_true, List.tail_cons]
    rw [← List.cons_append, hall]
    simp
  · rw [if_neg hneg]
    have hm1 : ¬ (some c0 = some '-') := by
      simp only [Option.some.injEq]
      exact p0.2.2.2.1
    have hm2 : ¬ (some c0 = some '+') := by
      simp only [Option.some.injEq]
      exact p0.2.2.2.2.1
    simp only [List.cons_append, List.head?_cons, hm1, hm2, or_self, if_false]
    rw [← List.cons_append, hall]
    simp

/-- C16 fails on the code: `std::stoi` reads the number at the start of an
argument and ignores what follows it. For every `int` `v` and every non-empty
text `junk` that does not start with a digit, the argument made of the
decimal text of `v` followed by `junk` is not a well-formed integer literal,
yet `PUSHI` with that argument pushes `v` and raises no fault. -/
theorem malformed_argument_accepted (vm : VM) (out : List Str) (v : Int) (junk : Str)
    (hv : -2147483648 ≤ v ∧ v ≤ 2147483647) (hne : junk ≠ [])
    (hj : ∀ c, junk.head? = some c → isdigit c = false) :
    spec_integer_literal (to_string v ++ junk) = false ∧
    ("PUSHI".toList, 0) ∈ integer_args ∧
    execute_instruction vm ⟨"PUSHI".toList, [to_string v ++ junk]⟩ out =
      ⟨{ vm with system_stack := v :: vm.system_stack }, out, none⟩ := by
  refine ⟨spec_integer_literal_append v junk hne hj, by decide, ?_⟩
  apply execute_instruction_of_ok
  rw [execute_try_PUSHI _ _ _ rfl]
  exact exec_PUSHI_ok _ _ _ v
    (arg_int_of _ 0 _ v rfl (stoi_to_string_append v junk hv.1 hv.2 hj))

/-- C16 fails at `PUSHI 5abc`, which pushes 5, and at `JUMP 2nd`, which jumps
to index 2; the program `sample_malformed` runs to completion and prints 5.
An argument without a number at its start, as in `PUSHI abc5`, is rejected
with the malformed-argument error. -/
theorem malformed_argument_accepted_witness :
    (((-2147483648 : Int) ≤ 5 ∧ (5 : Int) ≤ 2147483647) ∧ "abc".toList ≠ [] ∧
      (∀ c, "abc".toList.head? = some c → isdigit c = false) ∧
      to_string 5 ++ "abc".toList = "5abc".toList) ∧
    (spec_integer_literal (to_string 5 ++ "abc".toList) = false ∧
      ("PUSHI".toList, 0) ∈ integer_args ∧
      execute_instruction VM.init ⟨"PUSHI".toList, [to_string 5 ++ "abc".toList]⟩ [] =
        ⟨{ VM.init with system_stack := 5 :: VM.init.system_stack }, [], none⟩) ∧
    (spec_integer_literal "2nd".toList = false ∧ ("JUMP".toList, 0) ∈ integer_args ∧
      execute_instruction sample_vm ⟨"JUMP".toList, ["2nd".toList]⟩ sample_out =
        ⟨{ sample_vm with program_counter := 1 }, sample_out, none⟩) ∧
    (run_source 10 sample_malformed).map (Option.map Prod.snd) =
      .ok (some sample_malformed_out) ∧
    (execute_instruction VM.init ⟨"PUSHI".toList, ["abc5".toList]⟩ []).thrown =
      some "Execution error for PUSHI: Invalid number format in arguments.".toList :=
  ⟨⟨by decide, by decide, by decide, by decide⟩,
   malformed_argument_accepted VM.init [] 5 "abc".toList (by decide) (by decide) (by decide),
   by decide, by decide, by decide⟩

/-! ## The opcodes whose arguments are resolved -/

theorem is_jump_opcode_iff (op : Str) :
    is_jump_opcode op = true ↔
      op = "JUMP".toList ∨ op = "CALL".toList ∨ op = "JZE".toList ∨ op = "JNE".toList := by
  unfold is_jump_opcode
  simp only [Bool.or_eq_true, decide_eq_true_eq, or_assoc]

theorem is_jump_opcode_false_iff (op : Str) :
    is_jump_opcode op = false ↔
      op ≠ "JUMP".toList ∧ op ≠ "CALL".toList ∧ op ≠ "JZE".toList ∧ op ≠ "JNE".toList := by
  rw [← Bool.not_eq_true, is_jump_opcode_iff]
  simp only [not_or, ne_eq]

theorem toupper_letters :
    "abcdefghijklmnopqrstuvwxyz".toList.map toupper = "ABCDEFGHIJKLMNOPQRSTUVWXYZ".toList := by
  decide

theorem toupper_other (c : Char) (h : c ∉ "abcdefghijklmnopqrstuvwxyz".toList) :
    toupper c = c := by
  unfold toupper
  rw [if_neg]
  rintro ⟨h1, h2⟩
  apply h
  have e : c = Char.ofNat c.toNat := (Char.ofNat_toNat c).symm
  have g1 : 97 ≤ c.toNat := h1
  have g2 : c.toNat ≤ 122 := h2
  generalize c.toNat = n at e g1 g2
  subst e
  interval_cases n <;> decide

/-- The keys of the label map after the first pass: those it had before and
the labels of the lines. -/
theorem first_pass_from_keys (src : List Str) : ∀ (st st1 : Pass1) (L : Str),
    first_pass_from st src = .ok st1 →
      ((st1.label_map.lookup L).isSome = true ↔
        (st.label_map.lookup L).isSome = true ∨ ∃ line ∈ src, label_of line = some L) := by
  induction src with
  | nil =>
    intro st st1 L h
    simp only [first_pass_from, Except.ok.injEq] at h
    subst h
    simp
  | cons l rest ih =>
    intro st st1 L h
    rw [first_pass_from_cons] at h
    cases hl : first_pass_line st l with
    | error e => rw [hl] at h; cases h
    | ok s =>
      rw [hl] at h
      simp only at h
      rw [ih s st1 L h]
      rw [first_pass_line_eq] at hl
      cases hlab : label_of l with
      | none =>
        rw [hlab] at hl
        simp only [Except.ok.injEq] at hl
        subst hl
        simp only [List.mem_cons, exists_eq_or_imp, hlab, false_or]
        simp
      | some K =>
        rw [hlab] at hl
        simp only at hl
        split at hl
        · cases hl
        · simp only [Except.ok.injEq] at hl
          subst hl
          simp only [List.mem_cons, exists_eq_or_imp, hlab, Option.some.injEq]
          by_cases hK : L = K
          · subst hK
            simp [List.lookup]
          · have hne : (L == K) = false := by simpa using hK
            simp only [List.lookup, hne]
            constructor
            · rintro (h1 | h2)
              · exact Or.inl h1
              · exact Or.inr (Or.inr h2)
            · rintro (h1 | h2 | h2)
              · exact Or.inl h1
              · exact absurd h2.symm hK
              · exact Or.inr h2

/-- C19: when the first pass succeeds, its clean lines are the texts the
lines of the source leave, in order, the keys of its label map are the labels
the lines define, and the program `assemble` returns holds one instruction
per clean line, in order. A clean line without a token gives an instruction
with an empty opcode and no argument; otherwise the opcode is the first token
with `toupper` applied to every character, and the arguments are the
remaining tokens in order, each without its trailing comma if it has one: an
argument is replaced by the decimal text of the index of a label when the
opcode is `JUMP`, `CALL`, `JZE` or `JNE` and the token without its comma is a
key of the label map, and it is the token without its comma when the opcode
is none of these four or the token without its comma is not a key.
`toupper` maps the letters `a` to `z` to `A` to `Z` and leaves every other
character as it is. The tokens are the maximal runs of non-space characters:
a text of white space `ws` has none, and the text `ws ++ op ++ rest`, with
`op` a non-empty run of non-space characters and `rest` empty or starting
with white space, has `op` as its first token. Changing the letter case of
the mnemonic `op` of a source line `lead ++ op ++ rest`, where `lead` is `ws`
or a label part, a `:` and `ws`, does not change what `assemble` returns. -/
theorem clean_line_decoded (src : List Str) (st : Pass1) (before after : List Str)
    (lead ws op op1 rest : Str) (hws : ∀ c ∈ ws, isspace c = true)
    (hrest : ∀ c, rest.head? = some c → isspace c = true)
    (hne : op ≠ []) (hop : ∀ c ∈ op, isspace c = false) :
    (first_pass src = .ok st →
      st.clean_code = src.filterMap clean_of ∧
      (∀ L : Str, (st.label_map.lookup L).isSome = true ↔
        ∃ line ∈ src, label_of line = some L) ∧
      ∃ prog : List Instruction, assemble src = .ok prog ∧ prog.length = st.clean_code.length ∧
        ∀ (i : Nat) (line : Str) (inst : Instruction),
          st.clean_code[i]? = some line → prog[i]? = some inst →
            (tokens line = [] → inst = ⟨[], []⟩) ∧
            ∀ tok toks, tokens line = tok :: toks →
              inst.opcode = tok.map toupper ∧ inst.args.length = toks.length ∧
              ∀ (j : Nat) (a : Str), toks[j]? = some a →
                ((inst.opcode = "JUMP".toList ∨ inst.opcode = "CALL".toList ∨
                    inst.opcode = "JZE".toList ∨ inst.opcode = "JNE".toList) →
                  ∀ n, st.label_map.lookup (strip_comma a) = some n →
                    inst.args[j]? = some (to_string n)) ∧
                (((inst.opcode ≠ "JUMP".toList ∧ inst.opcode ≠ "CALL".toList ∧
                      inst.opcode ≠ "JZE".toList ∧ inst.opcode ≠ "JNE".toList) ∨
                    st.label_map.lookup (strip_comma a) = none) →
                  inst.args[j]? = some (strip_comma a))) ∧
    ("abcdefghijklmnopqrstuvwxyz".toList.map toupper = "ABCDEFGHIJKLMNOPQRSTUVWXYZ".toList ∧
      ∀ c : Char, c ∉ "abcdefghijklmnopqrstuvwxyz".toList → toupper c = c) ∧
    (tokens ws = [] ∧ tokens (ws ++ op ++ rest) = op :: tokens rest) ∧
    ((∀ t : Str, strip_comma (t ++ [',']) = t) ∧
      ∀ a : Str, a.getLast? ≠ some ',' → strip_comma a = a) ∧
    (((lead = ws ∧ ':' ∉ rest) ∨ ∃ lab, ':' ∉ lab ∧ lead = lab ++ ':' :: ws) →
      (∀ c ∈ op, c ≠ ':' ∧ c ≠ '#') →
      (op1 ≠ [] ∧ ∀ c ∈ op1, isspace c = false ∧ c ≠ ':' ∧ c ≠ '#') →
      op.map toupper = op1.map toupper →
      assemble (before ++ (lead ++ op ++ rest) :: after) =
        assemble (before ++ (lead ++ op1 ++ rest) :: after)) := by
  refine ⟨?_, ⟨toupper_letters, toupper_other⟩,
    ⟨tokens_blank ws hws, tokens_word ws op rest hws hne hop hrest⟩,
    ⟨strip_comma_append, strip_comma_of_ne⟩, ?_⟩
  · intro hfp
    refine ⟨?_, ?_, st.clean_code.map (parse_line st.label_map), ?_, List.length_map _ _, ?_⟩
    · have := first_pass_from_clean src _ st hfp
      simpa using this
    · intro L
      have := first_pass_from_keys src _ st L hfp
      simpa using this
    · exact (assemble_ok_iff_first_pass src _).2 ⟨st, hfp, rfl⟩
    · intro i line inst hline hinst
      rw [List.getElem?_map, hline, Option.map_some', Option.some.injEq] at hinst
      subst hinst
      constructor
      · intro ht
        unfold parse_line
        rw [ht]
      · intro tok toks ht
        rw [parse_line_tokens _ _ tok toks ht]
        refine ⟨rfl, List.length_map _ _, ?_⟩
        intro j a ha
        simp only [List.getElem?_map, ha, Option.map_some', Option.some.injEq]
        obtain ⟨r1, r2⟩ := resolve_arg_cases st.label_map (tok.map toupper) a
        constructor
        · intro hj
          exact r1 ((is_jump_opcode_iff _).2 hj)
        · intro h
          apply r2
          rcases h with h | h
          · exact Or.inl ((is_jump_opcode_false_iff _).2 h)
          · exact Or.inr h
  · intro hlead hop2 hop1 hcase
    exact assemble_mnemonic_case before after lead ws op op1 rest hws hrest hlead hne
      (fun c hc => ⟨hop c hc, hop2 c hc⟩) hop1.1 hop1.2 hcase

/-- C19 at `sample_case_lower`, whose first line is `loop: pushi 7,`, and at
`sample_labels`, where the label `f` is an argument of seven opcodes and is
replaced for `JUMP`, `CALL`, `JZE` and `JNE` only. -/
theorem clean_line_decoded_witness :
    ((∀ c ∈ " ".toList, isspace c = true) ∧
      (∀ c, " 7,".toList.head? = some c → isspace c = true) ∧
      "pushi".toList ≠ [] ∧ (∀ c ∈ "pushi".toList, isspace c = false) ∧
      first_pass sample_case_lower =
        .ok ⟨[("loop".toList, 0)], 2, ["pushi 7,".toList, "Jump loop".toList]⟩ ∧
      (∀ c ∈ "pushi".toList, c ≠ ':' ∧ c ≠ '#') ∧
      ("PUSHI".toList ≠ [] ∧
        ∀ c ∈ "PUSHI".toList, isspace c = false ∧ c ≠ ':' ∧ c ≠ '#') ∧
      "pushi".toList.map toupper = "PUSHI".toList.map toupper) ∧
    assemble sample_case_lower =
      .ok [⟨"PUSHI".toList, ["7".toList]⟩, ⟨"JUMP".toList, ["0".toList]⟩] ∧
    assemble sample_labels = .ok sample_labels_program ∧
    assemble sample_case_lower = assemble sample_case_upper :=
  ⟨⟨by decide, by decide, by decide, by decide, by decide, by decide, by decide, by decide⟩,
   by decide, by decide,
   (clean_line_decoded sample_case_lower
      ⟨[("loop".toList, 0)], 2, ["pushi 7,".toList, "Jump loop".toList]⟩ []
      ["Jump loop".toList] "loop: ".toList " ".toList "pushi".toList "PUSHI".toList
      " 7,".toList (by decide) (by decide) (by decide) (by decide)).2.2.2.2
    (Or.inr ⟨"loop".toList, by decide, rfl⟩) (by decide) (by decide) (by decide)⟩

end Cmvm


